import Mathlib

/-!
# Self-driving car simulation kernel

A shallow embedding of the simulation kernel (`utils.js`, `network.js`,
`sensor.js`, `car.js`, `controls.js`, `road.js`) over an arbitrary linearly
ordered field `α` standing for exact arithmetic, followed by theorems about
the embedded functions.

Conventions of the embedding:
* a JavaScript number that may be `undefined`/`NaN` is an `Option α`
  (`none` is `undefined`, which every arithmetic operator turns into `NaN`,
  and every comparison with `NaN` is false);
* a function that can throw a `TypeError` returns `Except JsError _`;
* `Math.sin`, `Math.cos`, `Math.hypot`, `Math.atan2` and `Math.PI` are
  parameters (`JsMath`), instantiated with the real functions in theorems;
* `Math.random()` is a sequence `rand : Nat → α` of draws together with the
  number of draws already made.
-/

set_option autoImplicit false
set_option linter.unusedSectionVars false

namespace SelfDrivingCar

/-! ## utils.js -/

/-- A point `{x, y}`. -/
structure Point (α : Type) where
  x : α
  y : α
deriving DecidableEq, Repr

/-- The object `{x, y, offset}` returned by `getIntersection`. -/
structure Touch (α : Type) where
  x : α
  y : α
  offset : α
deriving DecidableEq, Repr

section Utils

variable {α : Type} [LinearOrderedField α]

/-- `lerp(A, B, t)` of `utils.js`: `A + (B - A) * t`. -/
def lerp (A B t : α) : α :=
  A + (B - A) * t

/-- The numerator `tTop` of `getIntersection`. -/
def tTop (A _B C D : Point α) : α :=
  (D.x - C.x) * (A.y - C.y) - (D.y - C.y) * (A.x - C.x)

/-- The numerator `uTop` of `getIntersection`. -/
def uTop (A B C _D : Point α) : α :=
  (C.y - A.y) * (A.x - B.x) - (C.x - A.x) * (A.y - B.y)

/-- The denominator `bottom` of `getIntersection`. -/
def bottom (A B C D : Point α) : α :=
  (D.y - C.y) * (B.x - A.x) - (D.x - C.x) * (B.y - A.y)

/-- `getIntersection(A, B, C, D)` of `utils.js`; `none` is `null`. -/
def getIntersection (A B C D : Point α) : Option (Touch α) :=
  if bottom A B C D ≠ 0 then
    let t := tTop A B C D / bottom A B C D
    let u := uTop A B C D / bottom A B C D
    if 0 ≤ t ∧ t ≤ 1 ∧ 0 ≤ u ∧ u ≤ 1 then
      some { x := lerp A.x B.x t, y := lerp A.y B.y t, offset := t }
    else
      none
  else
    none

/-- The body of the inner loop of `polysIntersect` at indices `i`, `j`:
whether `touch` is truthy.  The four array reads are in range whenever
`i < poly1.length` and `j < poly2.length`. -/
def edgesTouch (poly1 poly2 : List (Point α)) (i j : Nat) : Bool :=
  match poly1[i]?, poly1[(i + 1) % poly1.length]?,
        poly2[j]?, poly2[(j + 1) % poly2.length]? with
  | some a, some b, some c, some d => (getIntersection a b c d).isSome
  | _, _, _, _ => false

/-- `polysIntersect(poly1, poly2)` of `utils.js`: the two nested index loops
returning `true` at the first truthy `touch`, `false` after both loops. -/
def polysIntersect (poly1 poly2 : List (Point α)) : Bool :=
  (List.range poly1.length).any fun i =>
    (List.range poly2.length).any fun j => edgesTouch poly1 poly2 i j

end Utils

/-! ## network.js -/

/-- The run-time failures of the embedded code: reading a property of
`undefined` throws a `TypeError`. -/
inductive JsError where
  | typeError
deriving DecidableEq, Repr

/-- A `Level`: `inputs` and `outputs` are created as arrays of holes, so their
entries may be `undefined`; `biases` and `weights` hold numbers once the
constructor has randomized them. -/
structure Level (α : Type) where
  inputs : List (Option α)
  outputs : List (Option α)
  biases : List α
  weights : List (List α)

/-- A `NeuralNetwork`: its array of levels. -/
structure NeuralNetwork (α : Type) where
  levels : List (Level α)

section Network

variable {α : Type} [LinearOrderedField α]

/-- JavaScript `a + b` on possibly-undefined numbers (`NaN` propagates). -/
def jsAdd (a b : Option α) : Option α :=
  match a, b with
  | some x, some y => some (x + y)
  | _, _ => none

/-- JavaScript `a * b` on possibly-undefined numbers (`NaN` propagates). -/
def jsMul (a b : Option α) : Option α :=
  match a, b with
  | some x, some y => some (x * y)
  | _, _ => none

/-- JavaScript `a > b` on possibly-undefined numbers (false on `NaN`). -/
def jsGt (a b : Option α) : Bool :=
  match a, b with
  | some x, some y => decide (y < x)
  | _, _ => false

/-- JavaScript truthiness of a possibly-undefined number. -/
def truthy (v : Option α) : Bool :=
  match v with
  | some x => decide (x ≠ 0)
  | none => false

/-- The first loop of `Level.feedForward`: `level.inputs[i] = givenInput[i]`
for `i < level.inputs.length`; an index past the end of `givenInput` reads
`undefined`. -/
def Level.loadInputs (givenInput : List (Option α)) (level : Level α) :
    List (Option α) :=
  (List.range level.inputs.length).map fun i => (givenInput[i]?).join

/-- The inner loop of `Level.feedForward` for output neuron `i`:
`sum += level.inputs[j] * level.weights[j][i]` for `j < level.inputs.length`,
starting from `0`.  Reading `level.weights[j][i]` throws when the row
`level.weights[j]` is `undefined`. -/
def Level.weightedSum (inputs : List (Option α)) (weights : List (List α))
    (i : Nat) : Except JsError (Option α) :=
  (List.range inputs.length).foldlM
    (fun sum j =>
      match weights[j]? with
      | none => Except.error JsError.typeError
      | some row => Except.ok (jsAdd sum (jsMul (inputs[j]?).join row[i]?)))
    (some 0)

/-- `Level.feedForward(givenInput, level)` of `network.js`: the level after
the call; the returned array is its `outputs`. -/
def Level.feedForward (givenInput : List (Option α)) (level : Level α) :
    Except JsError (Level α) := do
  let inputs := level.loadInputs givenInput
  let outputs ← (List.range level.outputs.length).mapM fun i => do
    let sum ← Level.weightedSum inputs level.weights i
    pure (if jsGt sum (level.biases[i]?) then some (1 : α) else some 0)
  pure { level with inputs := inputs, outputs := outputs }

/-- The value of `sum` after the inner loop of `Level.feedForward` when no
read throws: the same fold as `Level.weightedSum`, with a missing row read as
`undefined`. -/
def Level.pureSum (inputs : List (Option α)) (weights : List (List α))
    (i : Nat) : Option α :=
  (List.range inputs.length).foldl
    (fun sum j => jsAdd sum (jsMul (inputs[j]?).join ((weights[j]?).bind fun row => row[i]?)))
    (some 0)

/-- The value assigned to `level.outputs[i]` when no read throws:
`(sum > level.biases[i]) ? 1 : 0`. -/
def Level.activation (inputs : List (Option α)) (level : Level α) (i : Nat) :
    Option α :=
  if jsGt (Level.pureSum inputs level.weights i) (level.biases[i]?) then some 1 else some 0

/-- The shape invariant of a level: one row of weights per input, each row
and the biases as long as the outputs. -/
def Level.WellFormed (level : Level α) : Prop :=
  level.weights.length = level.inputs.length ∧
  (∀ row ∈ level.weights, row.length = level.outputs.length) ∧
  level.biases.length = level.outputs.length

instance (level : Level α) : Decidable level.WellFormed := by
  unfold Level.WellFormed; infer_instance

/-- A network that `feedForward` can run: at least one level, every level
with the shape invariant. -/
def NeuralNetwork.WellFormed (network : NeuralNetwork α) : Prop :=
  0 < network.levels.length ∧ ∀ level ∈ network.levels, level.WellFormed

instance (network : NeuralNetwork α) : Decidable network.WellFormed := by
  unfold NeuralNetwork.WellFormed; infer_instance

/-- One iteration of the loop of `NeuralNetwork.feedForward`:
`outputs = Level.feedForward(outputs, network.levels[i])`. -/
def NeuralNetwork.feedStep (st : List (Option α) × List (Level α)) (i : Nat) :
    Except JsError (List (Option α) × List (Level α)) :=
  match st.2[i]? with
  | none => Except.error JsError.typeError
  | some level => do
    let level' ← Level.feedForward st.1 level
    pure (level'.outputs, st.2.set i level')

/-- `NeuralNetwork.feedForward(givenInput, network)` of `network.js`: the
returned array together with the network after the call.  The first call is
on `network.levels[0]`; the loop then runs from `i = 0`. -/
def NeuralNetwork.feedForward (givenInput : List (Option α))
    (network : NeuralNetwork α) :
    Except JsError (List (Option α) × NeuralNetwork α) :=
  match network.levels[0]? with
  | none => Except.error JsError.typeError
  | some level0 => do
    let level0' ← Level.feedForward givenInput level0
    let st ← (List.range network.levels.length).foldlM NeuralNetwork.feedStep
      (level0'.outputs, network.levels.set 0 level0')
    pure (st.1, { levels := st.2 })

/-- The chain the specification describes: `Level.feedForward` applied once
per level in order, level 0 to the input and each later level to the previous
level's output.  Written from the specification, for comparison with
`NeuralNetwork.feedForward`. -/
def specFeedForward (givenInput : List (Option α)) (levels : List (Level α)) :
    Except JsError (List (Option α)) :=
  levels.foldlM (fun outputs level => do
    let level' ← Level.feedForward outputs level
    pure level'.outputs) givenInput

/-- A network of widths `[1, 1, 1]` on the rationals: level 0 has weight `-1`
and bias `-1/2` (it negates a 0/1 input), level 1 has weight `1` and bias
`1/2` (it copies a 0/1 input). -/
def negateThenCopy : NeuralNetwork ℚ :=
  { levels :=
      [ { inputs := [none], outputs := [none], biases := [-1 / 2], weights := [[-1]] },
        { inputs := [none], outputs := [none], biases := [1 / 2], weights := [[1]] } ] }

/-- `new Level(inputCount, outputCount)`: arrays of holes for `inputs` and
`outputs`, then `Level.#randomize`, which draws the weights row by row and
then the biases, each as `Math.random() * 2 - 1`.  `rand` is the sequence of
values `Math.random()` returns and `k` the number of draws already made; the
second component is the number of draws made after the call. -/
def Level.new (inputCount outputCount : Nat) (rand : Nat → α) (k : Nat) :
    Level α × Nat :=
  ({ inputs := List.replicate inputCount none
     outputs := List.replicate outputCount none
     weights := (List.range inputCount).map fun i =>
       (List.range outputCount).map fun j =>
         rand (k + i * outputCount + j) * 2 - 1
     biases := (List.range outputCount).map fun i =>
       rand (k + inputCount * outputCount + i) * 2 - 1 },
   k + inputCount * outputCount + outputCount)

/-- The loop of the `NeuralNetwork` constructor from index `i`, over the
remaining widths. -/
def NeuralNetwork.newLevels (rand : Nat → α) : List Nat → Nat → List (Level α) × Nat
  | a :: b :: rest, k =>
    let r := Level.new a b rand k
    let rs := NeuralNetwork.newLevels rand (b :: rest) r.2
    (r.1 :: rs.1, rs.2)
  | _, k => ([], k)

/-- `new NeuralNetwork(neuralCounts)`: one level per adjacent pair of
widths. -/
def NeuralNetwork.new (neuralCounts : List Nat) (rand : Nat → α) (k : Nat) :
    NeuralNetwork α × Nat :=
  let r := NeuralNetwork.newLevels rand neuralCounts k
  ({ levels := r.1 }, r.2)

/-- The loop `v = lerp(v, Math.random() * 2 - 1, amount)` of
`NeuralNetwork.mutate` over one array of numbers, one draw per entry in
order; `k` is the number of draws already made, and the second component the
number made after the loop. -/
def mutateValues (rand : Nat → α) (amount : α) : List α → Nat → List α × Nat
  | [], k => ([], k)
  | v :: vs, k =>
    let r := mutateValues rand amount vs (k + 1)
    (lerp v (rand k * 2 - 1) amount :: r.1, r.2)

/-- The double loop of `NeuralNetwork.mutate` over the rows of `weights`, row
by row. -/
def mutateRows (rand : Nat → α) (amount : α) : List (List α) → Nat → List (List α) × Nat
  | [], k => ([], k)
  | row :: rows, k =>
    let r := mutateValues rand amount row k
    let rs := mutateRows rand amount rows r.2
    (r.1 :: rs.1, rs.2)

/-- The body of the `forEach` of `NeuralNetwork.mutate` on one level: the
biases first, then the weights. -/
def Level.mutate (rand : Nat → α) (amount : α) (level : Level α) (k : Nat) :
    Level α × Nat :=
  let b := mutateValues rand amount level.biases k
  let w := mutateRows rand amount level.weights b.2
  ({ level with biases := b.1, weights := w.1 }, w.2)

/-- The `forEach` of `NeuralNetwork.mutate` over the levels, in order. -/
def NeuralNetwork.mutateLevels (rand : Nat → α) (amount : α) :
    List (Level α) → Nat → List (Level α) × Nat
  | [], k => ([], k)
  | level :: levels, k =>
    let r := Level.mutate rand amount level k
    let rs := NeuralNetwork.mutateLevels rand amount levels r.2
    (r.1 :: rs.1, rs.2)

/-- `NeuralNetwork.mutate(network, amount)`: the network after the call and
the number of draws of `Math.random()` made after it. -/
def NeuralNetwork.mutate (network : NeuralNetwork α) (amount : α) (rand : Nat → α)
    (k : Nat) : NeuralNetwork α × Nat :=
  let r := NeuralNetwork.mutateLevels rand amount network.levels k
  ({ levels := r.1 }, r.2)

end Network

/-- The lengths of the biases and of the rows of weights of a level: what
`NeuralNetwork.mutate` iterates over. -/
def Level.paramShape {α : Type} (level : Level α) : Nat × List Nat :=
  (level.biases.length, level.weights.map List.length)

/-- The number of draws `NeuralNetwork.mutate` makes on a level: one per bias
and one per weight. -/
def Level.paramCount {α : Type} (level : Level α) : Nat :=
  level.biases.length + (level.weights.map List.length).sum

/-- The input and output counts of a level. -/
def Level.dims {α : Type} (level : Level α) : Nat × Nat :=
  (level.inputs.length, level.outputs.length)

/-- A network with the shapes the constructor gives for the layer widths
`widths`: level `k` goes from `widths[k]` inputs to `widths[k+1]` outputs and
has the shape invariant, whatever its weights and biases. -/
def NeuralNetwork.HasWidths {α : Type} (network : NeuralNetwork α) (widths : List Nat) :
    Prop :=
  network.levels.map Level.dims = widths.zip widths.tail ∧
  ∀ level ∈ network.levels, level.WellFormed

/-! ## sensor.js -/

/-- A segment `[start, end]`: a sensor ray or a road border. -/
abbrev Segment (α : Type) := Point α × Point α

/-- The functions and the constant of `Math` that the kernel calls. -/
structure JsMath (α : Type) where
  sin : α → α
  cos : α → α
  hypot : α → α → α
  atan2 : α → α → α
  pi : α

/-- A `Sensor`.  The reference `this.car` is not stored: the methods that
read `this.car.x`, `this.car.y` and `this.car.angle` take them as
arguments. -/
structure Sensor (α : Type) where
  rayCount : Nat
  rayLength : α
  raySpread : α
  rays : List (Segment α)
  readings : List (Option (Touch α))

section SensorDefs

variable {α : Type} [LinearOrderedField α]

/-- `new Sensor(car)`: five rays of length 150 spread over `Math.PI / 2`. -/
def Sensor.new (M : JsMath α) : Sensor α :=
  { rayCount := 5, rayLength := 150, raySpread := M.pi / 2, rays := [], readings := [] }

/-- The angle `rayAngle` of ray `i` in `Sensor.#castRays`. -/
def Sensor.rayAngle (sensor : Sensor α) (carAngle : α) (i : Nat) : α :=
  lerp (sensor.raySpread / 2) (-sensor.raySpread / 2)
    (if sensor.rayCount = 1 then 0.5 else (i : α) / ((sensor.rayCount : α) - 1))
    + carAngle

/-- `Sensor.#castRays()`: the sensor after the call, for a car at
`(carX, carY)` with heading `carAngle`. -/
def Sensor.castRays (M : JsMath α) (sensor : Sensor α) (carX carY carAngle : α) :
    Sensor α :=
  { sensor with
    rays := (List.range sensor.rayCount).map fun i =>
      let rayAngle := sensor.rayAngle carAngle i
      let start : Point α := { x := carX, y := carY }
      let rayEnd : Point α :=
        { x := carX - M.sin rayAngle * sensor.rayLength
          y := carY - M.cos rayAngle * sensor.rayLength }
      (start, rayEnd) }

/-- The first loop of `Sensor.#getReading`: the truthy intersections of the
ray with the road borders, in order. -/
def borderTouches (ray : Segment α) (roadBorders : List (Segment α)) :
    List (Touch α) :=
  roadBorders.filterMap fun border => getIntersection ray.1 ray.2 border.1 border.2

/-- The inner loop of the second loop of `Sensor.#getReading`: the truthy
intersections of the ray with the edges `poly[j]`, `poly[(j+1) % poly.length]`
of one polygon, in order.  Both reads are in range for `j < poly.length`. -/
def polyTouches (ray : Segment α) (poly : List (Point α)) : List (Touch α) :=
  (List.range poly.length).filterMap fun j =>
    match poly[j]?, poly[(j + 1) % poly.length]? with
    | some c, some d => getIntersection ray.1 ray.2 c d
    | _, _ => none

/-- The array `touches` of `Sensor.#getReading` after both loops; `traffic`
is the list of the polygons `traffic[i].polygon`. -/
def allTouches (ray : Segment α) (roadBorders : List (Segment α))
    (traffic : List (List (Point α))) : List (Touch α) :=
  borderTouches ray roadBorders ++ (traffic.map (polyTouches ray)).flatten

/-- `Sensor.#getReading(ray, roadBorders, traffic)`: `null` when `touches` is
empty, else the first element whose offset equals `Math.min(...offsets)`. -/
def getReading (ray : Segment α) (roadBorders : List (Segment α))
    (traffic : List (List (Point α))) : Option (Touch α) :=
  let touches := allTouches ray roadBorders traffic
  match touches.map (fun e => e.offset) with
  | [] => none
  | o :: os =>
    let minOffset := os.foldl min o
    touches.find? fun e => decide (e.offset = minOffset)

/-- `Sensor.update(roadBorders, traffic)`: cast the rays, then one reading
per ray in order. -/
def Sensor.update (M : JsMath α) (sensor : Sensor α) (carX carY carAngle : α)
    (roadBorders : List (Segment α)) (traffic : List (List (Point α))) : Sensor α :=
  let sensor := sensor.castRays M carX carY carAngle
  { sensor with
    readings := sensor.rays.map fun ray => getReading ray roadBorders traffic }

end SensorDefs

/-! ## controls.js -/

/-- The four control flags.  A flag assigned a network output holds that
number; only its truthiness is ever read, so it is kept as a `Bool`. -/
structure Controls where
  forward : Bool
  left : Bool
  right : Bool
  reverse : Bool
deriving DecidableEq, Repr

/-- `new Controls(type)`: all flags false; `'DUMMY'` sets `forward`; `'KEYS'`
registers the keyboard listeners, which change no flag at construction. -/
def Controls.new (type : String) : Controls :=
  let controls : Controls :=
    { forward := false, left := false, right := false, reverse := false }
  if type = "KEYS" then controls
  else if type = "DUMMY" then { controls with forward := true }
  else controls

/-! ## car.js -/

/-- A `Car`.  `polygon` is `undefined` until the first update of an undamaged
car; `sensor` and `brain` are `undefined` for a `'DUMMY'` car. -/
structure Car (α : Type) where
  x : α
  y : α
  width : α
  height : α
  speed : α
  maxspeed : α
  friction : α
  acceleration : α
  angle : α
  damaged : Bool
  useBrain : Bool
  polygon : Option (List (Point α))
  sensor : Option (Sensor α)
  brain : Option (NeuralNetwork α)
  controls : Controls

section CarDefs

variable {α : Type} [LinearOrderedField α]

/-- `new Car(x, y, width, height, controlsType, maxspeed)`.  `rand` and `k`
are the draws of `Math.random()` and the number already made. -/
def Car.new (M : JsMath α) (x y width height : α) (controlsType : String)
    (maxspeed : α) (rand : Nat → α) (k : Nat) : Car α × Nat :=
  let sensor : Sensor α := Sensor.new M
  let brain := NeuralNetwork.new [sensor.rayCount, 6, 4] rand k
  let hasSensor : Bool := decide (controlsType ≠ "DUMMY")
  ({ x := x, y := y, width := width, height := height
     speed := 0, maxspeed := maxspeed, friction := 0.05, acceleration := 0.2
     angle := 0, damaged := false
     useBrain := decide (controlsType = "AI")
     polygon := none
     sensor := if hasSensor then some sensor else none
     brain := if hasSensor then some brain.1 else none
     controls := Controls.new controlsType },
   if hasSensor then brain.2 else k)

/-- The speed after the statements of `Car.#move` that assign `this.speed`:
acceleration, the two clamps, friction, and the snap to zero. -/
def Car.nextSpeed (car : Car α) : α :=
  let speed := car.speed
  let speed := if car.controls.forward then speed + car.acceleration else speed
  let speed := if car.controls.reverse then speed - car.acceleration else speed
  let speed := if speed ≥ car.maxspeed then car.maxspeed else speed
  let speed := if speed < -car.maxspeed / 2 then -car.maxspeed / 2 else speed
  let speed := if speed < 0 then speed + car.friction else speed
  let speed := if speed > 0 then speed - car.friction else speed
  let speed := if |speed| < car.friction then 0 else speed
  speed

/-- The angle after the steering block of `Car.#move`, for the speed `speed`
the car has at that point. -/
def Car.nextAngle (car : Car α) (speed : α) : α :=
  let angle := car.angle
  if speed ≠ 0 then
    let flip : α := if speed > 0 then 1 else -1
    let angle := if car.controls.left then angle + 0.013 * flip else angle
    let angle := if car.controls.right then angle - 0.013 * flip else angle
    angle
  else angle

/-- `Car.#move()`. -/
def Car.move (M : JsMath α) (car : Car α) : Car α :=
  let speed := car.nextSpeed
  let angle := car.nextAngle speed
  { car with
    speed := speed
    angle := angle
    x := car.x - M.sin angle * speed
    y := car.y - M.cos angle * speed }

/-- `Car.#createPolygon()`. -/
def Car.createPolygon (M : JsMath α) (car : Car α) : List (Point α) :=
  let rad := M.hypot car.width car.height / 2
  let alpha := M.atan2 car.width car.height
  [ { x := car.x - M.sin (car.angle - alpha) * rad
      y := car.y - M.cos (car.angle - alpha) * rad },
    { x := car.x - M.sin (car.angle + alpha) * rad
      y := car.y - M.cos (car.angle + alpha) * rad },
    { x := car.x - M.sin (M.pi + car.angle - alpha) * rad
      y := car.y - M.cos (M.pi + car.angle - alpha) * rad },
    { x := car.x - M.sin (M.pi + car.angle + alpha) * rad
      y := car.y - M.cos (M.pi + car.angle + alpha) * rad } ]

/-- `Car.#assessDamage(roadBorders, traffic)` for the car polygon `polygon`;
a border `[p, q]` is passed to `polysIntersect` as the two-vertex polygon it
is, and `traffic` is the list of the polygons `traffic[i].polygon`. -/
def assessDamage (polygon : List (Point α)) (roadBorders : List (Segment α))
    (traffic : List (List (Point α))) : Bool :=
  if roadBorders.any fun border => polysIntersect polygon [border.1, border.2] then true
  else if traffic.any fun poly => polysIntersect polygon poly then true
  else false

/-- The first block of `Car.update`, run when the car is not damaged: move,
rebuild the polygon, assess the damage. -/
def Car.advance (M : JsMath α) (car : Car α) (roadBorders : List (Segment α))
    (traffic : List (List (Point α))) : Car α :=
  let car := car.move M
  let polygon := car.createPolygon M
  { car with
    polygon := some polygon
    damaged := assessDamage polygon roadBorders traffic }

/-- The second block of `Car.update`, run when the car has a sensor: update
the sensor, feed `1 - offset` (or `0`) for each reading to the brain (a
`TypeError` when `this.brain` is `undefined`), and copy the outputs to the
controls when `useBrain` is set. -/
def Car.perceive (M : JsMath α) (car : Car α) (sensor : Sensor α)
    (roadBorders : List (Segment α)) (traffic : List (List (Point α))) :
    Except JsError (Car α) := do
  let sensor := sensor.update M car.x car.y car.angle roadBorders traffic
  let offsets : List (Option α) := sensor.readings.map fun s =>
    match s with
    | none => some 0
    | some touch => some (1 - touch.offset)
  match car.brain with
  | none => Except.error JsError.typeError
  | some brain =>
    let r ← NeuralNetwork.feedForward offsets brain
    let controls : Controls :=
      if car.useBrain then
        { forward := truthy (r.1[0]?).join
          left := truthy (r.1[1]?).join
          right := truthy (r.1[2]?).join
          reverse := truthy (r.1[3]?).join }
      else car.controls
    pure { car with sensor := some sensor, brain := some r.2, controls := controls }

/-- `Car.update(roadBorders, traffic)`: the car after the call. -/
def Car.update (M : JsMath α) (car : Car α) (roadBorders : List (Segment α))
    (traffic : List (List (Point α))) : Except JsError (Car α) :=
  let car := if !car.damaged then car.advance M roadBorders traffic else car
  match car.sensor with
  | some sensor => car.perceive M sensor roadBorders traffic
  | none => Except.ok car

/-- The two clamps of `Car.#move` applied to the speed `s`, for
`maxspeed = m`. -/
def clampSpeed (m s : α) : α :=
  let s := if s ≥ m then m else s
  let s := if s < -m / 2 then -m / 2 else s
  s

/-- The two friction statements and the snap to zero of `Car.#move` applied
to the speed `s`, for `friction = f`. -/
def applyFriction (f s : α) : α :=
  let s := if s < 0 then s + f else s
  let s := if s > 0 then s - f else s
  let s := if |s| < f then 0 else s
  s

/-- A car whose sensor, when present, comes with a brain that `feedForward`
can run; the constructor establishes it and `update` keeps it. -/
def Car.BrainReady (car : Car α) : Prop :=
  match car.sensor, car.brain with
  | some _, some brain => brain.WellFormed
  | some _, none => False
  | none, _ => True

/-- What one tick of the external driver supplies to a car: the effect on the
control flags of the key events since the previous tick, and the arguments of
`update`. -/
structure Tick (α : Type) where
  keys : Controls → Controls
  roadBorders : List (Segment α)
  traffic : List (List (Point α))

/-- A sequence of calls of `Car.update`, one per tick, the control flags being
changed by the key events before each call. -/
def Car.run (M : JsMath α) : Car α → List (Tick α) → Except JsError (Car α)
  | car, [] => Except.ok car
  | car, t :: ts => do
    let car ← Car.update M { car with controls := t.keys car.controls }
      t.roadBorders t.traffic
    Car.run M car ts

/-- A sequence of moves of an undamaged car, the control flags being set to
the next element of `flags` before each move (the keyboard listeners may
change them between two ticks). -/
def Car.drive (M : JsMath α) : Car α → List Controls → Car α
  | car, [] => car
  | car, c :: cs => Car.drive M ({ car with controls := c }.move M) cs

end CarDefs

/-! ## road.js -/

/-- A `Road`.  `laneCount` is the JavaScript number it is given. -/
structure Road (α : Type) where
  x : α
  width : α
  laneCount : α
  left : α
  right : α
  top : α
  bottom : α
  borders : List (Segment α)

section RoadDefs

variable {α : Type} [LinearOrderedField α]

/-- `new Road(x, width, laneCount)`. -/
def Road.new (x width laneCount : α) : Road α :=
  let left := x - width / 2
  let right := x + width / 2
  let infinity : α := 1000000
  let top := -infinity
  let bottom := infinity
  let topLeft : Point α := { x := left, y := top }
  let topRight : Point α := { x := right, y := top }
  let bottomLeft : Point α := { x := left, y := bottom }
  let bottomRight : Point α := { x := right, y := bottom }
  { x := x, width := width, laneCount := laneCount
    left := left, right := right, top := top, bottom := bottom
    borders := [(topLeft, bottomLeft), (topRight, bottomRight)] }

/-- `Road.getLaneCenter(laneIndex)`. -/
def Road.getLaneCenter (road : Road α) (laneIndex : α) : α :=
  let laneWidth := road.width / road.laneCount
  road.left + laneWidth / 2 + min laneIndex (road.laneCount - 1) * laneWidth

end RoadDefs

/-! ## Theorems: utils.js -/

section UtilsLemmas

variable {α : Type} [LinearOrderedField α]

theorem bottom_swap (A B C D : Point α) : bottom C D A B = -bottom A B C D := by
  simp only [bottom]; ring

theorem tTop_swap (A B C D : Point α) : tTop C D A B = -uTop A B C D := by
  simp only [tTop, uTop]; ring

theorem uTop_swap (A B C D : Point α) : uTop C D A B = -tTop A B C D := by
  simp only [tTop, uTop]; ring

/-- The definition of `getIntersection` with its local names expanded. -/
theorem getIntersection_unfold (A B C D : Point α) :
    getIntersection A B C D =
      if bottom A B C D ≠ 0 then
        if 0 ≤ tTop A B C D / bottom A B C D ∧ tTop A B C D / bottom A B C D ≤ 1 ∧
            0 ≤ uTop A B C D / bottom A B C D ∧ uTop A B C D / bottom A B C D ≤ 1 then
          some { x := lerp A.x B.x (tTop A B C D / bottom A B C D)
                 y := lerp A.y B.y (tTop A B C D / bottom A B C D)
                 offset := tTop A B C D / bottom A B C D }
        else none
      else none := rfl

/-- When `getIntersection` succeeds, `bottom` is non-zero, both parameters
are in `[0, 1]`, and the result is the interpolated point with offset `t`. -/
theorem getIntersection_eq_some {A B C D : Point α} {r : Touch α}
    (h : getIntersection A B C D = some r) :
    bottom A B C D ≠ 0 ∧
    0 ≤ tTop A B C D / bottom A B C D ∧ tTop A B C D / bottom A B C D ≤ 1 ∧
    0 ≤ uTop A B C D / bottom A B C D ∧ uTop A B C D / bottom A B C D ≤ 1 ∧
    r = { x := lerp A.x B.x (tTop A B C D / bottom A B C D)
          y := lerp A.y B.y (tTop A B C D / bottom A B C D)
          offset := tTop A B C D / bottom A B C D } := by
  rw [getIntersection_unfold] at h
  split_ifs at h with hb ht
  · simp only [Option.some.injEq] at h
    exact ⟨hb, ht.1, ht.2.1, ht.2.2.1, ht.2.2.2, h.symm⟩

/-- The success condition of `getIntersection` in terms of `bottom` and the
two quotients. -/
theorem getIntersection_isSome {A B C D : Point α} :
    (getIntersection A B C D).isSome = true ↔
      bottom A B C D ≠ 0 ∧
      0 ≤ tTop A B C D / bottom A B C D ∧ tTop A B C D / bottom A B C D ≤ 1 ∧
      0 ≤ uTop A B C D / bottom A B C D ∧ uTop A B C D / bottom A B C D ≤ 1 := by
  rw [getIntersection_unfold]
  split_ifs with hb ht
  · simp only [Option.isSome_some, true_iff]; exact ⟨hb, ht⟩
  · simp only [Option.isSome_none, Bool.false_eq_true, false_iff]
    exact fun h => ht h.2
  · simp only [Option.isSome_none, Bool.false_eq_true, false_iff]
    exact fun h => hb h.1

/-- Swapping the two segments does not change whether `getIntersection`
succeeds. -/
theorem getIntersection_isSome_swap (A B C D : Point α) :
    (getIntersection C D A B).isSome = (getIntersection A B C D).isSome := by
  rw [Bool.eq_iff_iff, getIntersection_isSome, getIntersection_isSome,
    bottom_swap A B C D, tTop_swap A B C D, uTop_swap A B C D, neg_div_neg_eq,
    neg_div_neg_eq, neg_ne_zero]
  tauto

/-- The point on both segments determines the two quotients. -/
theorem quotients_of_common_point {A B C D : Point α} {t u : α}
    (hb : bottom A B C D ≠ 0)
    (hx : A.x + t * (B.x - A.x) = C.x + u * (D.x - C.x))
    (hy : A.y + t * (B.y - A.y) = C.y + u * (D.y - C.y)) :
    tTop A B C D / bottom A B C D = t ∧ uTop A B C D / bottom A B C D = u := by
  constructor
  · rw [div_eq_iff hb]
    simp only [tTop, bottom]
    linear_combination (D.x - C.x) * hy - (D.y - C.y) * hx
  · rw [div_eq_iff hb]
    simp only [uTop, bottom]
    linear_combination (A.y - B.y) * hx - (A.x - B.x) * hy

/-- The interpolated point of `getIntersection` also lies on the second
segment, at parameter `uTop / bottom`. -/
theorem common_point_of_quotients (A B C D : Point α) (hb : bottom A B C D ≠ 0) :
    lerp A.x B.x (tTop A B C D / bottom A B C D)
        = C.x + uTop A B C D / bottom A B C D * (D.x - C.x) ∧
    lerp A.y B.y (tTop A B C D / bottom A B C D)
        = C.y + uTop A B C D / bottom A B C D * (D.y - C.y) := by
  constructor
  · simp only [lerp]; field_simp; simp only [tTop, uTop, bottom]; ring
  · simp only [lerp]; field_simp; simp only [tTop, uTop, bottom]; ring

theorem edgesTouch_swap (P Q : List (Point α)) (i j : Nat) :
    edgesTouch Q P j i = edgesTouch P Q i j := by
  unfold edgesTouch
  cases P[i]? <;> cases P[(i + 1) % P.length]? <;> cases Q[j]? <;>
    cases Q[(j + 1) % Q.length]? <;> simp [getIntersection_isSome_swap]

theorem polysIntersect_eq_true {P Q : List (Point α)} :
    polysIntersect P Q = true ↔
      ∃ i, i < P.length ∧ ∃ j, j < Q.length ∧ edgesTouch P Q i j = true := by
  simp [polysIntersect, List.any_eq_true, List.mem_range]

/-- C2: `getIntersection(A, B, C, D)` is non-null exactly when the determinant
`(D.y-C.y)(B.x-A.x) - (D.x-C.x)(B.y-A.y)` is non-zero and the closed segments
`AB` and `CD` share a point; it is `null` exactly otherwise, and in
particular for the parallel pair `A=(0,0) B=(1,0)`, `C=(0,1) D=(1,1)`. -/
theorem getIntersection_nonnull_iff (A B C D : Point α) :
    ((getIntersection A B C D).isSome = true ↔
      ((D.y - C.y) * (B.x - A.x) - (D.x - C.x) * (B.y - A.y) ≠ 0 ∧
        ∃ t u : α, 0 ≤ t ∧ t ≤ 1 ∧ 0 ≤ u ∧ u ≤ 1 ∧
          A.x + t * (B.x - A.x) = C.x + u * (D.x - C.x) ∧
          A.y + t * (B.y - A.y) = C.y + u * (D.y - C.y))) ∧
    (getIntersection A B C D = none ↔
      ¬ ((D.y - C.y) * (B.x - A.x) - (D.x - C.x) * (B.y - A.y) ≠ 0 ∧
        ∃ t u : α, 0 ≤ t ∧ t ≤ 1 ∧ 0 ≤ u ∧ u ≤ 1 ∧
          A.x + t * (B.x - A.x) = C.x + u * (D.x - C.x) ∧
          A.y + t * (B.y - A.y) = C.y + u * (D.y - C.y))) ∧
    getIntersection (⟨0, 0⟩ : Point α) ⟨1, 0⟩ ⟨0, 1⟩ ⟨1, 1⟩ = none := by
  have key : (getIntersection A B C D).isSome = true ↔
      ((D.y - C.y) * (B.x - A.x) - (D.x - C.x) * (B.y - A.y) ≠ 0 ∧
        ∃ t u : α, 0 ≤ t ∧ t ≤ 1 ∧ 0 ≤ u ∧ u ≤ 1 ∧
          A.x + t * (B.x - A.x) = C.x + u * (D.x - C.x) ∧
          A.y + t * (B.y - A.y) = C.y + u * (D.y - C.y)) := by
    rw [getIntersection_isSome]
    constructor
    · rintro ⟨hb, h0, h1, h2, h3⟩
      refine ⟨hb, tTop A B C D / bottom A B C D, uTop A B C D / bottom A B C D,
        h0, h1, h2, h3, ?_, ?_⟩
      · have := (common_point_of_quotients A B C D hb).1
        simp only [lerp] at this
        linear_combination this
      · have := (common_point_of_quotients A B C D hb).2
        simp only [lerp] at this
        linear_combination this
    · rintro ⟨hb, t, u, h0, h1, h2, h3, hx, hy⟩
      have hb' : bottom A B C D ≠ 0 := hb
      obtain ⟨ht, hu⟩ := quotients_of_common_point hb' hx hy
      rw [ht, hu]
      exact ⟨hb', h0, h1, h2, h3⟩
  refine ⟨key, ?_, ?_⟩
  · rw [← key]
    cases getIntersection A B C D <;> simp
  · rw [getIntersection_unfold]
    simp [bottom]

/-- C3: whenever `getIntersection(A, B, C, D)` returns `r`, `r.offset` is in
`[0, 1]`, `(r.x, r.y) = A + r.offset * (B - A)`, and `(r.x, r.y) = C + u * (D - C)`
for some `u` in `[0, 1]`; and for `A=(0,0) B=(0,10)`, `C=(-5,5) D=(5,5)` the
result is `{x: 0, y: 5, offset: 1/2}`. -/
theorem getIntersection_point_on_both :
    (∀ (A B C D : Point α) (r : Touch α), getIntersection A B C D = some r →
      0 ≤ r.offset ∧ r.offset ≤ 1 ∧
      r.x = A.x + r.offset * (B.x - A.x) ∧ r.y = A.y + r.offset * (B.y - A.y) ∧
      ∃ u : α, 0 ≤ u ∧ u ≤ 1 ∧
        r.x = C.x + u * (D.x - C.x) ∧ r.y = C.y + u * (D.y - C.y)) ∧
    getIntersection (⟨0, 0⟩ : Point α) ⟨0, 10⟩ ⟨-5, 5⟩ ⟨5, 5⟩
      = some { x := 0, y := 5, offset := 1 / 2 } := by
  constructor
  · intro A B C D r h
    obtain ⟨hb, h0, h1, h2, h3, hr⟩ := getIntersection_eq_some h
    subst hr
    refine ⟨h0, h1, ?_, ?_, uTop A B C D / bottom A B C D, h2, h3, ?_, ?_⟩
    · simp only [lerp]; ring
    · simp only [lerp]; ring
    · exact (common_point_of_quotients A B C D hb).1
    · exact (common_point_of_quotients A B C D hb).2
  · rw [getIntersection_unfold]
    norm_num [bottom, tTop, uTop, lerp]

/-- Witness for C3 on the rationals: the crossing segments `A=(0,0) B=(0,10)`,
`C=(-5,5) D=(5,5)`. -/
theorem getIntersection_point_on_both_witness :
    getIntersection (⟨0, 0⟩ : Point ℚ) ⟨0, 10⟩ ⟨-5, 5⟩ ⟨5, 5⟩
        = some { x := 0, y := 5, offset := 1 / 2 } ∧
    ((0 : ℚ) ≤ 1 / 2 ∧ (1 / 2 : ℚ) ≤ 1 ∧
      (0 : ℚ) = 0 + 1 / 2 * (0 - 0) ∧ (5 : ℚ) = 0 + 1 / 2 * (10 - 0) ∧
      ∃ u : ℚ, 0 ≤ u ∧ u ≤ 1 ∧ (0 : ℚ) = -5 + u * (5 - -5) ∧ (5 : ℚ) = 5 + u * (5 - 5)) :=
  ⟨(@getIntersection_point_on_both ℚ _).2,
   (@getIntersection_point_on_both ℚ _).1 ⟨0, 0⟩ ⟨0, 10⟩ ⟨-5, 5⟩ ⟨5, 5⟩
     { x := 0, y := 5, offset := 1 / 2 } (@getIntersection_point_on_both ℚ _).2⟩

/-- C4: `polysIntersect(P, Q) = polysIntersect(Q, P)` for all vertex lists
`P` and `Q`. -/
theorem polysIntersect_symm (P Q : List (Point α)) :
    polysIntersect P Q = polysIntersect Q P := by
  rw [Bool.eq_iff_iff, polysIntersect_eq_true, polysIntersect_eq_true]
  constructor
  · rintro ⟨i, hi, j, hj, h⟩
    exact ⟨j, hj, i, hi, by rw [edgesTouch_swap]; exact h⟩
  · rintro ⟨j, hj, i, hi, h⟩
    exact ⟨i, hi, j, hj, by rw [← edgesTouch_swap]; exact h⟩

/-- C15 (as amended): for all points `A`, `B`, `D`, the segments `AB` and `BD`
(the first ends where the second begins) intersect at `B` with offset `1`
when the determinant `(D.y-B.y)(B.x-A.x) - (D.x-B.x)(B.y-A.y)` is non-zero;
when it is zero the result is `null`. -/
theorem getIntersection_shared_endpoint (A B D : Point α) :
    ((D.y - B.y) * (B.x - A.x) - (D.x - B.x) * (B.y - A.y) ≠ 0 →
      getIntersection A B B D = some { x := B.x, y := B.y, offset := 1 }) ∧
    ((D.y - B.y) * (B.x - A.x) - (D.x - B.x) * (B.y - A.y) = 0 →
      getIntersection A B B D = none) := by
  constructor
  · intro h
    have hb : bottom A B B D ≠ 0 := h
    have ht : tTop A B B D / bottom A B B D = 1 := by
      rw [div_eq_one_iff_eq hb]; simp only [tTop, bottom]; ring
    have hu : uTop A B B D / bottom A B B D = 0 := by
      have : uTop A B B D = 0 := by simp only [uTop]; ring
      rw [this, zero_div]
    rw [getIntersection_unfold, if_pos hb, ht, hu]
    simp [lerp]
  · intro h
    have hb : ¬ bottom A B B D ≠ 0 := not_not.mpr h
    rw [getIntersection_unfold, if_neg hb]

/-- Witness for C15 (as amended): `A = (0,0)`, `B = C = (1,0)`, `D = (1,1)`. -/
theorem getIntersection_shared_endpoint_witness :
    getIntersection (⟨0, 0⟩ : Point ℚ) ⟨1, 0⟩ ⟨1, 0⟩ ⟨1, 1⟩
      = some { x := 1, y := 0, offset := 1 } :=
  (getIntersection_shared_endpoint (⟨0, 0⟩ : Point ℚ) ⟨1, 0⟩ ⟨1, 1⟩).1 (by norm_num)

/-- C15 (counterexample): for the collinear segments `A = (0,0)`,
`B = C = (1,0)`, `D = (2,0)`, which share the endpoint `B`,
`getIntersection` returns `null`. -/
theorem getIntersection_shared_endpoint_collinear :
    getIntersection (⟨0, 0⟩ : Point ℚ) ⟨1, 0⟩ ⟨1, 0⟩ ⟨2, 0⟩ = none := by
  rw [getIntersection_unfold]
  norm_num [bottom]

/-- C16: `polysIntersect(P, Q)` is true exactly when some edge `P[i]`,
`P[(i+1) mod |P|]` and some edge `Q[j]`, `Q[(j+1) mod |Q|]` have a non-null
intersection, both wrap-around edges included; every array read of the loops
is in range; and the result is false when either polygon is empty. -/
theorem polysIntersect_iff (P Q : List (Point α)) :
    (polysIntersect P Q = true ↔
      ∃ i, i < P.length ∧ ∃ j, j < Q.length ∧ ∃ a b c d,
        P[i]? = some a ∧ P[(i + 1) % P.length]? = some b ∧
        Q[j]? = some c ∧ Q[(j + 1) % Q.length]? = some d ∧
        (getIntersection a b c d).isSome = true) ∧
    (polysIntersect P Q = false ↔
      ∀ i, i < P.length → ∀ j, j < Q.length → ∀ a b c d,
        P[i]? = some a → P[(i + 1) % P.length]? = some b →
        Q[j]? = some c → Q[(j + 1) % Q.length]? = some d →
        getIntersection a b c d = none) ∧
    (∀ i, i < P.length → ∃ a b, P[i]? = some a ∧ P[(i + 1) % P.length]? = some b) ∧
    polysIntersect ([] : List (Point α)) Q = false ∧
    polysIntersect P ([] : List (Point α)) = false := by
  have key : polysIntersect P Q = true ↔
      ∃ i, i < P.length ∧ ∃ j, j < Q.length ∧ ∃ a b c d,
        P[i]? = some a ∧ P[(i + 1) % P.length]? = some b ∧
        Q[j]? = some c ∧ Q[(j + 1) % Q.length]? = some d ∧
        (getIntersection a b c d).isSome = true := by
    rw [polysIntersect_eq_true]
    constructor
    · rintro ⟨i, hi, j, hj, h⟩
      refine ⟨i, hi, j, hj, ?_⟩
      unfold edgesTouch at h
      cases ha : P[i]? <;> cases hb : P[(i + 1) % P.length]? <;>
        cases hc : Q[j]? <;> cases hd : Q[(j + 1) % Q.length]? <;>
        simp only [ha, hb, hc, hd, Bool.false_eq_true] at h
      exact ⟨_, _, _, _, rfl, rfl, rfl, rfl, h⟩
    · rintro ⟨i, hi, j, hj, a, b, c, d, ha, hb, hc, hd, h⟩
      refine ⟨i, hi, j, hj, ?_⟩
      unfold edgesTouch
      simp only [ha, hb, hc, hd]
      exact h
  refine ⟨key, ?_, ?_, ?_, ?_⟩
  · rw [← Bool.not_eq_true, key]
    constructor
    · intro h i hi j hj a b c d ha hb hc hd
      cases hg : getIntersection a b c d with
      | none => rfl
      | some t =>
        exact (h ⟨i, hi, j, hj, a, b, c, d, ha, hb, hc, hd, by rw [hg]; rfl⟩).elim
    · rintro h ⟨i, hi, j, hj, a, b, c, d, ha, hb, hc, hd, hg⟩
      rw [h i hi j hj a b c d ha hb hc hd] at hg
      cases hg
  · intro i hi
    have h2 : (i + 1) % P.length < P.length := Nat.mod_lt _ (by omega)
    exact ⟨P[i], P[(i + 1) % P.length], List.getElem?_eq_getElem hi,
      List.getElem?_eq_getElem h2⟩
  · simp [polysIntersect]
  · simp [polysIntersect]

/-- Witness for C16: the crossing two-vertex polygons `(0,0), (2,2)` and
`(0,2), (2,0)` intersect, by their first edges. -/
theorem polysIntersect_iff_witness :
    polysIntersect [(⟨0, 0⟩ : Point ℚ), ⟨2, 2⟩] [⟨0, 2⟩, ⟨2, 0⟩] = true :=
  (polysIntersect_iff [(⟨0, 0⟩ : Point ℚ), ⟨2, 2⟩] [⟨0, 2⟩, ⟨2, 0⟩]).1.mpr
    ⟨0, by decide, 0, by decide, ⟨0, 0⟩, ⟨2, 2⟩, ⟨0, 2⟩, ⟨2, 0⟩, rfl, rfl, rfl, rfl, by
      rw [getIntersection_unfold]
      norm_num [bottom, tTop, uTop]⟩

end UtilsLemmas

/-! ## Theorems: network.js -/

section NetworkLemmas

variable {α : Type} [LinearOrderedField α]

/-- A monadic fold in `Except` whose steps all succeed is the pure fold. -/
theorem foldlM_eq_ok_foldl {ε β γ : Type} (f : β → γ → Except ε β) (g : β → γ → β)
    (l : List γ) (h : ∀ b, ∀ c ∈ l, f b c = Except.ok (g b c)) (b : β) :
    l.foldlM f b = Except.ok (l.foldl g b) := by
  induction l generalizing b with
  | nil => rfl
  | cons c l ih =>
    rw [List.foldlM_cons, h b c (List.mem_cons_self _ _)]
    exact ih (fun b c hc => h b c (List.mem_cons_of_mem _ hc)) (g b c)

/-- A monadic map in `Except` whose steps all succeed is the pure map. -/
theorem mapM_eq_ok_map {ε β γ : Type} (f : γ → Except ε β) (g : γ → β)
    (l : List γ) (h : ∀ c ∈ l, f c = Except.ok (g c)) :
    l.mapM f = Except.ok (l.map g) := by
  induction l with
  | nil => rfl
  | cons c l ih =>
    rw [List.mapM_cons, h c (List.mem_cons_self _ _),
      ih (fun c hc => h c (List.mem_cons_of_mem _ hc))]
    rfl

/-- With a row of weights for every input, the inner loop does not throw. -/
theorem Level.weightedSum_eq_ok (inputs : List (Option α)) (weights : List (List α))
    (i : Nat) (h : inputs.length ≤ weights.length) :
    Level.weightedSum inputs weights i = Except.ok (Level.pureSum inputs weights i) := by
  unfold Level.weightedSum Level.pureSum
  apply foldlM_eq_ok_foldl
  intro sum j hj
  have hj' : j < weights.length := lt_of_lt_of_le (List.mem_range.mp hj) h
  simp [List.getElem?_eq_getElem hj']

/-- With a row of weights for every input, `Level.feedForward` does not
throw, and returns the level with the loaded inputs and the activations. -/
theorem Level.feedForward_eq_ok (givenInput : List (Option α)) (level : Level α)
    (h : level.inputs.length ≤ level.weights.length) :
    Level.feedForward givenInput level = Except.ok
      { level with
        inputs := level.loadInputs givenInput
        outputs := (List.range level.outputs.length).map
          (Level.activation (level.loadInputs givenInput) level) } := by
  have hlen : (level.loadInputs givenInput).length ≤ level.weights.length := by
    simpa [Level.loadInputs] using h
  have hm := mapM_eq_ok_map
    (fun i => (do
      let sum ← Level.weightedSum (level.loadInputs givenInput) level.weights i
      pure (if jsGt sum (level.biases[i]?) then some (1 : α) else some 0) :
        Except JsError (Option α)))
    (Level.activation (level.loadInputs givenInput) level)
    (List.range level.outputs.length)
    (fun i _ => by
      show (do
        let sum ← Level.weightedSum (level.loadInputs givenInput) level.weights i
        pure (if jsGt sum (level.biases[i]?) then some (1 : α) else some 0) :
          Except JsError (Option α)) = _
      rw [Level.weightedSum_eq_ok _ _ _ hlen]; rfl)
  show (do
    let outputs ← (List.range level.outputs.length).mapM fun i => (do
      let sum ← Level.weightedSum (level.loadInputs givenInput) level.weights i
      pure (if jsGt sum (level.biases[i]?) then some (1 : α) else some 0) :
        Except JsError (Option α))
    pure { level with inputs := level.loadInputs givenInput, outputs := outputs }) = _
  rw [hm]
  rfl

/-- Loading an input of the right length stores it unchanged. -/
theorem Level.loadInputs_of_length (givenInput : List (Option α)) (level : Level α)
    (h : givenInput.length = level.inputs.length) :
    level.loadInputs givenInput = givenInput := by
  apply List.ext_getElem?
  intro i
  unfold Level.loadInputs
  by_cases hi : i < level.inputs.length
  · have hi' : i < givenInput.length := h ▸ hi
    simp [List.getElem?_map, List.getElem?_range hi, List.getElem?_eq_getElem hi']
  · have hi' : givenInput.length ≤ i := by omega
    have hi2 : level.inputs.length ≤ i := by omega
    simp [List.getElem?_map, List.getElem?_eq_none hi', hi2]

/-- On defined inputs with a long enough row of weights for every input, the
fold of the inner loop is the finite sum of the products. -/
theorem Level.pureSum_eq_sum (input : List α) (weights : List (List α)) (j : Nat)
    (hw : input.length ≤ weights.length)
    (hrow : ∀ row ∈ weights, j < row.length) :
    Level.pureSum (input.map some) weights j
      = some (∑ i ∈ Finset.range input.length,
          input.getD i 0 * (weights.getD i []).getD j 0) := by
  unfold Level.pureSum
  rw [List.length_map]
  have key : ∀ n, n ≤ input.length →
      (List.range n).foldl
        (fun sum i => jsAdd sum (jsMul (((input.map some)[i]?).join)
          ((weights[i]?).bind fun row => row[j]?))) (some 0)
        = some (∑ i ∈ Finset.range n, input.getD i 0 * (weights.getD i []).getD j 0) := by
    intro n
    induction n with
    | zero => intro _; simp
    | succ n ih =>
      intro hn
      have hn1 : n < input.length := hn
      have hn2 : n < weights.length := lt_of_lt_of_le hn1 hw
      have hn3 : j < (weights[n]).length := hrow _ (List.getElem_mem hn2)
      rw [List.range_succ, List.foldl_append, ih (Nat.le_of_succ_le hn),
        Finset.sum_range_succ]
      simp [jsAdd, jsMul, List.getElem?_eq_getElem hn1, List.getElem?_eq_getElem hn2,
        List.getElem?_eq_getElem hn3, List.getD_eq_getElem _ _ hn1,
        List.getD_eq_getElem _ _ hn2, List.getD_eq_getElem _ _ hn3]
  exact key _ le_rfl

/-- C5: for a level with the shape invariant and an input whose length is the
level's input count, `Level.feedForward` returns a vector of length
`outputCount` whose `j`-th entry is `1` if the sum over `i` of
`input[i] * weights[i][j]` is strictly greater than `biases[j]`, else `0`. -/
theorem Level.feedForward_threshold (level : Level α) (input : List α)
    (hwf : level.WellFormed) (hlen : input.length = level.inputs.length) :
    ∃ level', Level.feedForward (input.map some) level = Except.ok level' ∧
      level'.outputs.length = level.outputs.length ∧
      ∀ j, j < level.outputs.length →
        level'.outputs[j]? = some (some
          (if (∑ i ∈ Finset.range level.inputs.length,
                input.getD i 0 * (level.weights.getD i []).getD j 0)
              > level.biases.getD j 0 then 1 else 0)) := by
  obtain ⟨hw, hrows, hb⟩ := hwf
  refine ⟨_, Level.feedForward_eq_ok _ _ (le_of_eq hw.symm), by simp, ?_⟩
  intro j hj
  have hload : level.loadInputs (input.map some) = input.map some :=
    Level.loadInputs_of_length _ _ (by simpa using hlen)
  have hsum := Level.pureSum_eq_sum input level.weights j (by omega)
    (fun row hr => by rw [hrows row hr]; exact hj)
  have hbj : j < level.biases.length := hb ▸ hj
  simp only [List.getElem?_map, List.getElem?_range hj, Option.map_some', hload,
    Level.activation, hsum, List.getElem?_eq_getElem hbj, jsGt, hlen,
    List.getD_eq_getElem _ _ hbj]
  simp only [gt_iff_lt, decide_eq_true_eq]
  split_ifs <;> rfl

/-- Witness for C5: a two-input, one-output level with weights `1`, `1` and
bias `1`, on the input `[1/2, 1/2]`, whose sum equals the bias. -/
theorem Level.feedForward_threshold_witness :
    ∃ level', Level.feedForward ([1 / 2, 1 / 2].map some)
        ({ inputs := [none, none], outputs := [none], biases := [1],
           weights := [[1], [1]] } : Level ℚ) = Except.ok level' ∧
      level'.outputs.length = 1 ∧
      ∀ j, j < 1 →
        level'.outputs[j]? = some (some
          (if (∑ i ∈ Finset.range 2,
                ([1 / 2, 1 / 2] : List ℚ).getD i 0 *
                  (([[1], [1]] : List (List ℚ)).getD i []).getD j 0)
              > ([1] : List ℚ).getD j 0 then 1 else 0)) :=
  Level.feedForward_threshold
    ({ inputs := [none, none], outputs := [none], biases := [1],
       weights := [[1], [1]] } : Level ℚ) [1 / 2, 1 / 2]
    ⟨rfl, by simp, rfl⟩ rfl

/-- C1 (the code departs from the claim): on the network `negateThenCopy` and
the input `[0]`, `NeuralNetwork.feedForward` returns `[0]`, because level 0 is
applied twice (once before the loop and again at `i = 0`), whereas applying
each level once in order gives `L1(L0([0])) = [1]`. -/
theorem NeuralNetwork.feedForward_first_level_twice :
    (NeuralNetwork.feedForward [some 0] negateThenCopy).map Prod.fst
        = Except.ok [some 0] ∧
    specFeedForward [some 0] negateThenCopy.levels = Except.ok [some 1] := by
  constructor
  · simp [NeuralNetwork.feedForward, negateThenCopy, NeuralNetwork.feedStep,
      Level.feedForward_eq_ok, Level.loadInputs, Level.activation, Level.pureSum,
      List.range_succ, jsAdd, jsMul, jsGt, Except.map, bind, Except.bind, pure,
      Except.pure]
    norm_num
  · simp [specFeedForward, negateThenCopy, Level.feedForward_eq_ok, Level.loadInputs,
      Level.activation, Level.pureSum, List.range_succ, jsAdd, jsMul, jsGt, bind,
      Except.bind, pure, Except.pure]
    norm_num

/-- A monadic fold in `Except` whose steps succeed on states satisfying an
invariant they preserve succeeds, in a state satisfying the invariant. -/
theorem foldlM_invariant {ε β γ : Type} (f : β → γ → Except ε β) (P : β → Prop)
    (l : List γ) (h : ∀ b, P b → ∀ c ∈ l, ∃ b', f b c = Except.ok b' ∧ P b')
    (b : β) (hb : P b) : ∃ b', l.foldlM f b = Except.ok b' ∧ P b' := by
  induction l generalizing b with
  | nil => exact ⟨b, rfl, hb⟩
  | cons c l ih =>
    obtain ⟨b1, h1, hP1⟩ := h b hb c (List.mem_cons_self _ _)
    obtain ⟨b2, h2, hP2⟩ := ih (fun b hb c hc => h b hb c (List.mem_cons_of_mem _ hc)) b1 hP1
    refine ⟨b2, ?_, hP2⟩
    rw [List.foldlM_cons, h1]
    exact h2

/-- On a level with the shape invariant `Level.feedForward` does not throw and
returns a level with the shape invariant. -/
theorem Level.feedForward_wellFormed (givenInput : List (Option α)) (level : Level α)
    (h : level.WellFormed) :
    ∃ level', Level.feedForward givenInput level = Except.ok level' ∧ level'.WellFormed := by
  obtain ⟨hw, hrows, hb⟩ := h
  refine ⟨_, Level.feedForward_eq_ok givenInput level (le_of_eq hw.symm), ?_, ?_, ?_⟩
  · simpa [Level.loadInputs] using hw
  · intro row hr
    simpa using hrows row hr
  · simpa using hb

/-- One iteration of the loop of `NeuralNetwork.feedForward` at an index in
range, on levels with the shape invariant, does not throw and keeps the
number of levels and their shape invariant. -/
theorem NeuralNetwork.feedStep_ok (n : Nat) (st : List (Option α) × List (Level α))
    (hst : st.2.length = n ∧ ∀ level ∈ st.2, level.WellFormed) (i : Nat)
    (hi : i ∈ List.range n) :
    ∃ st', NeuralNetwork.feedStep st i = Except.ok st' ∧
      (st'.2.length = n ∧ ∀ level ∈ st'.2, level.WellFormed) := by
  obtain ⟨hn, hwf⟩ := hst
  have hi' : i < st.2.length := hn ▸ List.mem_range.mp hi
  obtain ⟨level', hl, hl'⟩ :=
    Level.feedForward_wellFormed st.1 st.2[i] (hwf _ (List.getElem_mem hi'))
  refine ⟨(level'.outputs, st.2.set i level'), ?_, ?_, ?_⟩
  · unfold NeuralNetwork.feedStep
    rw [List.getElem?_eq_getElem hi']
    show (do
      let level' ← Level.feedForward st.1 st.2[i]
      pure (level'.outputs, st.2.set i level') : Except JsError _) = _
    rw [hl]
    rfl
  · simpa using hn
  · intro level hmem
    rcases List.mem_or_eq_of_mem_set hmem with h | h
    · exact hwf level h
    · exact h ▸ hl'

/-- On a well-formed network `NeuralNetwork.feedForward` does not throw and
leaves the network well formed. -/
theorem NeuralNetwork.feedForward_ok (givenInput : List (Option α))
    (network : NeuralNetwork α) (h : network.WellFormed) :
    ∃ r, NeuralNetwork.feedForward givenInput network = Except.ok r ∧ r.2.WellFormed := by
  obtain ⟨hpos, hwf⟩ := h
  obtain ⟨level0', h0, hwf0⟩ :=
    Level.feedForward_wellFormed givenInput network.levels[0]
      (hwf _ (List.getElem_mem hpos))
  obtain ⟨st, hst, hlen, hall⟩ :=
    foldlM_invariant NeuralNetwork.feedStep
      (fun st => st.2.length = network.levels.length ∧ ∀ level ∈ st.2, level.WellFormed)
      (List.range network.levels.length)
      (fun b hb c hc => NeuralNetwork.feedStep_ok network.levels.length b hb c hc)
      (level0'.outputs, network.levels.set 0 level0')
      ⟨by simp, fun level hmem => by
        rcases List.mem_or_eq_of_mem_set hmem with h | h
        · exact hwf level h
        · exact h ▸ hwf0⟩
  refine ⟨(st.1, { levels := st.2 }), ?_, ?_, hall⟩
  · unfold NeuralNetwork.feedForward
    rw [List.getElem?_eq_getElem hpos]
    show (do
      let level0' ← Level.feedForward givenInput network.levels[0]
      let st ← (List.range network.levels.length).foldlM NeuralNetwork.feedStep
        (level0'.outputs, network.levels.set 0 level0')
      pure (st.1, ({ levels := st.2 } : NeuralNetwork α)) : Except JsError _) = _
    rw [h0]
    show (do
      let st ← (List.range network.levels.length).foldlM NeuralNetwork.feedStep
        (level0'.outputs, network.levels.set 0 level0')
      pure (st.1, ({ levels := st.2 } : NeuralNetwork α)) : Except JsError _) = _
    rw [hst]
    rfl
  · show 0 < st.2.length
    rw [hlen]; exact hpos

/-- With amount `0` the loop over an array leaves it as it is, after one draw
per entry. -/
theorem mutateValues_zero (rand : Nat → α) (vs : List α) (k : Nat) :
    mutateValues rand 0 vs k = (vs, k + vs.length) := by
  induction vs generalizing k with
  | nil => rfl
  | cons v vs ih =>
    simp only [mutateValues, ih, lerp, mul_zero, add_zero, List.length_cons]
    congr 1
    omega

theorem mutateRows_zero (rand : Nat → α) (rows : List (List α)) (k : Nat) :
    (mutateRows rand 0 rows k).1 = rows := by
  induction rows generalizing k with
  | nil => rfl
  | cons row rows ih =>
    simp only [mutateRows, mutateValues_zero, ih]

theorem Level.mutate_level_zero (rand : Nat → α) (level : Level α) (k : Nat) :
    (Level.mutate rand 0 level k).1 = level := by
  simp only [Level.mutate, mutateValues_zero, mutateRows_zero]

theorem NeuralNetwork.mutateLevels_zero (rand : Nat → α) (levels : List (Level α))
    (k : Nat) : (NeuralNetwork.mutateLevels rand 0 levels k).1 = levels := by
  induction levels generalizing k with
  | nil => rfl
  | cons level levels ih =>
    simp only [NeuralNetwork.mutateLevels, Level.mutate_level_zero, ih]

/-- C11: for every network and every sequence of random draws,
`NeuralNetwork.mutate(network, 0)` leaves the network as it is: every weight
and every bias of every level keeps its value, and the number and the shapes
of the levels are unchanged. -/
theorem NeuralNetwork.mutate_zero (network : NeuralNetwork α) (rand : Nat → α) (k : Nat) :
    (NeuralNetwork.mutate network 0 rand k).1 = network ∧
    (NeuralNetwork.mutate network 0 rand k).1.levels.length = network.levels.length ∧
    ∀ i : Nat,
      ((NeuralNetwork.mutate network 0 rand k).1.levels[i]?).map (fun l => l.biases)
        = (network.levels[i]?).map (fun l => l.biases) ∧
      ((NeuralNetwork.mutate network 0 rand k).1.levels[i]?).map (fun l => l.weights)
        = (network.levels[i]?).map (fun l => l.weights) := by
  have h : (NeuralNetwork.mutate network 0 rand k).1 = network := by
    simp only [NeuralNetwork.mutate, NeuralNetwork.mutateLevels_zero]
  rw [h]
  exact ⟨rfl, rfl, fun _ => ⟨rfl, rfl⟩⟩

/-- With amount `1` the loop over an array replaces entry `i` by the value
`2 r - 1` of its own draw `r = rand (k + i)`. -/
theorem mutateValues_one (rand : Nat → α) (vs : List α) (k : Nat) :
    mutateValues rand 1 vs k
      = ((List.range vs.length).map (fun i => rand (k + i) * 2 - 1), k + vs.length) := by
  induction vs generalizing k with
  | nil => rfl
  | cons v vs ih =>
    simp only [mutateValues, ih, lerp, mul_one, List.length_cons, List.range_succ_eq_map,
      List.map_cons, List.map_map, add_zero]
    refine Prod.ext ?_ (by simp only; omega)
    simp only [add_sub_cancel]
    congr 1
    apply List.map_congr_left
    intro i _
    simp only [Function.comp, Nat.succ_eq_add_one]
    congr 3
    omega

/-- With amount `1` the result of the loop over the rows depends only on the
lengths of the rows. -/
theorem mutateRows_one_congr (rand : Nat → α) (rows rows' : List (List α)) (k : Nat)
    (h : rows.map List.length = rows'.map List.length) :
    mutateRows rand 1 rows k = mutateRows rand 1 rows' k := by
  induction rows generalizing rows' k with
  | nil =>
    cases rows' with
    | nil => rfl
    | cons _ _ => cases h
  | cons row rows ih =>
    cases rows' with
    | nil => cases h
    | cons row' rows' =>
      simp only [List.map_cons, List.cons.injEq] at h
      simp only [mutateRows, mutateValues_one, h.1, ih rows' _ h.2]

/-- The draw counter after the loop over the rows. -/
theorem mutateRows_counter (rand : Nat → α) (amount : α) (rows : List (List α)) (k : Nat) :
    k ≤ (mutateRows rand amount rows k).2 := by
  induction rows generalizing k with
  | nil => exact le_rfl
  | cons row rows ih =>
    have h1 : k ≤ (mutateValues rand amount row k).2 := by
      clear ih
      induction row generalizing k with
      | nil => exact le_rfl
      | cons v vs ihv => exact le_trans (Nat.le_succ k) (ihv (k + 1))
    exact le_trans h1 (ih _)

/-- With amount `1` every entry of every row is the value `2 r - 1` of a draw
made during the loop. -/
theorem mutateRows_one_mem (rand : Nat → α) (rows : List (List α)) (k : Nat) :
    ∀ row ∈ (mutateRows rand 1 rows k).1, ∀ w ∈ row,
      ∃ j, k ≤ j ∧ j < (mutateRows rand 1 rows k).2 ∧ w = rand j * 2 - 1 := by
  induction rows generalizing k with
  | nil => intro row hrow; cases hrow
  | cons r rs ih =>
    intro row hrow w hw
    simp only [mutateRows, mutateValues_one] at hrow ⊢
    have hc := mutateRows_counter rand 1 rs (k + r.length)
    rcases List.mem_cons.mp hrow with rfl | hrow
    · obtain ⟨i, hi, rfl⟩ := List.mem_map.mp hw
      exact ⟨k + i, Nat.le_add_right _ _,
        lt_of_lt_of_le (Nat.add_lt_add_left (List.mem_range.mp hi) k) hc, rfl⟩
    · obtain ⟨j, hj1, hj2, hj3⟩ := ih (k + r.length) row hrow w hw
      exact ⟨j, le_trans (Nat.le_add_right _ _) hj1, hj2, hj3⟩

/-- With amount `1` the biases and weights of a mutated level depend only on
the lengths of its biases and of its rows of weights. -/
theorem Level.mutate_one_congr (rand : Nat → α) (l1 l2 : Level α) (k : Nat)
    (h : l1.paramShape = l2.paramShape) :
    (Level.mutate rand 1 l1 k).1.biases = (Level.mutate rand 1 l2 k).1.biases ∧
    (Level.mutate rand 1 l1 k).1.weights = (Level.mutate rand 1 l2 k).1.weights ∧
    (Level.mutate rand 1 l1 k).2 = (Level.mutate rand 1 l2 k).2 := by
  simp only [Level.paramShape, Prod.mk.injEq] at h
  simp only [Level.mutate, mutateValues_one, h.1,
    mutateRows_one_congr rand l1.weights l2.weights _ h.2]
  exact ⟨trivial, trivial, trivial⟩

/-- The draw counter after the mutation of a level. -/
theorem Level.mutate_counter (rand : Nat → α) (level : Level α) (k : Nat) :
    k ≤ (Level.mutate rand 1 level k).2 := by
  simp only [Level.mutate, mutateValues_one]
  exact le_trans (Nat.le_add_right _ _) (mutateRows_counter rand 1 _ _)

/-- With amount `1` every bias and weight of a mutated level is the value
`2 r - 1` of a draw made during the mutation. -/
theorem Level.mutate_one_mem (rand : Nat → α) (level : Level α) (k : Nat) :
    (∀ b ∈ (Level.mutate rand 1 level k).1.biases,
      ∃ j, k ≤ j ∧ j < (Level.mutate rand 1 level k).2 ∧ b = rand j * 2 - 1) ∧
    (∀ row ∈ (Level.mutate rand 1 level k).1.weights, ∀ w ∈ row,
      ∃ j, k ≤ j ∧ j < (Level.mutate rand 1 level k).2 ∧ w = rand j * 2 - 1) := by
  simp only [Level.mutate, mutateValues_one]
  have hc := mutateRows_counter rand 1 level.weights (k + level.biases.length)
  constructor
  · intro b hb
    obtain ⟨i, hi, rfl⟩ := List.mem_map.mp hb
    exact ⟨k + i, Nat.le_add_right _ _,
      lt_of_lt_of_le (Nat.add_lt_add_left (List.mem_range.mp hi) k) hc, rfl⟩
  · intro row hrow w hw
    obtain ⟨j, hj1, hj2, hj3⟩ :=
      mutateRows_one_mem rand level.weights (k + level.biases.length) row hrow w hw
    exact ⟨j, le_trans (Nat.le_add_right _ _) hj1, hj2, hj3⟩

/-- With amount `1` the biases and weights of the mutated levels depend only
on the shapes of the levels. -/
theorem NeuralNetwork.mutateLevels_one_congr (rand : Nat → α) (ls1 ls2 : List (Level α))
    (k : Nat) (h : ls1.map Level.paramShape = ls2.map Level.paramShape) :
    (NeuralNetwork.mutateLevels rand 1 ls1 k).1.map (fun l => (l.biases, l.weights))
      = (NeuralNetwork.mutateLevels rand 1 ls2 k).1.map (fun l => (l.biases, l.weights)) ∧
    (NeuralNetwork.mutateLevels rand 1 ls1 k).2
      = (NeuralNetwork.mutateLevels rand 1 ls2 k).2 := by
  induction ls1 generalizing ls2 k with
  | nil =>
    cases ls2 with
    | nil => exact ⟨rfl, rfl⟩
    | cons _ _ => cases h
  | cons l1 ls1 ih =>
    cases ls2 with
    | nil => cases h
    | cons l2 ls2 =>
      simp only [List.map_cons, List.cons.injEq] at h
      obtain ⟨hb, hw, hk⟩ := Level.mutate_one_congr rand l1 l2 k h.1
      simp only [NeuralNetwork.mutateLevels, List.map_cons, hb, hw, hk]
      obtain ⟨h1, h2⟩ := ih ls2 (Level.mutate rand 1 l2 k).2 h.2
      exact ⟨by rw [h1], h2⟩

/-- With amount `1` every bias and weight of the mutated levels is the value
`2 r - 1` of a draw made from `k` on. -/
theorem NeuralNetwork.mutateLevels_one_mem (rand : Nat → α) (ls : List (Level α)) (k : Nat) :
    ∀ level ∈ (NeuralNetwork.mutateLevels rand 1 ls k).1,
      (∀ b ∈ level.biases, ∃ j, k ≤ j ∧ b = rand j * 2 - 1) ∧
      (∀ row ∈ level.weights, ∀ w ∈ row, ∃ j, k ≤ j ∧ w = rand j * 2 - 1) := by
  induction ls generalizing k with
  | nil => intro level h; cases h
  | cons l ls ih =>
    intro level hlevel
    simp only [NeuralNetwork.mutateLevels] at hlevel
    rcases List.mem_cons.mp hlevel with rfl | hlevel
    · obtain ⟨hb, hw⟩ := Level.mutate_one_mem rand l k
      exact ⟨fun b h => (hb b h).imp fun j hj => ⟨hj.1, hj.2.2⟩,
        fun row hr w h => (hw row hr w h).imp fun j hj => ⟨hj.1, hj.2.2⟩⟩
    · obtain ⟨hb, hw⟩ := ih (Level.mutate rand 1 l k).2 level hlevel
      have hc := Level.mutate_counter rand l k
      exact ⟨fun b h => (hb b h).imp fun j hj => ⟨le_trans hc hj.1, hj.2⟩,
        fun row hr w h => (hw row hr w h).imp fun j hj => ⟨le_trans hc hj.1, hj.2⟩⟩

/-- The loop over one array makes one draw per entry. -/
theorem mutateValues_draws (rand : Nat → α) (amount : α) (vs : List α) (k : Nat) :
    (mutateValues rand amount vs k).2 = k + vs.length := by
  induction vs generalizing k with
  | nil => rfl
  | cons v vs ih =>
    simp only [mutateValues, ih, List.length_cons]
    omega

/-- The loop over the rows keeps the number of rows and makes one draw per
weight. -/
theorem mutateRows_draws (rand : Nat → α) (amount : α) (rows : List (List α)) (k : Nat) :
    (mutateRows rand amount rows k).1.length = rows.length ∧
    (mutateRows rand amount rows k).2 = k + (rows.map List.length).sum := by
  induction rows generalizing k with
  | nil => exact ⟨rfl, rfl⟩
  | cons row rows ih =>
    obtain ⟨h1, h2⟩ := ih (mutateValues rand amount row k).2
    have hv := mutateValues_draws rand amount row k
    constructor
    · show (mutateRows rand amount rows (mutateValues rand amount row k).2).1.length + 1
        = rows.length + 1
      rw [h1]
    · show (mutateRows rand amount rows (mutateValues rand amount row k).2).2
        = k + ((row :: rows).map List.length).sum
      rw [h2, hv, List.map_cons, List.sum_cons]
      omega

/-- With amount `1`, row `i` of the weights becomes the values `2 r - 1` of
the draws that follow those of the rows before it. -/
theorem mutateRows_one_getElem? (rand : Nat → α) (rows : List (List α)) (k i : Nat)
    (row : List α) (h : rows[i]? = some row) :
    (mutateRows rand 1 rows k).1[i]? = some ((List.range row.length).map fun j =>
      rand (k + ((rows.take i).map List.length).sum + j) * 2 - 1) := by
  induction rows generalizing k i with
  | nil => simp at h
  | cons r rs ih =>
    cases i with
    | zero =>
      simp only [List.getElem?_cons_zero, Option.some.injEq] at h
      subst h
      simp [mutateRows, mutateValues_one]
    | succ i =>
      simp only [List.getElem?_cons_succ] at h
      have := ih (k + r.length) i h
      simp only [mutateRows, mutateValues_one, List.getElem?_cons_succ, this,
        List.take_succ_cons, List.map_cons, List.sum_cons, Option.some.injEq]
      apply List.map_congr_left
      intro j _
      congr 3
      omega

/-- The mutation of a level makes `paramCount` draws. -/
theorem Level.mutate_draws (rand : Nat → α) (amount : α) (level : Level α) (k : Nat) :
    (Level.mutate rand amount level k).2 = k + level.paramCount := by
  simp only [Level.mutate, (mutateRows_draws rand amount _ _).2, mutateValues_draws,
    Level.paramCount]
  omega

/-- The mutation of the levels keeps their number, mutates level `l` from the
draw that follows those of the levels before it, and makes `paramCount` draws
per level. -/
theorem NeuralNetwork.mutateLevels_getElem? (rand : Nat → α) (amount : α)
    (levels : List (Level α)) (k : Nat) :
    (NeuralNetwork.mutateLevels rand amount levels k).1.length = levels.length ∧
    (NeuralNetwork.mutateLevels rand amount levels k).2
      = k + (levels.map Level.paramCount).sum ∧
    ∀ (l : Nat) (level : Level α), levels[l]? = some level →
      (NeuralNetwork.mutateLevels rand amount levels k).1[l]? = some
        (Level.mutate rand amount level
          (k + ((levels.take l).map Level.paramCount).sum)).1 := by
  induction levels generalizing k with
  | nil => exact ⟨rfl, rfl, fun l level h => by simp at h⟩
  | cons a as ih =>
    obtain ⟨h1, h2, h3⟩ := ih (Level.mutate rand amount a k).2
    refine ⟨?_, ?_, ?_⟩
    · show (NeuralNetwork.mutateLevels rand amount as (Level.mutate rand amount a k).2).1.length
        + 1 = as.length + 1
      rw [h1]
    · show (NeuralNetwork.mutateLevels rand amount as (Level.mutate rand amount a k).2).2
        = k + ((a :: as).map Level.paramCount).sum
      rw [h2, Level.mutate_draws, List.map_cons, List.sum_cons]
      omega
    · intro l level h
      cases l with
      | zero =>
        simp only [List.getElem?_cons_zero, Option.some.injEq] at h
        subst h
        simp [NeuralNetwork.mutateLevels]
      | succ l =>
        simp only [List.getElem?_cons_succ] at h
        have := h3 l level h
        have hstep : (NeuralNetwork.mutateLevels rand amount (a :: as) k).1[l + 1]?
            = (NeuralNetwork.mutateLevels rand amount as
                (Level.mutate rand amount a k).2).1[l]? := by
          simp only [NeuralNetwork.mutateLevels, List.getElem?_cons_succ]
        rw [hstep, this, Level.mutate_draws, List.take_succ_cons, List.map_cons,
          List.sum_cons]
        congr 3
        omega

/-- C12: after `NeuralNetwork.mutate(network, 1)` the network has the same
levels with the same inputs, outputs and shapes, and each bias and each weight
is the value `2 r - 1` of its own draw `r`, whatever its prior value: in level
`l`, whose draws start after the `paramCount` draws of each level before it,
bias `i` is drawn `i`-th and weight `(i, j)` after the biases and the rows
before row `i`; the call makes `paramCount` draws per level.  Hence two
networks whose levels have biases and rows of weights of the same lengths,
mutated with amount `1` under the same draws, end with identical biases and
weights. -/
theorem NeuralNetwork.mutate_one (rand : Nat → α) (k : Nat) (n1 n2 : NeuralNetwork α)
    (hshape : n1.levels.map Level.paramShape = n2.levels.map Level.paramShape) :
    (NeuralNetwork.mutate n1 1 rand k).1.levels.map (fun l => (l.biases, l.weights))
      = (NeuralNetwork.mutate n2 1 rand k).1.levels.map (fun l => (l.biases, l.weights)) ∧
    (∀ level ∈ (NeuralNetwork.mutate n1 1 rand k).1.levels,
      (∀ b ∈ level.biases, ∃ j, k ≤ j ∧ b = rand j * 2 - 1) ∧
      (∀ row ∈ level.weights, ∀ w ∈ row, ∃ j, k ≤ j ∧ w = rand j * 2 - 1)) ∧
    (NeuralNetwork.mutate n1 1 rand k).1.levels.length = n1.levels.length ∧
    (NeuralNetwork.mutate n1 1 rand k).2 = k + (n1.levels.map Level.paramCount).sum ∧
    (∀ (l : Nat) (level : Level α), n1.levels[l]? = some level →
      ∃ level', (NeuralNetwork.mutate n1 1 rand k).1.levels[l]? = some level' ∧
        level'.inputs = level.inputs ∧ level'.outputs = level.outputs ∧
        level'.biases = (List.range level.biases.length).map (fun i =>
          rand (k + ((n1.levels.take l).map Level.paramCount).sum + i) * 2 - 1) ∧
        level'.weights.length = level.weights.length ∧
        ∀ (i : Nat) (row : List α), level.weights[i]? = some row →
          level'.weights[i]? = some ((List.range row.length).map fun j =>
            rand (k + ((n1.levels.take l).map Level.paramCount).sum
              + level.biases.length + ((level.weights.take i).map List.length).sum + j)
              * 2 - 1)) := by
  obtain ⟨h1, h2, h3⟩ := NeuralNetwork.mutateLevels_getElem? rand 1 n1.levels k
  refine ⟨(NeuralNetwork.mutateLevels_one_congr rand n1.levels n2.levels k hshape).1,
    NeuralNetwork.mutateLevels_one_mem rand n1.levels k, h1, h2, fun l level hl => ?_⟩
  refine ⟨_, h3 l level hl, rfl, rfl, ?_, ?_, ?_⟩
  · show (mutateValues rand 1 level.biases _).1 = _
    rw [mutateValues_one]
  · show (mutateRows rand 1 level.weights _).1.length = _
    exact (mutateRows_draws rand 1 level.weights _).1
  · intro i row hrow
    show (mutateRows rand 1 level.weights (mutateValues rand 1 level.biases _).2).1[i]? = _
    rw [mutateValues_draws, mutateRows_one_getElem? rand level.weights _ i row hrow]

/-- Witness for C12: the network `negateThenCopy` and a second network of
widths `[1, 1, 1]` with other weights and biases, both mutated with amount `1`
under the draws `0, 1/4, 1/2, 3/4, ...`: both end with the biases and weights
`-1`, `-1/2` in level 0 and `0`, `1/2` in level 1, one draw each in order. -/
theorem NeuralNetwork.mutate_one_witness :
    (NeuralNetwork.mutate negateThenCopy 1 (fun n => (n : ℚ) / 4) 0).1.levels.map
        (fun l => (l.biases, l.weights))
      = (NeuralNetwork.mutate
          ({ levels :=
              [ { inputs := [none], outputs := [none], biases := [0], weights := [[1 / 3]] },
                { inputs := [none], outputs := [none], biases := [3 / 4],
                  weights := [[-1 / 5]] } ] } : NeuralNetwork ℚ)
          1 (fun n => (n : ℚ) / 4) 0).1.levels.map (fun l => (l.biases, l.weights)) ∧
    (NeuralNetwork.mutate negateThenCopy 1 (fun n => (n : ℚ) / 4) 0).1.levels.map
        (fun l => (l.biases, l.weights))
      = [([-1], [[-1 / 2]]), ([0], [[1 / 2]])] :=
  ⟨(NeuralNetwork.mutate_one (fun n => (n : ℚ) / 4) 0 negateThenCopy
      ({ levels :=
              [ { inputs := [none], outputs := [none], biases := [0], weights := [[1 / 3]] },
                { inputs := [none], outputs := [none], biases := [3 / 4],
                  weights := [[-1 / 5]] } ] } : NeuralNetwork ℚ)
      rfl).1, by
    simp [NeuralNetwork.mutate, NeuralNetwork.mutateLevels, Level.mutate, mutateValues,
      mutateRows, negateThenCopy, lerp]
    norm_num⟩

/-- The constructor loop builds one level per adjacent pair of widths. -/
theorem NeuralNetwork.newLevels_length (rand : Nat → α) (widths : List Nat) (k : Nat) :
    (NeuralNetwork.newLevels rand widths k).1.length = widths.length - 1 := by
  induction widths generalizing k with
  | nil => rfl
  | cons a t ih =>
    cases t with
    | nil => rfl
    | cons b rest =>
      simp only [NeuralNetwork.newLevels, List.length_cons, ih]
      simp

/-- The shapes of the level the constructor loop builds at index `i`. -/
theorem NeuralNetwork.newLevels_getElem? (rand : Nat → α) (widths : List Nat) (k i : Nat)
    (hi : i + 1 < widths.length) :
    ∃ level, (NeuralNetwork.newLevels rand widths k).1[i]? = some level ∧
      level.inputs.length = widths.getD i 0 ∧
      level.outputs.length = widths.getD (i + 1) 0 ∧
      level.biases.length = widths.getD (i + 1) 0 ∧
      level.weights.length = widths.getD i 0 ∧
      ∀ row ∈ level.weights, row.length = widths.getD (i + 1) 0 := by
  induction widths generalizing k i with
  | nil => simp at hi
  | cons a t ih =>
    cases t with
    | nil => simp at hi
    | cons b rest =>
      cases i with
      | zero =>
        refine ⟨(Level.new a b rand k).1, by simp [NeuralNetwork.newLevels], ?_⟩
        simp [Level.new]
      | succ i =>
        obtain ⟨level, h1, h2⟩ :=
          ih (Level.new a b rand k).2 i (by simpa using hi)
        refine ⟨level, ?_, ?_⟩
        · simpa [NeuralNetwork.newLevels] using h1
        · simpa using h2

/-- C13: for every sequence of layer widths `w` of length `L`, the constructed
network has exactly `L - 1` levels; level `k` has inputs of length `w[k]`,
outputs and biases of length `w[k+1]`, and `w[k]` rows of weights each of
length `w[k+1]`; so each level's output count is the next level's input
count.  For `[5, 6, 4]` this gives two levels, 5-to-6 and 6-to-4. -/
theorem NeuralNetwork.new_shapes (widths : List Nat) (rand : Nat → α) (k : Nat) :
    (NeuralNetwork.new widths rand k).1.levels.length = widths.length - 1 ∧
    (∀ i : Nat, i + 1 < widths.length →
      ∃ level, (NeuralNetwork.new widths rand k).1.levels[i]? = some level ∧
        level.inputs.length = widths.getD i 0 ∧
        level.outputs.length = widths.getD (i + 1) 0 ∧
        level.biases.length = widths.getD (i + 1) 0 ∧
        level.weights.length = widths.getD i 0 ∧
        ∀ row ∈ level.weights, row.length = widths.getD (i + 1) 0) ∧
    (∀ (i : Nat) (l1 l2 : Level α),
      (NeuralNetwork.new widths rand k).1.levels[i]? = some l1 →
      (NeuralNetwork.new widths rand k).1.levels[i + 1]? = some l2 →
      l1.outputs.length = l2.inputs.length) ∧
    (NeuralNetwork.new [5, 6, 4] rand k).1.levels.map
        (fun l => (l.inputs.length, l.outputs.length, l.biases.length,
          l.weights.map List.length))
      = [(5, 6, 6, [6, 6, 6, 6, 6]), (6, 4, 4, [4, 4, 4, 4, 4, 4])] := by
  have hlen := NeuralNetwork.newLevels_length rand widths k
  refine ⟨hlen, fun i hi => NeuralNetwork.newLevels_getElem? rand widths k i hi, ?_, ?_⟩
  · intro i l1 l2 h1 h2
    have hi2 : i + 1 < (NeuralNetwork.newLevels rand widths k).1.length := by
      by_contra hcon
      have : (NeuralNetwork.newLevels rand widths k).1[i + 1]? = none :=
        List.getElem?_eq_none (not_lt.mp hcon)
      have h2' : (NeuralNetwork.newLevels rand widths k).1[i + 1]? = some l2 := h2
      rw [this] at h2'
      cases h2'
    rw [hlen] at hi2
    obtain ⟨a, ha, _, hout, _⟩ :=
      NeuralNetwork.newLevels_getElem? rand widths k i (by omega)
    obtain ⟨b, hb, hin, _⟩ :=
      NeuralNetwork.newLevels_getElem? rand widths k (i + 1) (by omega)
    have h1' : (NeuralNetwork.newLevels rand widths k).1[i]? = some l1 := h1
    have h2' : (NeuralNetwork.newLevels rand widths k).1[i + 1]? = some l2 := h2
    rw [ha] at h1'
    rw [hb] at h2'
    cases h1'
    cases h2'
    rw [hout, hin]
  · simp [NeuralNetwork.new, NeuralNetwork.newLevels, Level.new, List.range_succ,
      Function.comp]

/-- Witness for C13: the widths `[5, 6, 4]` with every draw `1/2`: level 1
exists and goes from 6 inputs to 4 outputs. -/
theorem NeuralNetwork.new_shapes_witness :
    ∃ level, (NeuralNetwork.new [5, 6, 4] (fun _ => (1 / 2 : ℚ)) 0).1.levels[1]?
        = some level ∧
      level.inputs.length = 6 ∧ level.outputs.length = 4 ∧ level.biases.length = 4 ∧
      level.weights.length = 6 ∧ ∀ row ∈ level.weights, row.length = 4 :=
  (NeuralNetwork.new_shapes [5, 6, 4] (fun _ => (1 / 2 : ℚ)) 0).2.1 1 (by decide)

/-- The constructed network has the shapes of its widths. -/
theorem NeuralNetwork.new_hasWidths (widths : List Nat) (rand : Nat → α) (k : Nat) :
    (NeuralNetwork.new widths rand k).1.HasWidths widths := by
  show (NeuralNetwork.newLevels rand widths k).1.map Level.dims = widths.zip widths.tail ∧
    ∀ level ∈ (NeuralNetwork.newLevels rand widths k).1, level.WellFormed
  induction widths generalizing k with
  | nil => exact ⟨rfl, fun _ h => by cases h⟩
  | cons a t ih =>
    cases t with
    | nil => exact ⟨rfl, fun _ h => by cases h⟩
    | cons b rest =>
      obtain ⟨h1, h2⟩ := ih (Level.new a b rand k).2
      refine ⟨?_, ?_⟩
      · simp only [NeuralNetwork.newLevels, List.map_cons, List.tail_cons, List.zip_cons_cons]
        rw [h1]
        simp [Level.dims, Level.new]
      · intro level hl
        simp only [NeuralNetwork.newLevels] at hl
        rcases List.mem_cons.mp hl with rfl | hl
        · simp [Level.WellFormed, Level.new]
        · exact h2 level hl

/-- On a level with the shape invariant `Level.feedForward` returns a level of
the same dimensions, with the shape invariant, whose outputs are as many as
before and all `0` or `1`. -/
theorem Level.feedForward_level_outputs (givenInput : List (Option α)) (level : Level α)
    (h : level.WellFormed) :
    ∃ level', Level.feedForward givenInput level = Except.ok level' ∧
      level'.WellFormed ∧ level'.dims = level.dims ∧
      level'.outputs.length = level.outputs.length ∧
      ∀ v ∈ level'.outputs, v = some 0 ∨ v = some 1 := by
  obtain ⟨level', h1, h2⟩ := Level.feedForward_wellFormed givenInput level h
  have h3 := Level.feedForward_eq_ok givenInput level (le_of_eq h.1.symm)
  rw [h3] at h1
  cases h1
  refine ⟨_, h3, h2, ?_, ?_, ?_⟩
  · simp [Level.dims, Level.loadInputs]
  · simp
  · intro v hv
    simp only [List.mem_map] at hv
    obtain ⟨i, _, rfl⟩ := hv
    unfold Level.activation
    split_ifs
    · exact Or.inr rfl
    · exact Or.inl rfl

/-- One iteration of the loop of `NeuralNetwork.feedForward` at an index in
range keeps the dimensions and the shape invariant of the levels, and leaves
in `outputs` as many values as level `i` has outputs, all `0` or `1`. -/
theorem NeuralNetwork.feedStep_outputs (st : List (Option α) × List (Level α))
    (hwf : ∀ level ∈ st.2, level.WellFormed) (i : Nat) (hi : i < st.2.length) :
    ∃ st', NeuralNetwork.feedStep st i = Except.ok st' ∧
      st'.2.map Level.dims = st.2.map Level.dims ∧
      (∀ level ∈ st'.2, level.WellFormed) ∧
      st'.1.length = (st.2[i]).outputs.length ∧
      ∀ v ∈ st'.1, v = some 0 ∨ v = some 1 := by
  obtain ⟨level', hl, hwf', hdims, hlen, h01⟩ :=
    Level.feedForward_level_outputs st.1 st.2[i] (hwf _ (List.getElem_mem hi))
  refine ⟨(level'.outputs, st.2.set i level'), ?_, ?_, ?_, hlen, h01⟩
  · unfold NeuralNetwork.feedStep
    rw [List.getElem?_eq_getElem hi]
    show (do
      let level' ← Level.feedForward st.1 st.2[i]
      pure (level'.outputs, st.2.set i level') : Except JsError _) = _
    rw [hl]
    rfl
  · show (st.2.set i level').map Level.dims = st.2.map Level.dims
    rw [List.map_set, hdims]
    apply List.ext_getElem?
    intro j
    by_cases hji : i = j
    · subst hji
      rw [List.getElem?_set_self (by simpa using hi)]
      simp [List.getElem?_map, List.getElem?_eq_getElem hi]
    · rw [List.getElem?_set_ne hji]
  · intro level hmem
    rcases List.mem_or_eq_of_mem_set hmem with h | h
    · exact hwf level h
    · exact h ▸ hwf'

/-- On a well-formed network `NeuralNetwork.feedForward` returns as many
values as the last level has outputs, all `0` or `1`, and keeps the
dimensions of the levels. -/
theorem NeuralNetwork.feedForward_outputs (givenInput : List (Option α))
    (network : NeuralNetwork α) (h : network.WellFormed) :
    ∃ r, NeuralNetwork.feedForward givenInput network = Except.ok r ∧
      r.2.levels.map Level.dims = network.levels.map Level.dims ∧
      ((network.levels.map Level.dims)[network.levels.length - 1]?).map Prod.snd
        = some r.1.length ∧
      ∀ v ∈ r.1, v = some 0 ∨ v = some 1 := by
  obtain ⟨hpos, hwf⟩ := h
  obtain ⟨m, hm⟩ : ∃ m, network.levels.length = m + 1 :=
    ⟨network.levels.length - 1, by omega⟩
  -- the call before the loop
  obtain ⟨level0', h0, hwf0, hdims0, _, _⟩ :=
    Level.feedForward_level_outputs givenInput network.levels[0] (hwf _ (List.getElem_mem hpos))
  have hinit : (network.levels.set 0 level0').map Level.dims = network.levels.map Level.dims ∧
      ∀ level ∈ network.levels.set 0 level0', level.WellFormed := by
    constructor
    · rw [List.map_set, hdims0]
      apply List.ext_getElem?
      intro j
      by_cases hj : 0 = j
      · subst hj
        rw [List.getElem?_set_self (by simpa using hpos)]
        simp [List.getElem?_map, List.getElem?_eq_getElem hpos]
      · rw [List.getElem?_set_ne hj]
    · intro level hmem
      rcases List.mem_or_eq_of_mem_set hmem with h | h
      · exact hwf level h
      · exact h ▸ hwf0
  -- the first `m` iterations
  obtain ⟨st, hst, hdims, hall⟩ :=
    foldlM_invariant NeuralNetwork.feedStep
      (fun st => st.2.map Level.dims = network.levels.map Level.dims ∧
        ∀ level ∈ st.2, level.WellFormed)
      (List.range m)
      (fun b hb c hc => by
        have hlen : b.2.length = network.levels.length := by
          have := congrArg List.length hb.1
          simpa using this
        obtain ⟨st', h1, h2, h3, _, _⟩ :=
          NeuralNetwork.feedStep_outputs b hb.2 c
            (by rw [hlen, hm]; exact Nat.lt_succ_of_lt (List.mem_range.mp hc))
        exact ⟨st', h1, h2.trans hb.1, h3⟩)
      (level0'.outputs, network.levels.set 0 level0') hinit
  -- the last iteration
  have hlen : st.2.length = network.levels.length := by
    have := congrArg List.length hdims
    simpa using this
  have hmlt : m < st.2.length := by rw [hlen, hm]; exact Nat.lt_succ_self m
  obtain ⟨st', h1, h2, _, h4, h5⟩ := NeuralNetwork.feedStep_outputs st hall m hmlt
  refine ⟨(st'.1, { levels := st'.2 }), ?_, h2.trans hdims, ?_, h5⟩
  · unfold NeuralNetwork.feedForward
    rw [List.getElem?_eq_getElem hpos]
    show (do
      let level0' ← Level.feedForward givenInput network.levels[0]
      let st ← (List.range network.levels.length).foldlM NeuralNetwork.feedStep
        (level0'.outputs, network.levels.set 0 level0')
      pure (st.1, ({ levels := st.2 } : NeuralNetwork α)) : Except JsError _) = _
    rw [h0]
    show (do
      let st ← (List.range network.levels.length).foldlM NeuralNetwork.feedStep
        (level0'.outputs, network.levels.set 0 level0')
      pure (st.1, ({ levels := st.2 } : NeuralNetwork α)) : Except JsError _) = _
    rw [hm, List.range_succ, List.foldlM_append, hst]
    show (do
      let st ← [m].foldlM NeuralNetwork.feedStep st
      pure (st.1, ({ levels := st.2 } : NeuralNetwork α)) : Except JsError _) = _
    rw [List.foldlM_cons, h1]
    rfl
  · have hm' : network.levels.length - 1 = m := by omega
    rw [hm', ← hdims, List.getElem?_map, List.getElem?_eq_getElem hmlt]
    simp only [Option.map_some', Level.dims]
    rw [h4]

/-- C14: for every network with the shapes of layer widths of length at least
2 (any weights and biases) and every input, `NeuralNetwork.feedForward`
returns a vector whose length is the last layer width and whose every element
is exactly `0` or `1`. -/
theorem NeuralNetwork.feedForward_binary (network : NeuralNetwork α) (widths : List Nat)
    (givenInput : List (Option α)) (hw : 2 ≤ widths.length)
    (hshape : network.HasWidths widths) :
    ∃ r, NeuralNetwork.feedForward givenInput network = Except.ok r ∧
      r.1.length = widths.getD (widths.length - 1) 0 ∧
      ∀ v ∈ r.1, v = some 0 ∨ v = some 1 := by
  obtain ⟨hdims, hwf⟩ := hshape
  have hlen : network.levels.length = widths.length - 1 := by
    have := congrArg List.length hdims
    simp only [List.length_map, List.length_zip, List.length_tail] at this
    omega
  obtain ⟨r, hr, _, hlast, h01⟩ :=
    NeuralNetwork.feedForward_outputs givenInput network ⟨by omega, hwf⟩
  refine ⟨r, hr, ?_, h01⟩
  have h1 : widths.length - 1 - 1 < widths.length := by omega
  have h2 : widths.length - 1 - 1 + 1 < widths.length := by omega
  have hz : (widths.zip widths.tail)[widths.length - 1 - 1]?
      = some (widths[widths.length - 1 - 1], widths[widths.length - 1 - 1 + 1]) := by
    rw [List.getElem?_zip_eq_some]
    exact ⟨List.getElem?_eq_getElem h1, by
      rw [List.getElem?_tail]; exact List.getElem?_eq_getElem h2⟩
  rw [hdims, hlen, hz] at hlast
  simp only [Option.map_some', Option.some.injEq] at hlast
  have h3 : widths.length - 1 - 1 + 1 = widths.length - 1 := by omega
  rw [← hlast, List.getD_eq_getElem _ _ (by omega : widths.length - 1 < widths.length)]
  simp only [h3]

/-- Witness for C14: the network built for the widths `[5, 6, 4]` with every
draw `1/2`, on the length-5 input of zeros: a length-4 output of `0`/`1`. -/
theorem NeuralNetwork.feedForward_binary_witness :
    ∃ r, NeuralNetwork.feedForward [some 0, some 0, some 0, some 0, some 0]
        (NeuralNetwork.new [5, 6, 4] (fun _ => (1 / 2 : ℚ)) 0).1 = Except.ok r ∧
      r.1.length = 4 ∧ ∀ v ∈ r.1, v = some 0 ∨ v = some 1 :=
  NeuralNetwork.feedForward_binary (NeuralNetwork.new [5, 6, 4] (fun _ => (1 / 2 : ℚ)) 0).1
    [5, 6, 4] [some 0, some 0, some 0, some 0, some 0] (by decide)
    (NeuralNetwork.new_hasWidths [5, 6, 4] (fun _ => (1 / 2 : ℚ)) 0)

/-- Once `NaN`, the sum of the inner loop stays `NaN`. -/
theorem foldl_jsAdd_none (term : Nat → Option α) (l : List Nat) :
    l.foldl (fun sum j => jsAdd sum (term j)) none = none := by
  induction l with
  | nil => rfl
  | cons j l ih => simpa [List.foldl_cons, jsAdd] using ih

/-- A `NaN` term makes the sum of the inner loop `NaN`. -/
theorem foldl_jsAdd_of_none (term : Nat → Option α) (l : List Nat) (j : Nat)
    (hj : j ∈ l) (hterm : term j = none) (init : Option α) :
    l.foldl (fun sum j => jsAdd sum (term j)) init = none := by
  induction l generalizing init with
  | nil => cases hj
  | cons i l ih =>
    rw [List.foldl_cons]
    rcases List.mem_cons.mp hj with rfl | hj
    · rw [hterm]
      have : jsAdd init (none : Option α) = none := by
        cases init <;> rfl
      rw [this]
      exact foldl_jsAdd_none term l
    · exact ih hj _

/-- The stored inputs only depend on the first `inputCount` entries of the
given input. -/
theorem Level.loadInputs_take (givenInput : List (Option α)) (level : Level α) :
    level.loadInputs (givenInput.take level.inputs.length) = level.loadInputs givenInput := by
  unfold Level.loadInputs
  apply List.map_congr_left
  intro i hi
  rw [List.getElem?_take_of_lt (List.mem_range.mp hi)]

/-- With an input shorter than the input count every output is `0`. -/
theorem Level.activation_of_short (givenInput : List (Option α)) (level : Level α)
    (h : givenInput.length < level.inputs.length) (i : Nat) :
    Level.activation (level.loadInputs givenInput) level i = some 0 := by
  have hlen : (level.loadInputs givenInput).length = level.inputs.length := by
    simp [Level.loadInputs]
  have hsum : Level.pureSum (level.loadInputs givenInput) level.weights i = none := by
    unfold Level.pureSum
    apply foldl_jsAdd_of_none
      (fun j => jsMul ((level.loadInputs givenInput)[j]?).join
        ((level.weights[j]?).bind fun row => row[i]?))
      _ givenInput.length
    · rw [hlen]; exact List.mem_range.mpr h
    · have : (level.loadInputs givenInput)[givenInput.length]? = some none := by
        unfold Level.loadInputs
        rw [List.getElem?_map, List.getElem?_range h]
        simp
      show jsMul ((level.loadInputs givenInput)[givenInput.length]?).join _ = none
      rw [this]
      rfl
  unfold Level.activation
  rw [hsum]
  rfl

/-- C19 (as amended): `Level.feedForward` on a level with the shape invariant
does not fail, whatever the length of the input: it returns `outputCount`
values, each `0` or `1`; the entries of the input beyond the input count are
ignored; and when the input is shorter than the input count the missing
entries are read as `undefined`, which makes every output `0`. -/
theorem Level.feedForward_any_length (givenInput : List (Option α)) (level : Level α)
    (hwf : level.WellFormed) :
    (∃ level', Level.feedForward givenInput level = Except.ok level' ∧
      level'.outputs.length = level.outputs.length ∧
      (∀ v ∈ level'.outputs, v = some 0 ∨ v = some 1) ∧
      (givenInput.length < level.inputs.length → ∀ v ∈ level'.outputs, v = some 0)) ∧
    Level.feedForward (givenInput.take level.inputs.length) level
      = Level.feedForward givenInput level := by
  constructor
  · have h3 := Level.feedForward_eq_ok givenInput level (le_of_eq hwf.1.symm)
    refine ⟨_, h3, by simp, ?_, ?_⟩
    · intro v hv
      simp only [List.mem_map] at hv
      obtain ⟨i, _, rfl⟩ := hv
      unfold Level.activation
      split_ifs
      · exact Or.inr rfl
      · exact Or.inl rfl
    · intro hshort v hv
      simp only [List.mem_map] at hv
      obtain ⟨i, _, rfl⟩ := hv
      exact Level.activation_of_short givenInput level hshort i
  · rw [Level.feedForward_eq_ok _ level (le_of_eq hwf.1.symm),
      Level.feedForward_eq_ok _ level (le_of_eq hwf.1.symm), Level.loadInputs_take]

/-- Witness for C19 (as amended): the one-input level with weight `1` and
bias `1/2` on the empty input: it returns, and its output is `0`. -/
theorem Level.feedForward_any_length_witness :
    ∃ level', Level.feedForward []
        ({ inputs := [none], outputs := [none], biases := [1 / 2],
           weights := [[1]] } : Level ℚ) = Except.ok level' ∧
      level'.outputs.length = 1 ∧ ∀ v ∈ level'.outputs, v = some 0 :=
  (Level.feedForward_any_length []
    ({ inputs := [none], outputs := [none], biases := [1 / 2],
       weights := [[1]] } : Level ℚ) ⟨rfl, by simp, rfl⟩).1.elim
    fun level' h => ⟨level', h.1, h.2.1, h.2.2.2 (by decide)⟩

/-- C19 (counterexample): on the one-input level with weight `1` and bias
`1/2`, `Level.feedForward` does not fail on the two-entry input `[1, 5]`,
whose second entry it ignores (output `[1]`), nor on the empty input, whose
missing entry it reads as `undefined` (output `[0]`). -/
theorem Level.feedForward_wrong_length_returns :
    (Level.feedForward [some 1, some 5]
        ({ inputs := [none], outputs := [none], biases := [1 / 2],
           weights := [[1]] } : Level ℚ)).map (fun l => l.outputs)
      = Except.ok [some 1] ∧
    (Level.feedForward []
        ({ inputs := [none], outputs := [none], biases := [1 / 2],
           weights := [[1]] } : Level ℚ)).map (fun l => l.outputs)
      = Except.ok [some 0] := by
  constructor
  · rw [Level.feedForward_eq_ok _ _ (by simp)]
    simp [Except.map, Level.loadInputs, Level.activation, Level.pureSum, List.range_succ,
      jsAdd, jsMul, jsGt]
    norm_num
  · rw [Level.feedForward_eq_ok _ _ (by simp)]
    simp [Except.map, Level.loadInputs, Level.activation, Level.pureSum, List.range_succ,
      jsAdd, jsMul, jsGt]

/-- A draw in `[0, 1)` gives a parameter `2 r - 1` in `[-1, 1)`. -/
theorem fresh_value_range (r : α) (h : 0 ≤ r ∧ r < 1) :
    -1 ≤ r * 2 - 1 ∧ r * 2 - 1 < 1 := by
  constructor <;> linarith [h.1, h.2]

/-- Blending a value of `[-1, 1]` toward a fresh value with an amount in
`[0, 1]` stays in `[-1, 1]`. -/
theorem lerp_range (v r t : α) (hv : -1 ≤ v ∧ v ≤ 1) (hr : 0 ≤ r ∧ r < 1)
    (ht : 0 ≤ t ∧ t ≤ 1) :
    -1 ≤ lerp v (r * 2 - 1) t ∧ lerp v (r * 2 - 1) t ≤ 1 := by
  obtain ⟨h1, h2⟩ := fresh_value_range r hr
  unfold lerp
  constructor
  · nlinarith [mul_nonneg ht.1 (sub_nonneg.mpr h1),
      mul_nonneg (sub_nonneg.mpr ht.2) (sub_nonneg.mpr hv.1)]
  · nlinarith [mul_nonneg ht.1 (sub_nonneg.mpr (le_of_lt h2)),
      mul_nonneg (sub_nonneg.mpr ht.2) (sub_nonneg.mpr hv.2)]

/-- The loop of `NeuralNetwork.mutate` over one array keeps its entries in
`[-1, 1]`. -/
theorem mutateValues_range (rand : Nat → α) (hr : ∀ n, 0 ≤ rand n ∧ rand n < 1)
    (amount : α) (ht : 0 ≤ amount ∧ amount ≤ 1) (vs : List α) (k : Nat)
    (hv : ∀ v ∈ vs, -1 ≤ v ∧ v ≤ 1) :
    ∀ v ∈ (mutateValues rand amount vs k).1, -1 ≤ v ∧ v ≤ 1 := by
  induction vs generalizing k with
  | nil => intro v h; cases h
  | cons a as ih =>
    intro v h
    simp only [mutateValues] at h
    rcases List.mem_cons.mp h with rfl | h
    · exact lerp_range a (rand k) amount (hv a (List.mem_cons_self _ _)) (hr k) ht
    · exact ih (k + 1) (fun v hv' => hv v (List.mem_cons_of_mem _ hv')) v h

/-- The loop of `NeuralNetwork.mutate` over the rows of weights keeps their
entries in `[-1, 1]`. -/
theorem mutateRows_range (rand : Nat → α) (hr : ∀ n, 0 ≤ rand n ∧ rand n < 1)
    (amount : α) (ht : 0 ≤ amount ∧ amount ≤ 1) (rows : List (List α)) (k : Nat)
    (hv : ∀ row ∈ rows, ∀ w ∈ row, -1 ≤ w ∧ w ≤ 1) :
    ∀ row ∈ (mutateRows rand amount rows k).1, ∀ w ∈ row, -1 ≤ w ∧ w ≤ 1 := by
  induction rows generalizing k with
  | nil => intro row h; cases h
  | cons r rs ih =>
    intro row h
    simp only [mutateRows] at h
    rcases List.mem_cons.mp h with rfl | h
    · exact mutateValues_range rand hr amount ht r k (hv r (List.mem_cons_self _ _))
    · exact ih _ (fun row hrow => hv row (List.mem_cons_of_mem _ hrow)) row h

/-- The mutation of the levels keeps biases and weights in `[-1, 1]`. -/
theorem NeuralNetwork.mutateLevels_range (rand : Nat → α)
    (hr : ∀ n, 0 ≤ rand n ∧ rand n < 1) (amount : α) (ht : 0 ≤ amount ∧ amount ≤ 1)
    (levels : List (Level α)) (k : Nat)
    (hv : ∀ level ∈ levels, (∀ b ∈ level.biases, -1 ≤ b ∧ b ≤ 1) ∧
      ∀ row ∈ level.weights, ∀ w ∈ row, -1 ≤ w ∧ w ≤ 1) :
    ∀ level ∈ (NeuralNetwork.mutateLevels rand amount levels k).1,
      (∀ b ∈ level.biases, -1 ≤ b ∧ b ≤ 1) ∧
      ∀ row ∈ level.weights, ∀ w ∈ row, -1 ≤ w ∧ w ≤ 1 := by
  induction levels generalizing k with
  | nil => intro level h; cases h
  | cons l ls ih =>
    intro level h
    simp only [NeuralNetwork.mutateLevels] at h
    rcases List.mem_cons.mp h with rfl | h
    · obtain ⟨hb, hw⟩ := hv l (List.mem_cons_self _ _)
      exact ⟨mutateValues_range rand hr amount ht l.biases k hb,
        mutateRows_range rand hr amount ht l.weights _ hw⟩
    · exact ih _ (fun level hl => hv level (List.mem_cons_of_mem _ hl)) level h

/-- The levels the constructor builds have biases and weights in `[-1, 1)`. -/
theorem NeuralNetwork.newLevels_range (rand : Nat → α)
    (hr : ∀ n, 0 ≤ rand n ∧ rand n < 1) (widths : List Nat) (k : Nat) :
    ∀ level ∈ (NeuralNetwork.newLevels rand widths k).1,
      (∀ b ∈ level.biases, -1 ≤ b ∧ b < 1) ∧
      ∀ row ∈ level.weights, ∀ w ∈ row, -1 ≤ w ∧ w < 1 := by
  induction widths generalizing k with
  | nil => intro level h; cases h
  | cons a t ih =>
    cases t with
    | nil => intro level h; cases h
    | cons b rest =>
      intro level h
      simp only [NeuralNetwork.newLevels] at h
      rcases List.mem_cons.mp h with rfl | h
      · constructor
        · intro v hv
          simp only [Level.new, List.mem_map] at hv
          obtain ⟨i, _, rfl⟩ := hv
          exact fresh_value_range _ (hr _)
        · intro row hrow w hw
          simp only [Level.new, List.mem_map] at hrow
          obtain ⟨i, _, rfl⟩ := hrow
          simp only [List.mem_map] at hw
          obtain ⟨j, _, rfl⟩ := hw
          exact fresh_value_range _ (hr _)
      · exact ih _ level h

/-- C23: when every random draw lies in `[0, 1)`, every weight and bias of a
freshly constructed network lies in `[-1, 1)`, and if every weight and bias of
a network lies in `[-1, 1]` then after `NeuralNetwork.mutate` with any amount
in `[0, 1]` every weight and bias still lies in `[-1, 1]`. -/
theorem NeuralNetwork.parameter_range (rand : Nat → α)
    (hr : ∀ n, 0 ≤ rand n ∧ rand n < 1) :
    (∀ (widths : List Nat) (k : Nat),
      ∀ level ∈ (NeuralNetwork.new widths rand k).1.levels,
        (∀ b ∈ level.biases, -1 ≤ b ∧ b < 1) ∧
        ∀ row ∈ level.weights, ∀ w ∈ row, -1 ≤ w ∧ w < 1) ∧
    (∀ (network : NeuralNetwork α) (amount : α) (k : Nat),
      0 ≤ amount → amount ≤ 1 →
      (∀ level ∈ network.levels, (∀ b ∈ level.biases, -1 ≤ b ∧ b ≤ 1) ∧
        ∀ row ∈ level.weights, ∀ w ∈ row, -1 ≤ w ∧ w ≤ 1) →
      ∀ level ∈ (NeuralNetwork.mutate network amount rand k).1.levels,
        (∀ b ∈ level.biases, -1 ≤ b ∧ b ≤ 1) ∧
        ∀ row ∈ level.weights, ∀ w ∈ row, -1 ≤ w ∧ w ≤ 1) :=
  ⟨fun widths k => NeuralNetwork.newLevels_range rand hr widths k,
   fun network amount k h0 h1 hv =>
    NeuralNetwork.mutateLevels_range rand hr amount ⟨h0, h1⟩ network.levels k hv⟩

/-- Witness for C23: every draw `1/2`; the network built for the widths
`[5, 6, 4]` has its parameters in `[-1, 1)`, and `negateThenCopy`, whose
parameters are in `[-1, 1]`, keeps them there when mutated with amount
`1/10`. -/
theorem NeuralNetwork.parameter_range_witness :
    (∀ level ∈ (NeuralNetwork.new [5, 6, 4] (fun _ => (1 / 2 : ℚ)) 0).1.levels,
      (∀ b ∈ level.biases, -1 ≤ b ∧ b < 1) ∧
      ∀ row ∈ level.weights, ∀ w ∈ row, -1 ≤ w ∧ w < 1) ∧
    (∀ level ∈ (NeuralNetwork.mutate negateThenCopy (1 / 10) (fun _ => (1 / 2 : ℚ)) 0).1.levels,
      (∀ b ∈ level.biases, -1 ≤ b ∧ b ≤ 1) ∧
      ∀ row ∈ level.weights, ∀ w ∈ row, -1 ≤ w ∧ w ≤ 1) :=
  have hr : ∀ n : ℕ, (0 : ℚ) ≤ (fun _ => (1 / 2 : ℚ)) n ∧ (fun _ => (1 / 2 : ℚ)) n < 1 :=
    fun _ => by norm_num
  ⟨(NeuralNetwork.parameter_range (fun _ => (1 / 2 : ℚ)) hr).1 [5, 6, 4] 0,
   (NeuralNetwork.parameter_range (fun _ => (1 / 2 : ℚ)) hr).2 negateThenCopy (1 / 10) 0
    (by norm_num) (by norm_num) (by
      intro level hl
      simp only [negateThenCopy, List.mem_cons, List.mem_singleton, List.not_mem_nil,
        or_false] at hl
      rcases hl with rfl | rfl <;> norm_num)⟩

end NetworkLemmas

/-! ## Theorems: sensor.js -/

section SensorLemmas

variable {α : Type} [LinearOrderedField α]

/-- The fold `Math.min` performs is a lower bound of its arguments. -/
theorem foldl_min_le (os : List α) (o : α) :
    os.foldl min o ≤ o ∧ ∀ x ∈ os, os.foldl min o ≤ x := by
  induction os generalizing o with
  | nil => exact ⟨le_rfl, fun x hx => by cases hx⟩
  | cons a as ih =>
    obtain ⟨h1, h2⟩ := ih (min o a)
    refine ⟨le_trans h1 (min_le_left _ _), ?_⟩
    intro x hx
    rcases List.mem_cons.mp hx with rfl | hx
    · exact le_trans h1 (min_le_right _ _)
    · exact h2 x hx

/-- The fold `Math.min` performs returns one of its arguments. -/
theorem foldl_min_mem (os : List α) (o : α) : os.foldl min o ∈ o :: os := by
  induction os generalizing o with
  | nil => exact List.mem_cons_self _ _
  | cons a as ih =>
    rcases List.mem_cons.mp (ih (min o a)) with h | h
    · rw [List.foldl_cons, h]
      rcases min_choice o a with hm | hm
      · rw [hm]; exact List.mem_cons_self _ _
      · rw [hm]; exact List.mem_cons_of_mem _ (List.mem_cons_self _ _)
    · exact List.mem_cons_of_mem _ (List.mem_cons_of_mem _ h)

/-- The touches of a ray are exactly its non-null intersections with the
border segments and with the edges of the traffic polygons. -/
theorem mem_allTouches (ray : Segment α) (roadBorders : List (Segment α))
    (traffic : List (List (Point α))) (t : Touch α) :
    t ∈ allTouches ray roadBorders traffic ↔
      (∃ border ∈ roadBorders,
        getIntersection ray.1 ray.2 border.1 border.2 = some t) ∨
      (∃ poly ∈ traffic, ∃ j, j < poly.length ∧ ∃ c d,
        poly[j]? = some c ∧ poly[(j + 1) % poly.length]? = some d ∧
        getIntersection ray.1 ray.2 c d = some t) := by
  unfold allTouches borderTouches
  rw [List.mem_append, List.mem_filterMap, List.mem_flatten]
  apply or_congr Iff.rfl
  constructor
  · rintro ⟨l, hl, ht⟩
    obtain ⟨poly, hpoly, rfl⟩ := List.mem_map.mp hl
    unfold polyTouches at ht
    obtain ⟨j, hj, hjt⟩ := List.mem_filterMap.mp ht
    refine ⟨poly, hpoly, j, List.mem_range.mp hj, ?_⟩
    cases hc : poly[j]? with
    | none => simp [hc] at hjt
    | some c =>
      cases hd : poly[(j + 1) % poly.length]? with
      | none => simp [hc, hd] at hjt
      | some d =>
        simp only [hc, hd] at hjt
        exact ⟨c, d, rfl, rfl, hjt⟩
  · rintro ⟨poly, hpoly, j, hj, c, d, hc, hd, ht⟩
    refine ⟨polyTouches ray poly, List.mem_map.mpr ⟨poly, hpoly, rfl⟩, ?_⟩
    unfold polyTouches
    refine List.mem_filterMap.mpr ⟨j, List.mem_range.mpr hj, ?_⟩
    simp only [hc, hd]
    exact ht

/-- `Sensor.#getReading` on a non-empty array of touches. -/
theorem getReading_of_cons (ray : Segment α) (roadBorders : List (Segment α))
    (traffic : List (List (Point α))) (t : Touch α) (ts : List (Touch α))
    (h : allTouches ray roadBorders traffic = t :: ts) :
    getReading ray roadBorders traffic =
      (t :: ts).find? fun e =>
        decide (e.offset = (ts.map fun e => e.offset).foldl min t.offset) := by
  unfold getReading
  simp only [h, List.map_cons]

/-- `Sensor.#getReading` is `null` exactly when there is no touch. -/
theorem getReading_eq_none_iff (ray : Segment α) (roadBorders : List (Segment α))
    (traffic : List (List (Point α))) :
    getReading ray roadBorders traffic = none ↔
      allTouches ray roadBorders traffic = [] := by
  cases h : allTouches ray roadBorders traffic with
  | nil =>
    simp only [iff_true]
    unfold getReading
    simp only [h, List.map_nil]
  | cons t ts =>
    simp only [iff_false, reduceCtorEq]
    rw [getReading_of_cons ray roadBorders traffic t ts h, List.find?_eq_none]
    intro hall
    have hmem := foldl_min_mem (ts.map fun e => e.offset) t.offset
    rw [← List.map_cons (fun e : Touch α => e.offset) t ts] at hmem
    obtain ⟨e, he, heq⟩ := List.mem_map.mp hmem
    exact hall e he (by simpa using heq)

/-- `Sensor.#getReading` returns `r` exactly when `r` is the first touch of
minimal offset. -/
theorem getReading_eq_some_iff (ray : Segment α) (roadBorders : List (Segment α))
    (traffic : List (List (Point α))) (r : Touch α) :
    getReading ray roadBorders traffic = some r ↔
      ∃ pre post, allTouches ray roadBorders traffic = pre ++ r :: post ∧
        (∀ t ∈ pre, r.offset < t.offset) ∧ (∀ t ∈ post, r.offset ≤ t.offset) := by
  cases h : allTouches ray roadBorders traffic with
  | nil =>
    have hn := (getReading_eq_none_iff ray roadBorders traffic).mpr h
    rw [hn]
    constructor
    · intro h'; cases h'
    · rintro ⟨pre, post, hpre, _⟩
      cases pre <;> cases hpre
  | cons t ts =>
    rw [getReading_of_cons ray roadBorders traffic t ts h, List.find?_eq_some]
    have hle := foldl_min_le (ts.map fun e => e.offset) t.offset
    have hle' : ∀ e ∈ t :: ts, (ts.map fun e => e.offset).foldl min t.offset ≤ e.offset := by
      intro e he
      rcases List.mem_cons.mp he with rfl | he
      · exact hle.1
      · exact hle.2 _ (List.mem_map.mpr ⟨e, he, rfl⟩)
    have hmem := foldl_min_mem (ts.map fun e => e.offset) t.offset
    rw [← List.map_cons (fun e : Touch α => e.offset) t ts] at hmem
    obtain ⟨e0, he0, heq0⟩ := List.mem_map.mp hmem
    constructor
    · rintro ⟨hr, pre, post, hsplit, hpre⟩
      have hr' : r.offset = (ts.map fun e => e.offset).foldl min t.offset := by
        simpa using hr
      refine ⟨pre, post, hsplit, ?_, ?_⟩
      · intro a ha
        have hne : a.offset ≠ (ts.map fun e => e.offset).foldl min t.offset := by
          simpa using hpre a ha
        have hge := hle' a (by rw [hsplit]; exact List.mem_append_left _ ha)
        rw [hr']
        exact lt_of_le_of_ne hge (Ne.symm hne)
      · intro a ha
        rw [hr']
        exact hle' a (by
          rw [hsplit]
          exact List.mem_append_right _ (List.mem_cons_of_mem _ ha))
    · rintro ⟨pre, post, hsplit, hpre, hpost⟩
      have hrmem : r ∈ t :: ts := by
        rw [hsplit]; exact List.mem_append_right _ (List.mem_cons_self _ _)
      have hr_le_all : ∀ e ∈ t :: ts, r.offset ≤ e.offset := by
        intro e he
        rw [hsplit] at he
        rcases List.mem_append.mp he with he | he
        · exact le_of_lt (hpre e he)
        · rcases List.mem_cons.mp he with rfl | he
          · exact le_rfl
          · exact hpost e he
      have hr' : r.offset = (ts.map fun e => e.offset).foldl min t.offset :=
        le_antisymm (heq0 ▸ hr_le_all e0 he0) (hle' r hrmem)
      refine ⟨by simpa using hr', pre, post, hsplit, ?_⟩
      intro a ha
      have := hpre a ha
      rw [hr'] at this
      simpa using ne_of_gt this

/-- C9: for every ray, road-border list and traffic list, the reading is
`null` exactly when the intersection of the ray with every border segment and
with every edge (wrap-around included) of every traffic polygon is `null`;
otherwise the reading is one of those intersections, its offset is at most the
offset of each of them, and it is the first of minimal offset in the
borders-then-traffic-then-edge order of `touches`.  After `Sensor.update`,
`readings` is as long as `rays` and `readings[i]` is the reading of
`rays[i]`. -/
theorem getReading_nearest (ray : Segment α) (roadBorders : List (Segment α))
    (traffic : List (List (Point α))) :
    (getReading ray roadBorders traffic = none ↔
      (∀ border ∈ roadBorders,
        getIntersection ray.1 ray.2 border.1 border.2 = none) ∧
      (∀ poly ∈ traffic, ∀ j, j < poly.length → ∀ c d,
        poly[j]? = some c → poly[(j + 1) % poly.length]? = some d →
        getIntersection ray.1 ray.2 c d = none)) ∧
    (∀ r, getReading ray roadBorders traffic = some r →
      ((∃ border ∈ roadBorders,
          getIntersection ray.1 ray.2 border.1 border.2 = some r) ∨
        (∃ poly ∈ traffic, ∃ j, j < poly.length ∧ ∃ c d,
          poly[j]? = some c ∧ poly[(j + 1) % poly.length]? = some d ∧
          getIntersection ray.1 ray.2 c d = some r)) ∧
      (∀ border ∈ roadBorders, ∀ t,
        getIntersection ray.1 ray.2 border.1 border.2 = some t → r.offset ≤ t.offset) ∧
      (∀ poly ∈ traffic, ∀ j, j < poly.length → ∀ c d t,
        poly[j]? = some c → poly[(j + 1) % poly.length]? = some d →
        getIntersection ray.1 ray.2 c d = some t → r.offset ≤ t.offset) ∧
      ∃ pre post, allTouches ray roadBorders traffic = pre ++ r :: post ∧
        ∀ t ∈ pre, r.offset < t.offset) ∧
    (∀ (M : JsMath α) (sensor : Sensor α) (carX carY carAngle : α),
      (sensor.update M carX carY carAngle roadBorders traffic).readings.length
        = (sensor.update M carX carY carAngle roadBorders traffic).rays.length ∧
      ∀ i : Nat, (sensor.update M carX carY carAngle roadBorders traffic).readings[i]?
        = ((sensor.update M carX carY carAngle roadBorders traffic).rays[i]?).map
            fun ray => getReading ray roadBorders traffic) := by
  refine ⟨?_, ?_, ?_⟩
  · rw [getReading_eq_none_iff, List.eq_nil_iff_forall_not_mem]
    constructor
    · intro h
      refine ⟨fun border hb => ?_, fun poly hp j hj c d hc hd => ?_⟩
      · cases hg : getIntersection ray.1 ray.2 border.1 border.2 with
        | none => rfl
        | some t =>
          exact ((h t) ((mem_allTouches ray roadBorders traffic t).mpr
            (Or.inl ⟨border, hb, hg⟩))).elim
      · cases hg : getIntersection ray.1 ray.2 c d with
        | none => rfl
        | some t =>
          exact ((h t) ((mem_allTouches ray roadBorders traffic t).mpr
            (Or.inr ⟨poly, hp, j, hj, c, d, hc, hd, hg⟩))).elim
    · rintro ⟨h1, h2⟩ t ht
      rcases (mem_allTouches ray roadBorders traffic t).mp ht with
        ⟨border, hb, hg⟩ | ⟨poly, hp, j, hj, c, d, hc, hd, hg⟩
      · rw [h1 border hb] at hg; cases hg
      · rw [h2 poly hp j hj c d hc hd] at hg; cases hg
  · intro r hr
    obtain ⟨pre, post, hsplit, hpre, hpost⟩ :=
      (getReading_eq_some_iff ray roadBorders traffic r).mp hr
    have hle : ∀ t ∈ allTouches ray roadBorders traffic, r.offset ≤ t.offset := by
      intro t ht
      rw [hsplit] at ht
      rcases List.mem_append.mp ht with ht | ht
      · exact le_of_lt (hpre t ht)
      · rcases List.mem_cons.mp ht with rfl | ht
        · exact le_rfl
        · exact hpost t ht
    refine ⟨?_, ?_, ?_, pre, post, hsplit, hpre⟩
    · apply (mem_allTouches ray roadBorders traffic r).mp
      rw [hsplit]
      exact List.mem_append_right _ (List.mem_cons_self _ _)
    · intro border hb t hg
      exact hle t ((mem_allTouches ray roadBorders traffic t).mpr
        (Or.inl ⟨border, hb, hg⟩))
    · intro poly hp j hj c d t hc hd hg
      exact hle t ((mem_allTouches ray roadBorders traffic t).mpr
        (Or.inr ⟨poly, hp, j, hj, c, d, hc, hd, hg⟩))
  · intro M sensor carX carY carAngle
    refine ⟨?_, fun i => ?_⟩
    · simp [Sensor.update]
    · simp [Sensor.update, List.getElem?_map]

/-- Witness for C9: the ray from `(0,0)` to `(0,10)`, the border from `(-5,5)`
to `(5,5)` and the traffic polygon `(-1,8), (1,8), (1,9), (-1,9)`: the reading
is the border touch `{x: 0, y: 5, offset: 1/2}`, first in `touches`. -/
theorem getReading_nearest_witness :
    getReading ((⟨0, 0⟩, ⟨0, 10⟩) : Segment ℚ) [(⟨-5, 5⟩, ⟨5, 5⟩)]
        [[⟨-1, 8⟩, ⟨1, 8⟩, ⟨1, 9⟩, ⟨-1, 9⟩]] = some ⟨0, 5, 1 / 2⟩ ∧
    ∃ pre post,
      allTouches ((⟨0, 0⟩, ⟨0, 10⟩) : Segment ℚ) [(⟨-5, 5⟩, ⟨5, 5⟩)]
          [[⟨-1, 8⟩, ⟨1, 8⟩, ⟨1, 9⟩, ⟨-1, 9⟩]]
        = pre ++ (⟨0, 5, 1 / 2⟩ : Touch ℚ) :: post ∧
      ∀ t ∈ pre, (1 / 2 : ℚ) < t.offset :=
  have hval : getReading ((⟨0, 0⟩, ⟨0, 10⟩) : Segment ℚ) [(⟨-5, 5⟩, ⟨5, 5⟩)]
      [[⟨-1, 8⟩, ⟨1, 8⟩, ⟨1, 9⟩, ⟨-1, 9⟩]] = some ⟨0, 5, 1 / 2⟩ := by
    simp [getReading, allTouches, borderTouches, polyTouches, getIntersection_unfold,
      bottom, tTop, uTop, lerp, List.range_succ, List.filterMap_cons, List.find?_cons]
    norm_num [List.filterMap_cons, List.find?_cons, getIntersection_unfold, bottom,
      tTop, uTop, lerp]
  ⟨hval, ((getReading_nearest ((⟨0, 0⟩, ⟨0, 10⟩) : Segment ℚ) [(⟨-5, 5⟩, ⟨5, 5⟩)]
      [[⟨-1, 8⟩, ⟨1, 8⟩, ⟨1, 9⟩, ⟨-1, 9⟩]]).2.1 ⟨0, 5, 1 / 2⟩ hval).2.2.2⟩

/-- The angle of ray `i`: the heading when there is one ray, else the heading
plus `raySpread/2 - i * raySpread / (rayCount - 1)`. -/
theorem Sensor.rayAngle_eq (sensor : Sensor α) (carAngle : α) (i : Nat) :
    sensor.rayAngle carAngle i =
      if sensor.rayCount = 1 then carAngle
      else carAngle + sensor.raySpread / 2
        - (i : α) * sensor.raySpread / ((sensor.rayCount : α) - 1) := by
  unfold Sensor.rayAngle lerp
  split_ifs
  · norm_num
    ring
  · ring

/-- Ray `i` of `Sensor.#castRays`. -/
theorem Sensor.castRays_getElem? (M : JsMath α) (sensor : Sensor α)
    (carX carY carAngle : α) (i : Nat) (hi : i < sensor.rayCount) :
    (sensor.castRays M carX carY carAngle).rays[i]? = some
      (⟨carX, carY⟩,
       ⟨carX - M.sin (sensor.rayAngle carAngle i) * sensor.rayLength,
        carY - M.cos (sensor.rayAngle carAngle i) * sensor.rayLength⟩) := by
  simp [Sensor.castRays, List.getElem?_map, List.getElem?_range hi]

/-- C10: casting rays produces exactly `rayCount` rays; ray `i` starts at
`(x, y)` and ends at `(x - sin(a_i) * rayLength, y - cos(a_i) * rayLength)`
with `a_i = angle + raySpread/2 - i * raySpread / (rayCount - 1)` when
`rayCount >= 2` and `a_0 = angle` when `rayCount = 1`; with at least two rays
the first and the last are at `+raySpread/2` and `-raySpread/2` from the
heading; and every ray has Euclidean length `|rayLength|`. -/
theorem Sensor.castRays_fan (hypot atan2 : ℝ → ℝ → ℝ) (pi : ℝ) (sensor : Sensor ℝ)
    (x y angle : ℝ) :
    (sensor.castRays ⟨Real.sin, Real.cos, hypot, atan2, pi⟩ x y angle).rays.length
      = sensor.rayCount ∧
    (sensor.rayCount = 1 →
      (sensor.castRays ⟨Real.sin, Real.cos, hypot, atan2, pi⟩ x y angle).rays
        = [(⟨x, y⟩, ⟨x - Real.sin angle * sensor.rayLength,
            y - Real.cos angle * sensor.rayLength⟩)]) ∧
    (2 ≤ sensor.rayCount → ∀ i : Nat, i < sensor.rayCount →
      (sensor.castRays ⟨Real.sin, Real.cos, hypot, atan2, pi⟩ x y angle).rays[i]? = some
        (⟨x, y⟩,
         ⟨x - Real.sin (angle + sensor.raySpread / 2
              - (i : ℝ) * sensor.raySpread / ((sensor.rayCount : ℝ) - 1)) * sensor.rayLength,
          y - Real.cos (angle + sensor.raySpread / 2
              - (i : ℝ) * sensor.raySpread / ((sensor.rayCount : ℝ) - 1)) * sensor.rayLength⟩)) ∧
    (2 ≤ sensor.rayCount →
      (sensor.castRays ⟨Real.sin, Real.cos, hypot, atan2, pi⟩ x y angle).rays[0]? = some
        (⟨x, y⟩,
         ⟨x - Real.sin (angle + sensor.raySpread / 2) * sensor.rayLength,
          y - Real.cos (angle + sensor.raySpread / 2) * sensor.rayLength⟩) ∧
      (sensor.castRays ⟨Real.sin, Real.cos, hypot, atan2, pi⟩ x y angle).rays[
          sensor.rayCount - 1]? = some
        (⟨x, y⟩,
         ⟨x - Real.sin (angle - sensor.raySpread / 2) * sensor.rayLength,
          y - Real.cos (angle - sensor.raySpread / 2) * sensor.rayLength⟩)) ∧
    (∀ ray ∈ (sensor.castRays ⟨Real.sin, Real.cos, hypot, atan2, pi⟩ x y angle).rays,
      Real.sqrt ((ray.2.x - ray.1.x) ^ 2 + (ray.2.y - ray.1.y) ^ 2)
        = |sensor.rayLength|) := by
  refine ⟨by simp [Sensor.castRays], ?_, ?_, ?_, ?_⟩
  · intro h1
    simp [Sensor.castRays, Sensor.rayAngle_eq, h1]
  · intro h2 i hi
    have hne : sensor.rayCount ≠ 1 := by omega
    rw [Sensor.castRays_getElem? _ _ _ _ _ i hi, Sensor.rayAngle_eq, if_neg hne]
  · intro h2
    have hne : sensor.rayCount ≠ 1 := by omega
    have hcast : ((sensor.rayCount - 1 : ℕ) : ℝ) = (sensor.rayCount : ℝ) - 1 := by
      rw [Nat.cast_sub (by omega)]; simp
    have hpos : (sensor.rayCount : ℝ) - 1 ≠ 0 := by
      have : (2 : ℝ) ≤ (sensor.rayCount : ℝ) := by exact_mod_cast h2
      linarith
    constructor
    · rw [Sensor.castRays_getElem? _ _ _ _ _ 0 (by omega), Sensor.rayAngle_eq, if_neg hne]
      simp
    · have hang : angle + sensor.raySpread / 2
          - ((sensor.rayCount : ℝ) - 1) * sensor.raySpread / ((sensor.rayCount : ℝ) - 1)
          = angle - sensor.raySpread / 2 := by
        field_simp
        ring
      rw [Sensor.castRays_getElem? _ _ _ _ _ (sensor.rayCount - 1) (by omega),
        Sensor.rayAngle_eq, if_neg hne, hcast, hang]
  · intro ray hray
    simp only [Sensor.castRays, List.mem_map, List.mem_range] at hray
    obtain ⟨i, _, rfl⟩ := hray
    simp only
    have hsq : (x - Real.sin (sensor.rayAngle angle i) * sensor.rayLength - x) ^ 2
        + (y - Real.cos (sensor.rayAngle angle i) * sensor.rayLength - y) ^ 2
        = sensor.rayLength ^ 2 := by
      have := Real.sin_sq_add_cos_sq (sensor.rayAngle angle i)
      linear_combination sensor.rayLength ^ 2 * this
    rw [hsq, Real.sqrt_sq_eq_abs]

/-- Witness for C10: the sensor of the constructor (five rays of length 150
spread over `π/2`) on a car at the origin with heading `0`: the first ray is
at `+π/4` and the last at `-π/4`. -/
theorem Sensor.castRays_fan_witness :
    ((Sensor.new ⟨Real.sin, Real.cos, fun a b => Real.sqrt (a ^ 2 + b ^ 2),
          fun a b => Complex.arg ⟨b, a⟩, Real.pi⟩).castRays
        ⟨Real.sin, Real.cos, fun a b => Real.sqrt (a ^ 2 + b ^ 2),
          fun a b => Complex.arg ⟨b, a⟩, Real.pi⟩ 0 0 0).rays[0]? = some
      (⟨0, 0⟩,
       ⟨0 - Real.sin (0 + Real.pi / 2 / 2) * 150,
        0 - Real.cos (0 + Real.pi / 2 / 2) * 150⟩) ∧
    ((Sensor.new ⟨Real.sin, Real.cos, fun a b => Real.sqrt (a ^ 2 + b ^ 2),
          fun a b => Complex.arg ⟨b, a⟩, Real.pi⟩).castRays
        ⟨Real.sin, Real.cos, fun a b => Real.sqrt (a ^ 2 + b ^ 2),
          fun a b => Complex.arg ⟨b, a⟩, Real.pi⟩ 0 0 0).rays[5 - 1]? = some
      (⟨0, 0⟩,
       ⟨0 - Real.sin (0 - Real.pi / 2 / 2) * 150,
        0 - Real.cos (0 - Real.pi / 2 / 2) * 150⟩) :=
  (Sensor.castRays_fan (fun a b => Real.sqrt (a ^ 2 + b ^ 2))
    (fun a b => Complex.arg ⟨b, a⟩) Real.pi
    (Sensor.new ⟨Real.sin, Real.cos, fun a b => Real.sqrt (a ^ 2 + b ^ 2),
      fun a b => Complex.arg ⟨b, a⟩, Real.pi⟩) 0 0 0).2.2.2.1
    (show 2 ≤ 5 by decide)

end SensorLemmas

/-! ## Theorems: car.js -/

section CarLemmas

variable {α : Type} [LinearOrderedField α]

/-- The two clamps of `Car.#move` put any speed in `[-maxspeed/2, maxspeed]`. -/
theorem clamp_bounds (m s : α) (hm : 0 ≤ m) :
    -m / 2 ≤ (if (if s ≥ m then m else s) < -m / 2 then -m / 2
        else (if s ≥ m then m else s)) ∧
    (if (if s ≥ m then m else s) < -m / 2 then -m / 2
        else (if s ≥ m then m else s)) ≤ m := by
  split_ifs <;> constructor <;> linarith

/-- The friction statements and the snap to zero of `Car.#move` keep a speed
in `[-maxspeed/2, maxspeed]` there. -/
theorem friction_bounds (m f s : α) (hm : 0 ≤ m) (hf : 0 ≤ f)
    (hs : -m / 2 ≤ s ∧ s ≤ m) :
    -m / 2 ≤ (if |if (if s < 0 then s + f else s) > 0 then (if s < 0 then s + f else s) - f
          else (if s < 0 then s + f else s)| < f then 0
        else if (if s < 0 then s + f else s) > 0 then (if s < 0 then s + f else s) - f
          else (if s < 0 then s + f else s)) ∧
    (if |if (if s < 0 then s + f else s) > 0 then (if s < 0 then s + f else s) - f
          else (if s < 0 then s + f else s)| < f then 0
        else if (if s < 0 then s + f else s) > 0 then (if s < 0 then s + f else s) - f
          else (if s < 0 then s + f else s)) ≤ m := by
  obtain ⟨h1, h2⟩ := hs
  have hhalf : -m / 2 ≤ 0 := by linarith
  by_cases hneg : s < 0
  · simp only [hneg, if_true]
    by_cases hpos : s + f > 0
    · have habs : |s + f - f| < f := by
        rw [add_sub_cancel_right, abs_of_neg hneg]; linarith
      simp only [hpos, if_true, habs]
      exact ⟨hhalf, hm⟩
    · simp only [hpos, if_false]
      split_ifs
      · exact ⟨hhalf, hm⟩
      · constructor <;> linarith
  · simp only [hneg, if_false]
    by_cases hpos : s > 0
    · simp only [hpos, if_true]
      split_ifs with habs
      · exact ⟨hhalf, hm⟩
      · rw [abs_lt, not_and_or, not_lt, not_lt] at habs
        rcases habs with h | h <;> constructor <;> linarith
    · simp only [hpos, if_false]
      split_ifs
      · exact ⟨hhalf, hm⟩
      · constructor <;> linarith

/-- The speed assigned by `Car.#move` is within the clamp. -/
theorem Car.nextSpeed_bounds (car : Car α) (hmax : 0 ≤ car.maxspeed)
    (hf : 0 ≤ car.friction) :
    -car.maxspeed / 2 ≤ car.nextSpeed ∧ car.nextSpeed ≤ car.maxspeed :=
  friction_bounds car.maxspeed car.friction _ hmax hf (clamp_bounds car.maxspeed _ hmax)

theorem Car.move_speed (M : JsMath α) (car : Car α) :
    (car.move M).speed = car.nextSpeed := rfl

theorem Car.move_maxspeed (M : JsMath α) (car : Car α) :
    (car.move M).maxspeed = car.maxspeed := rfl

theorem Car.move_friction (M : JsMath α) (car : Car α) :
    (car.move M).friction = car.friction := rfl

theorem Car.move_acceleration (M : JsMath α) (car : Car α) :
    (car.move M).acceleration = car.acceleration := rfl

/-- Driving keeps `maxspeed` and `friction`, and keeps the speed within the
clamp once it is there. -/
theorem Car.drive_invariant (M : JsMath α) (flags : List Controls) (car : Car α)
    (hmax : 0 ≤ car.maxspeed) (hf : 0 ≤ car.friction)
    (hs : -car.maxspeed / 2 ≤ car.speed ∧ car.speed ≤ car.maxspeed) :
    (car.drive M flags).maxspeed = car.maxspeed ∧
    (car.drive M flags).friction = car.friction ∧
    -car.maxspeed / 2 ≤ (car.drive M flags).speed ∧
    (car.drive M flags).speed ≤ car.maxspeed := by
  induction flags generalizing car with
  | nil => exact ⟨rfl, rfl, hs⟩
  | cons c cs ih =>
    have hb := Car.nextSpeed_bounds { car with controls := c } hmax hf
    exact ih ({ car with controls := c }.move M) hmax hf hb

/-- C7: for every car with `maxspeed >= 0` and `friction >= 0`, every prior
speed and every setting of the control flags, the speed after one move is in
`[-maxspeed/2, maxspeed]`; hence so is the speed after any non-empty sequence
of moves under any flags (in particular `forward` on every tick, or `reverse`
only), and after any sequence when the starting speed is already there. -/
theorem Car.move_speed_within_clamp (M : JsMath α) (car : Car α)
    (hmax : 0 ≤ car.maxspeed) (hf : 0 ≤ car.friction) :
    (-car.maxspeed / 2 ≤ (car.move M).speed ∧ (car.move M).speed ≤ car.maxspeed) ∧
    (∀ c : Controls, ∀ cs : List Controls,
      -car.maxspeed / 2 ≤ (car.drive M (c :: cs)).speed ∧
      (car.drive M (c :: cs)).speed ≤ car.maxspeed) ∧
    ((-car.maxspeed / 2 ≤ car.speed ∧ car.speed ≤ car.maxspeed) →
      ∀ cs : List Controls,
        -car.maxspeed / 2 ≤ (car.drive M cs).speed ∧
        (car.drive M cs).speed ≤ car.maxspeed) := by
  refine ⟨Car.nextSpeed_bounds car hmax hf, ?_, ?_⟩
  · intro c cs
    have hb := Car.nextSpeed_bounds { car with controls := c } hmax hf
    exact (Car.drive_invariant M cs ({ car with controls := c }.move M) hmax hf hb).2.2
  · intro hs cs
    exact (Car.drive_invariant M cs car hmax hf hs).2.2

/-- Witness for C7: the car built by the constructor with the default
`maxspeed = 3` (acceleration `0.2`, friction `0.05`, speed `0`), driven with
`forward` on every tick and with `reverse` only. -/
theorem Car.move_speed_within_clamp_witness :
    (0 : ℝ) ≤ 3 ∧ (0 : ℝ) ≤ 0.05 ∧
    (∀ n : ℕ,
      (((Car.new ⟨Real.sin, Real.cos, fun a b => Real.sqrt (a ^ 2 + b ^ 2),
            fun a b => Complex.arg ⟨b, a⟩, Real.pi⟩
          0 0 30 50 "KEYS" (3 : ℝ) (fun _ => 0) 0).1.drive
        ⟨Real.sin, Real.cos, fun a b => Real.sqrt (a ^ 2 + b ^ 2),
            fun a b => Complex.arg ⟨b, a⟩, Real.pi⟩
        (List.replicate n ⟨true, false, false, false⟩)).speed ≤ 3) ∧
      (-(3 : ℝ) / 2 ≤ ((Car.new ⟨Real.sin, Real.cos, fun a b => Real.sqrt (a ^ 2 + b ^ 2),
            fun a b => Complex.arg ⟨b, a⟩, Real.pi⟩
          0 0 30 50 "KEYS" (3 : ℝ) (fun _ => 0) 0).1.drive
        ⟨Real.sin, Real.cos, fun a b => Real.sqrt (a ^ 2 + b ^ 2),
            fun a b => Complex.arg ⟨b, a⟩, Real.pi⟩
        (List.replicate n ⟨false, false, false, true⟩)).speed)) :=
  ⟨by norm_num, by norm_num, fun n =>
    ⟨((Car.move_speed_within_clamp _ (Car.new _ 0 0 30 50 "KEYS" (3 : ℝ) (fun _ => 0) 0).1
        (show (0 : ℝ) ≤ 3 by norm_num) (show (0 : ℝ) ≤ 0.05 by norm_num)).2.2
        ⟨show -(3 : ℝ) / 2 ≤ 0 by norm_num, show (0 : ℝ) ≤ 3 by norm_num⟩ _).2,
     ((Car.move_speed_within_clamp _ (Car.new _ 0 0 30 50 "KEYS" (3 : ℝ) (fun _ => 0) 0).1
        (show (0 : ℝ) ≤ 3 by norm_num) (show (0 : ℝ) ≤ 0.05 by norm_num)).2.2
        ⟨show -(3 : ℝ) / 2 ≤ 0 by norm_num, show (0 : ℝ) ≤ 3 by norm_num⟩ _).1⟩⟩

/-- The perception block of `Car.update` does not throw on a car whose brain
is well formed, and changes only the sensor, the brain and the controls. -/
theorem Car.perceive_ok (M : JsMath α) (car : Car α) (sensor : Sensor α)
    (roadBorders : List (Segment α)) (traffic : List (List (Point α)))
    (brain : NeuralNetwork α) (hbrain : car.brain = some brain)
    (hwf : brain.WellFormed) :
    ∃ car', car.perceive M sensor roadBorders traffic = Except.ok car' ∧
      car'.x = car.x ∧ car'.y = car.y ∧ car'.angle = car.angle ∧
      car'.speed = car.speed ∧ car'.polygon = car.polygon ∧
      car'.damaged = car.damaged ∧ car'.BrainReady := by
  obtain ⟨r, hr, hr'⟩ := NeuralNetwork.feedForward_ok
    ((sensor.update M car.x car.y car.angle roadBorders traffic).readings.map fun s =>
      match s with
      | none => some (0 : α)
      | some touch => some (1 - touch.offset)) brain hwf
  refine ⟨{ car with
      sensor := some (sensor.update M car.x car.y car.angle roadBorders traffic)
      brain := some r.2
      controls :=
        if car.useBrain then
          { forward := truthy (r.1[0]?).join
            left := truthy (r.1[1]?).join
            right := truthy (r.1[2]?).join
            reverse := truthy (r.1[3]?).join }
        else car.controls }, ?_, rfl, rfl, rfl, rfl, rfl, rfl, hr'⟩
  unfold Car.perceive
  simp only [hbrain]
  rw [hr]
  rfl

/-- Whenever the perception block of `Car.update` returns, it has changed
only the sensor, the brain and the controls. -/
theorem Car.perceive_frozen (M : JsMath α) (car car' : Car α) (sensor : Sensor α)
    (roadBorders : List (Segment α)) (traffic : List (List (Point α)))
    (h : car.perceive M sensor roadBorders traffic = Except.ok car') :
    car'.x = car.x ∧ car'.y = car.y ∧ car'.angle = car.angle ∧
      car'.speed = car.speed ∧ car'.polygon = car.polygon ∧
      car'.damaged = car.damaged := by
  unfold Car.perceive at h
  cases hbr : car.brain with
  | none => simp [hbr] at h
  | some brain =>
    simp only [hbr] at h
    cases hff : NeuralNetwork.feedForward
      ((sensor.update M car.x car.y car.angle roadBorders traffic).readings.map fun s =>
        match s with
        | none => some (0 : α)
        | some touch => some (1 - touch.offset)) brain with
    | error e => rw [hff] at h; cases h
    | ok r =>
      rw [hff] at h
      cases h
      exact ⟨rfl, rfl, rfl, rfl, rfl, rfl⟩

/-- Whenever `Car.update` returns on a damaged car, the pose, the speed, the
polygon and the damaged flag are as they were. -/
theorem Car.update_frozen (M : JsMath α) (car car' : Car α)
    (roadBorders : List (Segment α)) (traffic : List (List (Point α)))
    (hd : car.damaged = true)
    (h : car.update M roadBorders traffic = Except.ok car') :
    car'.x = car.x ∧ car'.y = car.y ∧ car'.angle = car.angle ∧
      car'.speed = car.speed ∧ car'.polygon = car.polygon ∧ car'.damaged = true := by
  unfold Car.update at h
  simp only [hd, Bool.not_true, Bool.false_eq_true, if_false] at h
  cases hs : car.sensor with
  | none =>
    rw [hs] at h
    cases h
    exact ⟨rfl, rfl, rfl, rfl, rfl, hd⟩
  | some sensor =>
    rw [hs] at h
    obtain ⟨hx, hy, ha, hsp, hp, hdm⟩ :=
      Car.perceive_frozen M car car' sensor roadBorders traffic h
    exact ⟨hx, hy, ha, hsp, hp, hdm.trans hd⟩

/-- Whenever a sequence of updates returns on a damaged car, the pose, the
speed, the polygon and the damaged flag are as they were. -/
theorem Car.run_frozen (M : JsMath α) (ticks : List (Tick α)) (car car' : Car α)
    (hd : car.damaged = true) (h : car.run M ticks = Except.ok car') :
    car'.x = car.x ∧ car'.y = car.y ∧ car'.angle = car.angle ∧
      car'.speed = car.speed ∧ car'.polygon = car.polygon ∧ car'.damaged = true := by
  induction ticks generalizing car with
  | nil => cases h; exact ⟨rfl, rfl, rfl, rfl, rfl, hd⟩
  | cons t ts ih =>
    change (do
      let car ← Car.update M { car with controls := t.keys car.controls }
        t.roadBorders t.traffic
      Car.run M car ts : Except JsError _) = _ at h
    cases hu : Car.update M { car with controls := t.keys car.controls }
        t.roadBorders t.traffic with
    | error e => rw [hu] at h; cases h
    | ok car1 =>
      rw [hu] at h
      obtain ⟨hx, hy, ha, hsp, hp, hdm⟩ :=
        Car.update_frozen M { car with controls := t.keys car.controls } car1
          t.roadBorders t.traffic hd hu
      obtain ⟨hx2, hy2, ha2, hsp2, hp2, hdm2⟩ := ih car1 hdm h
      exact ⟨hx2.trans hx, hy2.trans hy, ha2.trans ha, hsp2.trans hsp, hp2.trans hp, hdm2⟩

/-- On a damaged car with a ready brain `Car.update` does not throw, and
leaves the brain ready. -/
theorem Car.update_of_damaged (M : JsMath α) (car : Car α)
    (roadBorders : List (Segment α)) (traffic : List (List (Point α)))
    (hd : car.damaged = true) (hb : car.BrainReady) :
    ∃ car', car.update M roadBorders traffic = Except.ok car' ∧ car'.BrainReady := by
  unfold Car.update
  simp only [hd, Bool.not_true, Bool.false_eq_true, if_false]
  unfold Car.BrainReady at hb
  cases hs : car.sensor with
  | none =>
    refine ⟨car, rfl, ?_⟩
    unfold Car.BrainReady
    rw [hs]
    trivial
  | some sensor =>
    cases hbr : car.brain with
    | none => rw [hs, hbr] at hb; exact hb.elim
    | some brain =>
      rw [hs, hbr] at hb
      obtain ⟨car', h1, _, _, _, _, _, _, hready⟩ :=
        Car.perceive_ok M car sensor roadBorders traffic brain hbr hb
      exact ⟨car', h1, hready⟩

/-- On a damaged car with a ready brain a sequence of updates does not
throw. -/
theorem Car.run_of_damaged (M : JsMath α) (ticks : List (Tick α)) (car : Car α)
    (hd : car.damaged = true) (hb : car.BrainReady) :
    ∃ car', car.run M ticks = Except.ok car' := by
  induction ticks generalizing car with
  | nil => exact ⟨car, rfl⟩
  | cons t ts ih =>
    obtain ⟨car1, h1, hready⟩ :=
      Car.update_of_damaged M { car with controls := t.keys car.controls }
        t.roadBorders t.traffic hd hb
    have hd1 : car1.damaged = true :=
      (Car.update_frozen M { car with controls := t.keys car.controls } car1
        t.roadBorders t.traffic hd h1).2.2.2.2.2
    obtain ⟨car2, h2⟩ := ih car1 hd1 hready
    refine ⟨car2, ?_⟩
    show (do
      let car ← Car.update M { car with controls := t.keys car.controls }
        t.roadBorders t.traffic
      Car.run M car ts : Except JsError _) = _
    rw [h1]
    exact h2

/-- C6: on a car whose damaged flag is true, for every road-border list,
traffic list and setting of the control flags, whenever `Car.update` returns
it has left `x`, `y`, `angle`, `speed` and `polygon` unchanged and `damaged`
true, and so has any sequence of updates, whatever the key events between
them; and when the sensor comes with a well-formed brain, as the constructor
provides, the update and every sequence of updates do return. -/
theorem Car.update_damaged_frozen (M : JsMath α) (car : Car α)
    (hd : car.damaged = true) :
    (∀ (controls : Controls) (roadBorders : List (Segment α))
        (traffic : List (List (Point α))) (car' : Car α),
      Car.update M { car with controls := controls } roadBorders traffic
          = Except.ok car' →
        car'.x = car.x ∧ car'.y = car.y ∧ car'.angle = car.angle ∧
        car'.speed = car.speed ∧ car'.polygon = car.polygon ∧ car'.damaged = true) ∧
    (∀ (ticks : List (Tick α)) (car' : Car α), car.run M ticks = Except.ok car' →
        car'.x = car.x ∧ car'.y = car.y ∧ car'.angle = car.angle ∧
        car'.speed = car.speed ∧ car'.polygon = car.polygon ∧ car'.damaged = true) ∧
    (car.BrainReady →
      (∀ (controls : Controls) (roadBorders : List (Segment α))
          (traffic : List (List (Point α))),
        ∃ car', Car.update M { car with controls := controls } roadBorders traffic
          = Except.ok car') ∧
      (∀ ticks : List (Tick α), ∃ car', car.run M ticks = Except.ok car')) := by
  refine ⟨?_, ?_, ?_⟩
  · intro controls roadBorders traffic car' h
    exact Car.update_frozen M { car with controls := controls } car' roadBorders traffic hd h
  · intro ticks car' h
    exact Car.run_frozen M ticks car car' hd h
  · intro hb
    constructor
    · intro controls roadBorders traffic
      obtain ⟨car', h, _⟩ :=
        Car.update_of_damaged M { car with controls := controls } roadBorders traffic hd hb
      exact ⟨car', h⟩
    · intro ticks
      exact Car.run_of_damaged M ticks car hd hb

/-- Witness for C6: the car built by the constructor with `controlsType`
`'AI'` (all draws `0`), marked damaged, updated once with `forward` set, no
borders and no traffic: the update returns a car with the same pose. -/
theorem Car.update_damaged_frozen_witness :
    ∃ car', Car.update ⟨Real.sin, Real.cos, fun a b => Real.sqrt (a ^ 2 + b ^ 2),
          fun a b => Complex.arg ⟨b, a⟩, Real.pi⟩
        { ({ (Car.new ⟨Real.sin, Real.cos, fun a b => Real.sqrt (a ^ 2 + b ^ 2),
          fun a b => Complex.arg ⟨b, a⟩, Real.pi⟩
        0 0 30 50 "AI" (3 : ℝ) (fun _ => 0) 0).1 with damaged := true } : Car ℝ) with
          controls := ⟨true, false, false, false⟩ } [] [] = Except.ok car' ∧
      car'.x = 0 ∧ car'.y = 0 ∧ car'.angle = 0 ∧ car'.speed = 0 ∧
      car'.polygon = none ∧ car'.damaged = true :=
  have hready : ({ (Car.new ⟨Real.sin, Real.cos, fun a b => Real.sqrt (a ^ 2 + b ^ 2),
          fun a b => Complex.arg ⟨b, a⟩, Real.pi⟩
        0 0 30 50 "AI" (3 : ℝ) (fun _ => 0) 0).1 with damaged := true } : Car ℝ).BrainReady := by
    show NeuralNetwork.WellFormed _
    decide
  have hall := Car.update_damaged_frozen ⟨Real.sin, Real.cos, fun a b => Real.sqrt (a ^ 2 + b ^ 2),
          fun a b => Complex.arg ⟨b, a⟩, Real.pi⟩
    ({ (Car.new ⟨Real.sin, Real.cos, fun a b => Real.sqrt (a ^ 2 + b ^ 2),
          fun a b => Complex.arg ⟨b, a⟩, Real.pi⟩
        0 0 30 50 "AI" (3 : ℝ) (fun _ => 0) 0).1 with damaged := true } : Car ℝ) rfl
  (hall.2.2 hready).1 ⟨true, false, false, false⟩ [] [] |>.elim fun car' h =>
    ⟨car', h, hall.1 ⟨true, false, false, false⟩ [] [] car' h⟩

/-- The speed assigned by `Car.#move`, as acceleration, clamp and friction
in turn. -/
theorem Car.nextSpeed_eq (car : Car α) :
    car.nextSpeed = applyFriction car.friction (clampSpeed car.maxspeed
      (if car.controls.reverse then
        (if car.controls.forward then car.speed + car.acceleration else car.speed)
          - car.acceleration
      else (if car.controls.forward then car.speed + car.acceleration else car.speed))) :=
  rfl

/-- One move under `forward` only, for `maxspeed = 3`, `acceleration = 0.2`,
`friction = 0.05` and a non-negative speed: the speed grows by `0.15`, or
becomes `2.95` once `speed + 0.2` reaches `3`. -/
theorem Car.nextSpeed_forward (car : Car α) (hmax : car.maxspeed = 3)
    (hacc : car.acceleration = 0.2) (hfr : car.friction = 0.05)
    (hf : car.controls.forward = true) (hr : car.controls.reverse = false)
    (h0 : 0 ≤ car.speed) :
    car.nextSpeed = if 3 ≤ car.speed + 1 / 5 then 59 / 20 else car.speed + 3 / 20 := by
  rw [Car.nextSpeed_eq, hmax, hacc, hfr, hf, hr]
  simp only [if_true, Bool.false_eq_true, if_false]
  unfold clampSpeed
  by_cases h : 3 ≤ car.speed + 1 / 5
  · have h1 : car.speed + 0.2 ≥ 3 := by norm_num; linarith
    have h2 : ¬ ((3 : α) < -3 / 2) := by norm_num
    simp only [h1, if_true, h2, if_false, h]
    unfold applyFriction
    have h3 : ¬ ((3 : α) < 0) := by norm_num
    have h4 : (3 : α) > 0 := by norm_num
    have h5 : ¬ (|(3 : α) - 0.05| < 0.05) := by
      rw [abs_of_pos (by norm_num)]; norm_num
    simp only [h3, if_false, h4, if_true, h5]
    norm_num
  · have h1 : ¬ (car.speed + 0.2 ≥ 3) := by norm_num; linarith
    have h2 : ¬ (car.speed + 0.2 < -3 / 2) := by norm_num; linarith
    simp only [h1, if_false, h2, h]
    unfold applyFriction
    have h3 : ¬ (car.speed + 0.2 < 0) := by norm_num; linarith
    have h4 : car.speed + 0.2 > 0 := by norm_num; linarith
    have h5 : ¬ (|car.speed + 0.2 - 0.05| < 0.05) := by
      rw [abs_of_pos (by norm_num; linarith)]; norm_num; linarith
    simp only [h3, if_false, h4, if_true, h5]
    norm_num
    ring

/-- Driving through `cs` and then `c` is driving through `cs` and moving once
under `c`. -/
theorem Car.drive_append (M : JsMath α) (cs : List Controls) (c : Controls) (car : Car α) :
    car.drive M (cs ++ [c]) = { car.drive M cs with controls := c }.move M := by
  induction cs generalizing car with
  | nil => rfl
  | cons d ds ih => exact ih ({ car with controls := d }.move M)

/-- Driving keeps `maxspeed`, `acceleration` and `friction`. -/
theorem Car.drive_params (M : JsMath α) (cs : List Controls) (car : Car α) :
    (car.drive M cs).maxspeed = car.maxspeed ∧
    (car.drive M cs).acceleration = car.acceleration ∧
    (car.drive M cs).friction = car.friction := by
  induction cs generalizing car with
  | nil => exact ⟨rfl, rfl, rfl⟩
  | cons d ds ih => exact ih ({ car with controls := d }.move M)

/-- The speed after `n` moves under `forward` only, from speed `0`, for
`maxspeed = 3`, `acceleration = 0.2`, `friction = 0.05`. -/
theorem Car.drive_forward_speed (M : JsMath α) (car : Car α) (hmax : car.maxspeed = 3)
    (hacc : car.acceleration = 0.2) (hfr : car.friction = 0.05) (hs : car.speed = 0)
    (c : ℕ → Controls) (hc : ∀ n, (c n).forward = true ∧ (c n).reverse = false) (n : ℕ) :
    (car.drive M ((List.range n).map c)).speed
      = if n < 20 then 3 * (n : α) / 20 else 59 / 20 := by
  induction n with
  | zero => simp [Car.drive, hs]
  | succ n ih =>
    obtain ⟨pm, pa, pf⟩ := Car.drive_params M ((List.range n).map c) car
    have h0 : 0 ≤ (car.drive M ((List.range n).map c)).speed := by
      rw [ih]; split_ifs
      · positivity
      · norm_num
    have hstep := Car.nextSpeed_forward
      { car.drive M ((List.range n).map c) with controls := c n }
      (pm.trans hmax) (pa.trans hacc) (pf.trans hfr) (hc n).1 (hc n).2 h0
    rw [List.range_succ, List.map_append, List.map_singleton, Car.drive_append,
      Car.move_speed, hstep]
    show (if 3 ≤ (car.drive M ((List.range n).map c)).speed + 1 / 5 then (59 : α) / 20
      else (car.drive M ((List.range n).map c)).speed + 3 / 20) = _
    rw [ih]
    by_cases h20 : n < 20
    · have hn : (n : α) ≤ 19 := by exact_mod_cast Nat.le_of_lt_succ h20
      by_cases h19 : n + 1 < 20
      · have hn' : (n : α) + 1 ≤ 19 := by exact_mod_cast Nat.le_of_lt_succ h19
        have hlt : ¬ ((3 : α) ≤ 3 * (n : α) / 20 + 1 / 5) := by
          rw [not_le]; linarith
        simp only [h20, h19, if_true, hlt, if_false]
        push_cast; ring
      · have hn' : (n : α) = 19 := by
          have : n = 19 := by omega
          rw [this]; norm_num
        have hge : (3 : α) ≤ 3 * (n : α) / 20 + 1 / 5 := by
          rw [hn']; norm_num
        simp only [h20, h19, if_true, hge, if_false]
    · have h19 : ¬ (n + 1 < 20) := by omega
      have hge : (3 : α) ≤ 59 / 20 + 1 / 5 := by norm_num
      simp only [h20, h19, if_false, hge, if_true]

/-- C8 (as amended): for a car with `maxspeed = 3`, `acceleration = 0.2`,
`friction = 0.05` and speed `0` that receives `forward` and not `reverse` on
every tick, the speed after `n` moves is `0.15 n` for `n < 20` and `2.95`
from then on, so the sequence of speeds converges to `2.95`, which is
`maxspeed - friction`. -/
theorem Car.forward_speed_converges (M : JsMath ℝ) (car : Car ℝ)
    (hmax : car.maxspeed = 3) (hacc : car.acceleration = 0.2)
    (hfr : car.friction = 0.05) (hs : car.speed = 0)
    (c : ℕ → Controls) (hc : ∀ n, (c n).forward = true ∧ (c n).reverse = false) :
    (∀ n : ℕ, (car.drive M ((List.range n).map c)).speed
      = if n < 20 then 3 * (n : ℝ) / 20 else 59 / 20) ∧
    Filter.Tendsto (fun n : ℕ => (car.drive M ((List.range n).map c)).speed)
      Filter.atTop (nhds (59 / 20)) := by
  refine ⟨Car.drive_forward_speed M car hmax hacc hfr hs c hc, ?_⟩
  apply tendsto_atTop_of_eventually_const
  intro n hn
  rw [Car.drive_forward_speed M car hmax hacc hfr hs c hc n]
  have h20 : ¬ (n < 20) := not_lt.mpr hn
  simp only [h20, if_false]

/-- Witness for C8 (as amended): the car built by the constructor with the
default `maxspeed = 3`, with `forward` set on every tick. -/
theorem Car.forward_speed_converges_witness :
    Filter.Tendsto (fun n : ℕ =>
      ((Car.new ⟨Real.sin, Real.cos, fun a b => Real.sqrt (a ^ 2 + b ^ 2),
          fun a b => Complex.arg ⟨b, a⟩, Real.pi⟩
          0 0 30 50 "KEYS" (3 : ℝ) (fun _ => 0) 0).1.drive
        ⟨Real.sin, Real.cos, fun a b => Real.sqrt (a ^ 2 + b ^ 2),
          fun a b => Complex.arg ⟨b, a⟩, Real.pi⟩
        ((List.range n).map fun _ => ⟨true, false, false, false⟩)).speed)
      Filter.atTop (nhds (59 / 20)) :=
  (Car.forward_speed_converges ⟨Real.sin, Real.cos, fun a b => Real.sqrt (a ^ 2 + b ^ 2),
          fun a b => Complex.arg ⟨b, a⟩, Real.pi⟩
    (Car.new ⟨Real.sin, Real.cos, fun a b => Real.sqrt (a ^ 2 + b ^ 2),
          fun a b => Complex.arg ⟨b, a⟩, Real.pi⟩
      0 0 30 50 "KEYS" (3 : ℝ) (fun _ => 0) 0).1
    rfl rfl rfl rfl (fun _ => ⟨true, false, false, false⟩) (fun _ => ⟨rfl, rfl⟩)).2

/-- C8 (counterexample): for the car built by the constructor with the default
`maxspeed = 3` (acceleration `0.2`, friction `0.05`, speed `0`), with
`forward` set and `reverse` clear on every tick, the sequence of speeds does
not converge to `3`. -/
theorem Car.forward_speed_not_to_maxspeed :
    ¬ Filter.Tendsto (fun n : ℕ =>
      ((Car.new ⟨Real.sin, Real.cos, fun a b => Real.sqrt (a ^ 2 + b ^ 2),
          fun a b => Complex.arg ⟨b, a⟩, Real.pi⟩
          0 0 30 50 "KEYS" (3 : ℝ) (fun _ => 0) 0).1.drive
        ⟨Real.sin, Real.cos, fun a b => Real.sqrt (a ^ 2 + b ^ 2),
          fun a b => Complex.arg ⟨b, a⟩, Real.pi⟩
        ((List.range n).map fun _ => ⟨true, false, false, false⟩)).speed)
      Filter.atTop (nhds 3) := by
  intro h
  have h' : Filter.Tendsto (fun n : ℕ =>
      ((Car.new ⟨Real.sin, Real.cos, fun a b => Real.sqrt (a ^ 2 + b ^ 2),
          fun a b => Complex.arg ⟨b, a⟩, Real.pi⟩
          0 0 30 50 "KEYS" (3 : ℝ) (fun _ => 0) 0).1.drive
        ⟨Real.sin, Real.cos, fun a b => Real.sqrt (a ^ 2 + b ^ 2),
          fun a b => Complex.arg ⟨b, a⟩, Real.pi⟩
        ((List.range n).map fun _ => ⟨true, false, false, false⟩)).speed)
      Filter.atTop (nhds (59 / 20)) := by
    apply tendsto_atTop_of_eventually_const
    intro n hn
    rw [Car.drive_forward_speed _ _ rfl rfl rfl rfl (fun _ => ⟨true, false, false, false⟩)
      (fun _ => ⟨rfl, rfl⟩) n]
    have h20 : ¬ (n < 20) := not_lt.mpr hn
    simp only [h20, if_false]
  have := tendsto_nhds_unique h h'
  norm_num at this

/-- C20: for every car state and every setting of the left/right flags, one
move with `forward` and `reverse` both set gives the same speed, angle, `x`
and `y` as one move with both cleared. -/
theorem Car.move_forward_reverse_cancel (M : JsMath α) (car : Car α) (left right : Bool) :
    ({ car with controls := ⟨true, left, right, true⟩ }.move M).speed
      = ({ car with controls := ⟨false, left, right, false⟩ }.move M).speed ∧
    ({ car with controls := ⟨true, left, right, true⟩ }.move M).angle
      = ({ car with controls := ⟨false, left, right, false⟩ }.move M).angle ∧
    ({ car with controls := ⟨true, left, right, true⟩ }.move M).x
      = ({ car with controls := ⟨false, left, right, false⟩ }.move M).x ∧
    ({ car with controls := ⟨true, left, right, true⟩ }.move M).y
      = ({ car with controls := ⟨false, left, right, false⟩ }.move M).y := by
  have hs : ({ car with controls := ⟨true, left, right, true⟩ } : Car α).nextSpeed
      = ({ car with controls := ⟨false, left, right, false⟩ } : Car α).nextSpeed := by
    rw [Car.nextSpeed_eq, Car.nextSpeed_eq]
    simp only [if_true, Bool.false_eq_true, if_false, add_sub_cancel_right]
  have ha : ∀ s : α, ({ car with controls := ⟨true, left, right, true⟩ } : Car α).nextAngle s
      = ({ car with controls := ⟨false, left, right, false⟩ } : Car α).nextAngle s :=
    fun _ => rfl
  refine ⟨hs, ?_, ?_, ?_⟩
  · show Car.nextAngle _ (Car.nextSpeed _) = Car.nextAngle _ (Car.nextSpeed _)
    rw [hs, ha]
  · show car.x - M.sin (Car.nextAngle _ (Car.nextSpeed _)) * Car.nextSpeed _
      = car.x - M.sin (Car.nextAngle _ (Car.nextSpeed _)) * Car.nextSpeed _
    rw [hs, ha]
  · show car.y - M.cos (Car.nextAngle _ (Car.nextSpeed _)) * Car.nextSpeed _
      = car.y - M.cos (Car.nextAngle _ (Car.nextSpeed _)) * Car.nextSpeed _
    rw [hs, ha]

/-- For positive `w` and `h`, with `alpha = atan2(w, h)` and
`rad = hypot(w, h) / 2`: `sin(alpha) * rad = w / 2` and
`cos(alpha) * rad = h / 2`. -/
theorem half_sides (w h : ℝ) (hw : 0 < w) (hh : 0 < h) :
    Real.sin (Complex.arg ⟨h, w⟩) * (Real.sqrt (w ^ 2 + h ^ 2) / 2) = w / 2 ∧
    Real.cos (Complex.arg ⟨h, w⟩) * (Real.sqrt (w ^ 2 + h ^ 2) / 2) = h / 2 := by
  have hne : (⟨h, w⟩ : ℂ) ≠ 0 := by
    intro hz
    have := congrArg Complex.re hz
    simp at this
    linarith
  have habs : Complex.abs ⟨h, w⟩ = Real.sqrt (w ^ 2 + h ^ 2) := by
    rw [Complex.abs_apply, Complex.normSq_mk]
    congr 1
    ring
  have hpos : 0 < Real.sqrt (w ^ 2 + h ^ 2) := Real.sqrt_pos.mpr (by positivity)
  rw [Complex.sin_arg, Complex.cos_arg hne, habs]
  constructor
  · field_simp
  · field_simp

/-- The coordinates of the four corners relative to the centre, for heading
`a`, half width `u` and half height `v`. -/
theorem corner_offsets (a al rad u v : ℝ) (hs : Real.sin al * rad = u)
    (hc : Real.cos al * rad = v) :
    Real.sin (a - al) * rad = Real.sin a * v - Real.cos a * u ∧
    Real.cos (a - al) * rad = Real.cos a * v + Real.sin a * u ∧
    Real.sin (a + al) * rad = Real.sin a * v + Real.cos a * u ∧
    Real.cos (a + al) * rad = Real.cos a * v - Real.sin a * u ∧
    Real.sin (Real.pi + a - al) * rad = -(Real.sin a * v - Real.cos a * u) ∧
    Real.cos (Real.pi + a - al) * rad = -(Real.cos a * v + Real.sin a * u) ∧
    Real.sin (Real.pi + a + al) * rad = -(Real.sin a * v + Real.cos a * u) ∧
    Real.cos (Real.pi + a + al) * rad = -(Real.cos a * v - Real.sin a * u) := by
  refine ⟨?_, ?_, ?_, ?_, ?_, ?_, ?_, ?_⟩
  · rw [Real.sin_sub]; linear_combination Real.sin a * hc - Real.cos a * hs
  · rw [Real.cos_sub]; linear_combination Real.cos a * hc + Real.sin a * hs
  · rw [Real.sin_add]; linear_combination Real.sin a * hc + Real.cos a * hs
  · rw [Real.cos_add]; linear_combination Real.cos a * hc - Real.sin a * hs
  · rw [Real.sin_sub, Real.sin_add, Real.cos_add, Real.sin_pi, Real.cos_pi]
    linear_combination -Real.sin a * hc + Real.cos a * hs
  · rw [Real.cos_sub, Real.sin_add, Real.cos_add, Real.sin_pi, Real.cos_pi]
    linear_combination -Real.cos a * hc - Real.sin a * hs
  · rw [Real.sin_add, Real.sin_add, Real.cos_add, Real.sin_pi, Real.cos_pi]
    linear_combination -Real.sin a * hc - Real.cos a * hs
  · rw [Real.cos_add, Real.sin_add, Real.cos_add, Real.sin_pi, Real.cos_pi]
    linear_combination -Real.cos a * hc + Real.sin a * hs

/-- The polygon of `Car.#createPolygon` in terms of the sine and cosine of
the heading and of the half sides. -/
theorem Car.createPolygon_eq (car : Car ℝ) (hw : 0 < car.width) (hh : 0 < car.height) :
    car.createPolygon ⟨Real.sin, Real.cos, fun a b => Real.sqrt (a ^ 2 + b ^ 2),
          fun a b => Complex.arg ⟨b, a⟩, Real.pi⟩
      = [ ⟨car.x - (Real.sin car.angle * (car.height / 2)
              - Real.cos car.angle * (car.width / 2)),
           car.y - (Real.cos car.angle * (car.height / 2)
              + Real.sin car.angle * (car.width / 2))⟩,
          ⟨car.x - (Real.sin car.angle * (car.height / 2)
              + Real.cos car.angle * (car.width / 2)),
           car.y - (Real.cos car.angle * (car.height / 2)
              - Real.sin car.angle * (car.width / 2))⟩,
          ⟨car.x - -(Real.sin car.angle * (car.height / 2)
              - Real.cos car.angle * (car.width / 2)),
           car.y - -(Real.cos car.angle * (car.height / 2)
              + Real.sin car.angle * (car.width / 2))⟩,
          ⟨car.x - -(Real.sin car.angle * (car.height / 2)
              + Real.cos car.angle * (car.width / 2)),
           car.y - -(Real.cos car.angle * (car.height / 2)
              - Real.sin car.angle * (car.width / 2))⟩ ] := by
  obtain ⟨hs, hc⟩ := half_sides car.width car.height hw hh
  obtain ⟨e0, e1, e2, e3, e4, e5, e6, e7⟩ :=
    corner_offsets car.angle (Complex.arg ⟨car.height, car.width⟩)
      (Real.sqrt (car.width ^ 2 + car.height ^ 2) / 2) (car.width / 2) (car.height / 2) hs hc
  simp only [Car.createPolygon, e0, e1, e2, e3, e4, e5, e6, e7]

/-- C17: for every pose and every `width > 0` and `height > 0`, the car
polygon has exactly 4 vertices, each at distance `hypot(width, height) / 2`
from `(x, y)`; taken cyclically they are the corners of a rectangle centred at
`(x, y)` (both diagonals have their midpoint there) with `|p0p1| = |p2p3| =
width` and `|p1p2| = |p3p0| = height`; at angle `0` they are
`(x+width/2, y-height/2)`, `(x-width/2, y-height/2)`, `(x-width/2, y+height/2)`,
`(x+width/2, y+height/2)`. -/
theorem Car.createPolygon_rectangle (car : Car ℝ) (hw : 0 < car.width)
    (hh : 0 < car.height) :
    ∃ p0 p1 p2 p3 : Point ℝ,
      car.createPolygon ⟨Real.sin, Real.cos, fun a b => Real.sqrt (a ^ 2 + b ^ 2),
          fun a b => Complex.arg ⟨b, a⟩, Real.pi⟩ = [p0, p1, p2, p3] ∧
      (Real.sqrt ((p0.x - car.x) ^ 2 + (p0.y - car.y) ^ 2)
          = Real.sqrt (car.width ^ 2 + car.height ^ 2) / 2 ∧
        Real.sqrt ((p1.x - car.x) ^ 2 + (p1.y - car.y) ^ 2)
          = Real.sqrt (car.width ^ 2 + car.height ^ 2) / 2 ∧
        Real.sqrt ((p2.x - car.x) ^ 2 + (p2.y - car.y) ^ 2)
          = Real.sqrt (car.width ^ 2 + car.height ^ 2) / 2 ∧
        Real.sqrt ((p3.x - car.x) ^ 2 + (p3.y - car.y) ^ 2)
          = Real.sqrt (car.width ^ 2 + car.height ^ 2) / 2) ∧
      (Real.sqrt ((p1.x - p0.x) ^ 2 + (p1.y - p0.y) ^ 2) = car.width ∧
        Real.sqrt ((p3.x - p2.x) ^ 2 + (p3.y - p2.y) ^ 2) = car.width ∧
        Real.sqrt ((p2.x - p1.x) ^ 2 + (p2.y - p1.y) ^ 2) = car.height ∧
        Real.sqrt ((p0.x - p3.x) ^ 2 + (p0.y - p3.y) ^ 2) = car.height) ∧
      (p0.x + p2.x = 2 * car.x ∧ p0.y + p2.y = 2 * car.y ∧
        p1.x + p3.x = 2 * car.x ∧ p1.y + p3.y = 2 * car.y) ∧
      (car.angle = 0 →
        p0 = ⟨car.x + car.width / 2, car.y - car.height / 2⟩ ∧
        p1 = ⟨car.x - car.width / 2, car.y - car.height / 2⟩ ∧
        p2 = ⟨car.x - car.width / 2, car.y + car.height / 2⟩ ∧
        p3 = ⟨car.x + car.width / 2, car.y + car.height / 2⟩) := by
  have hsc := Real.sin_sq_add_cos_sq car.angle
  have hrad : Real.sqrt (car.width ^ 2 + car.height ^ 2) / 2
      = Real.sqrt ((car.width / 2) ^ 2 + (car.height / 2) ^ 2) := by
    have h4 : (car.width / 2) ^ 2 + (car.height / 2) ^ 2
        = (car.width ^ 2 + car.height ^ 2) / 2 ^ 2 := by ring
    rw [h4, Real.sqrt_div (by positivity), Real.sqrt_sq (by norm_num)]
  refine ⟨_, _, _, _, Car.createPolygon_eq car hw hh, ⟨?_, ?_, ?_, ?_⟩, ⟨?_, ?_, ?_, ?_⟩,
    ⟨by ring, by ring, by ring, by ring⟩, ?_⟩
  · rw [hrad]; congr 1
    linear_combination ((car.width / 2) ^ 2 + (car.height / 2) ^ 2) * hsc
  · rw [hrad]; congr 1
    linear_combination ((car.width / 2) ^ 2 + (car.height / 2) ^ 2) * hsc
  · rw [hrad]; congr 1
    linear_combination ((car.width / 2) ^ 2 + (car.height / 2) ^ 2) * hsc
  · rw [hrad]; congr 1
    linear_combination ((car.width / 2) ^ 2 + (car.height / 2) ^ 2) * hsc
  · rw [Real.sqrt_eq_iff_mul_self_eq_of_pos hw]
    linear_combination -(car.width ^ 2) * hsc
  · rw [Real.sqrt_eq_iff_mul_self_eq_of_pos hw]
    linear_combination -(car.width ^ 2) * hsc
  · rw [Real.sqrt_eq_iff_mul_self_eq_of_pos hh]
    linear_combination -(car.height ^ 2) * hsc
  · rw [Real.sqrt_eq_iff_mul_self_eq_of_pos hh]
    linear_combination -(car.height ^ 2) * hsc
  · intro h0
    rw [h0, Real.sin_zero, Real.cos_zero]
    refine ⟨?_, ?_, ?_, ?_⟩ <;> (congr 1 <;> ring)

/-- Witness for C17: the car built by the constructor at the origin with
width 30 and height 50, heading `0`: its polygon is the axis-parallel
rectangle of corners `(15, -25)`, `(-15, -25)`, `(-15, 25)`, `(15, 25)`. -/
theorem Car.createPolygon_rectangle_witness :
    ∃ p0 p1 p2 p3 : Point ℝ,
      (Car.new ⟨Real.sin, Real.cos, fun a b => Real.sqrt (a ^ 2 + b ^ 2),
          fun a b => Complex.arg ⟨b, a⟩, Real.pi⟩
          0 0 30 50 "KEYS" (3 : ℝ) (fun _ => 0) 0).1.createPolygon
        ⟨Real.sin, Real.cos, fun a b => Real.sqrt (a ^ 2 + b ^ 2),
          fun a b => Complex.arg ⟨b, a⟩, Real.pi⟩ = [p0, p1, p2, p3] ∧
      p0 = ⟨0 + 30 / 2, 0 - 50 / 2⟩ ∧ p1 = ⟨0 - 30 / 2, 0 - 50 / 2⟩ ∧
      p2 = ⟨0 - 30 / 2, 0 + 50 / 2⟩ ∧ p3 = ⟨0 + 30 / 2, 0 + 50 / 2⟩ :=
  (Car.createPolygon_rectangle
    (Car.new ⟨Real.sin, Real.cos, fun a b => Real.sqrt (a ^ 2 + b ^ 2),
          fun a b => Complex.arg ⟨b, a⟩, Real.pi⟩
      0 0 30 50 "KEYS" (3 : ℝ) (fun _ => 0) 0).1
    (show (0 : ℝ) < 30 by norm_num) (show (0 : ℝ) < 50 by norm_num)).elim
    fun p0 h0 => h0.elim fun p1 h1 => h1.elim fun p2 h2 => h2.elim fun p3 h3 =>
      ⟨p0, p1, p2, p3, h3.1, h3.2.2.2.2 rfl⟩

/-- C21: in one move, with `s` the speed after acceleration, clamping and
friction: if `s = 0` the angle is unchanged whatever the left/right flags; if
`s > 0` the angle changes by `+0.013` for left and `-0.013` for right; if
`s < 0` by `-0.013` for left and `+0.013` for right; with left and right both
set the angle is unchanged; and the position changes by
`(-sin(angle') * s, -cos(angle') * s)` for the updated angle `angle'`. -/
theorem Car.move_steering (M : JsMath α) (car : Car α) :
    (car.move M).speed = car.nextSpeed ∧
    (car.nextSpeed = 0 → (car.move M).angle = car.angle) ∧
    (0 < car.nextSpeed →
      (car.move M).angle = car.angle + (if car.controls.left then 0.013 else 0)
        - (if car.controls.right then 0.013 else 0)) ∧
    (car.nextSpeed < 0 →
      (car.move M).angle = car.angle - (if car.controls.left then 0.013 else 0)
        + (if car.controls.right then 0.013 else 0)) ∧
    (car.controls.left = true → car.controls.right = true →
      (car.move M).angle = car.angle) ∧
    (car.move M).x - car.x = -M.sin (car.move M).angle * car.nextSpeed ∧
    (car.move M).y - car.y = -M.cos (car.move M).angle * car.nextSpeed := by
  have hangle : (car.move M).angle = car.nextAngle car.nextSpeed := rfl
  have hx : (car.move M).x = car.x - M.sin (car.move M).angle * car.nextSpeed := rfl
  have hy : (car.move M).y = car.y - M.cos (car.move M).angle * car.nextSpeed := rfl
  refine ⟨rfl, ?_, ?_, ?_, ?_, by rw [hx]; ring, by rw [hy]; ring⟩
  · intro h0
    rw [hangle]
    unfold Car.nextAngle
    simp only [h0, ne_eq, not_true_eq_false, if_false]
  · intro hpos
    rw [hangle]
    unfold Car.nextAngle
    simp only [ne_eq, ne_of_gt hpos, not_false_eq_true, if_true, gt_iff_lt, hpos]
    split_ifs <;> ring
  · intro hneg
    rw [hangle]
    unfold Car.nextAngle
    simp only [ne_eq, ne_of_lt hneg, not_false_eq_true, if_true, gt_iff_lt,
      not_lt_of_gt hneg, if_false]
    split_ifs <;> ring
  · intro hl hr
    rw [hangle]
    unfold Car.nextAngle
    simp only [hl, hr, if_true]
    split_ifs <;> ring

/-- Witness for C21: the car built by the constructor with the default
`maxspeed = 3`, with `forward` and `left` set: the speed after the move is
positive and the angle grows by `0.013`. -/
theorem Car.move_steering_witness :
    (0 : ℝ) < ({ (Car.new ⟨Real.sin, Real.cos, fun a b => Real.sqrt (a ^ 2 + b ^ 2),
          fun a b => Complex.arg ⟨b, a⟩, Real.pi⟩
        0 0 30 50 "KEYS" (3 : ℝ) (fun _ => 0) 0).1 with
        controls := ⟨true, true, false, false⟩ } : Car ℝ).nextSpeed ∧
    (({ (Car.new ⟨Real.sin, Real.cos, fun a b => Real.sqrt (a ^ 2 + b ^ 2),
          fun a b => Complex.arg ⟨b, a⟩, Real.pi⟩
        0 0 30 50 "KEYS" (3 : ℝ) (fun _ => 0) 0).1 with
        controls := ⟨true, true, false, false⟩ } : Car ℝ).move
      ⟨Real.sin, Real.cos, fun a b => Real.sqrt (a ^ 2 + b ^ 2),
          fun a b => Complex.arg ⟨b, a⟩, Real.pi⟩).angle = 0 + 0.013 - 0 :=
  have hpos : (0 : ℝ) < ({ (Car.new ⟨Real.sin, Real.cos, fun a b => Real.sqrt (a ^ 2 + b ^ 2),
          fun a b => Complex.arg ⟨b, a⟩, Real.pi⟩
        0 0 30 50 "KEYS" (3 : ℝ) (fun _ => 0) 0).1 with
        controls := ⟨true, true, false, false⟩ } : Car ℝ).nextSpeed := by
    rw [Car.nextSpeed_forward _ rfl rfl rfl rfl rfl (le_refl (0 : ℝ))]
    show (0 : ℝ) < if (3 : ℝ) ≤ 0 + 1 / 5 then 59 / 20 else 0 + 3 / 20
    norm_num
  ⟨hpos, (Car.move_steering ⟨Real.sin, Real.cos, fun a b => Real.sqrt (a ^ 2 + b ^ 2),
          fun a b => Complex.arg ⟨b, a⟩, Real.pi⟩
    ({ (Car.new ⟨Real.sin, Real.cos, fun a b => Real.sqrt (a ^ 2 + b ^ 2),
          fun a b => Complex.arg ⟨b, a⟩, Real.pi⟩
        0 0 30 50 "KEYS" (3 : ℝ) (fun _ => 0) 0).1 with
        controls := ⟨true, true, false, false⟩ } : Car ℝ)).2.2.1 hpos⟩

/-- With an odd number `2 m + 1` of rays the middle ray, of index `m`, points
along the heading. -/
theorem Sensor.rayAngle_middle (sensor : Sensor α) (carAngle : α) (m : Nat)
    (hodd : sensor.rayCount = 2 * m + 1) :
    sensor.rayAngle carAngle m = carAngle := by
  rw [Sensor.rayAngle_eq]
  split_ifs with h1
  · rfl
  · have hm : m ≠ 0 := by
      intro h0
      apply h1
      rw [hodd, h0]
    have hm' : (m : α) ≠ 0 := Nat.cast_ne_zero.mpr hm
    rw [hodd]
    push_cast
    field_simp
    ring

/-- C22: the sensor and the motion use the same angle frame: for every car
pose and every odd `rayCount = 2 m + 1` (five in the constructor, `m = 2`),
the middle ray, of index `m = (rayCount - 1) / 2`, starts at the car and its
end minus its start is `rayLength` times `(-sin(angle), -cos(angle))`; and the
displacement of one move is the speed times `(-sin(angle'), -cos(angle'))`
for the angle `angle'` after the move, so that for a move ending at the same
angle the two vectors are proportional, ray to `rayLength` as displacement to
speed. -/
theorem Sensor.middle_ray_along_heading (M : JsMath α) (sensor : Sensor α)
    (x y angle : α) (m : Nat) (hodd : sensor.rayCount = 2 * m + 1) :
    (sensor.rayCount - 1) / 2 = m ∧
    (∃ ray, (sensor.castRays M x y angle).rays[m]? = some ray ∧
      ray.1 = ⟨x, y⟩ ∧
      ray.2.x - ray.1.x = sensor.rayLength * -M.sin angle ∧
      ray.2.y - ray.1.y = sensor.rayLength * -M.cos angle ∧
      ∀ car : Car α,
        (car.move M).x - car.x = (car.move M).speed * -M.sin (car.move M).angle ∧
        (car.move M).y - car.y = (car.move M).speed * -M.cos (car.move M).angle ∧
        ((car.move M).angle = angle →
          (ray.2.x - ray.1.x) * (car.move M).speed
            = sensor.rayLength * ((car.move M).x - car.x) ∧
          (ray.2.y - ray.1.y) * (car.move M).speed
            = sensor.rayLength * ((car.move M).y - car.y))) ∧
    (Sensor.new M).rayCount = 2 * 2 + 1 := by
  refine ⟨by rw [hodd]; omega, ?_, rfl⟩
  have hi : m < sensor.rayCount := by rw [hodd]; omega
  refine ⟨_, Sensor.castRays_getElem? M sensor x y angle m hi, rfl, ?_, ?_, ?_⟩
  · rw [Sensor.rayAngle_middle sensor angle m hodd]
    ring
  · rw [Sensor.rayAngle_middle sensor angle m hodd]
    ring
  · intro car
    have hx : (car.move M).x = car.x - M.sin (car.move M).angle * (car.move M).speed := rfl
    have hy : (car.move M).y = car.y - M.cos (car.move M).angle * (car.move M).speed := rfl
    refine ⟨by rw [hx]; ring, by rw [hy]; ring, ?_⟩
    intro ha
    rw [Sensor.rayAngle_middle sensor angle m hodd]
    constructor
    · rw [hx, ha]; ring
    · rw [hy, ha]; ring

/-- Witness for C22: the sensor of the constructor (five rays, so `m = 2`) on
a car at the origin with heading `0`: the middle ray is `150` times
`(-sin 0, -cos 0)`. -/
theorem Sensor.middle_ray_along_heading_witness :
    ∃ ray : Segment ℝ,
      ((Sensor.new ⟨Real.sin, Real.cos, fun a b => Real.sqrt (a ^ 2 + b ^ 2),
          fun a b => Complex.arg ⟨b, a⟩, Real.pi⟩).castRays
        ⟨Real.sin, Real.cos, fun a b => Real.sqrt (a ^ 2 + b ^ 2),
          fun a b => Complex.arg ⟨b, a⟩, Real.pi⟩ 0 0 0).rays[2]? = some ray ∧
      ray.1 = ⟨0, 0⟩ ∧
      ray.2.x - ray.1.x = 150 * -Real.sin 0 ∧
      ray.2.y - ray.1.y = 150 * -Real.cos 0 :=
  (Sensor.middle_ray_along_heading ⟨Real.sin, Real.cos, fun a b => Real.sqrt (a ^ 2 + b ^ 2),
          fun a b => Complex.arg ⟨b, a⟩, Real.pi⟩
    (Sensor.new ⟨Real.sin, Real.cos, fun a b => Real.sqrt (a ^ 2 + b ^ 2),
          fun a b => Complex.arg ⟨b, a⟩, Real.pi⟩) 0 0 0 2 rfl).2.1.elim
    fun ray h => ⟨ray, h.1, h.2.1, h.2.2.1, h.2.2.2.1⟩

/-- The clamps keep a non-negative speed non-negative. -/
theorem clampSpeed_nonneg (m s : α) (hm : 0 ≤ m) (hs : 0 ≤ s) : 0 ≤ clampSpeed m s := by
  unfold clampSpeed
  simp only [ge_iff_le]
  split_ifs <;> linarith

/-- Friction and the snap to zero keep a non-negative speed non-negative. -/
theorem applyFriction_nonneg (f s : α) (hs : 0 ≤ s) :
    0 ≤ applyFriction f s := by
  unfold applyFriction
  have hneg : ¬ s < 0 := not_lt.mpr hs
  simp only [hneg, if_false, gt_iff_lt]
  by_cases hpos : 0 < s
  · simp only [hpos, if_true]
    split_ifs with habs
    · exact le_rfl
    · rw [abs_lt, not_and_or, not_lt, not_lt] at habs
      rcases habs with h | h <;> linarith
  · simp only [hpos, if_false]
    split_ifs <;> linarith

/-- Under `forward` only, a non-negative speed stays non-negative. -/
theorem Car.nextSpeed_nonneg (car : Car α) (hc : car.controls = ⟨true, false, false, false⟩)
    (hs : 0 ≤ car.speed) (hm : 0 ≤ car.maxspeed) (ha : 0 ≤ car.acceleration) :
    0 ≤ car.nextSpeed := by
  rw [Car.nextSpeed_eq, hc]
  simp only [Bool.false_eq_true, if_false, if_true]
  exact applyFriction_nonneg _ _ (clampSpeed_nonneg _ _ hm (by linarith))

/-- Without `left` and `right` the steering block leaves the angle. -/
theorem Car.nextAngle_straight (car : Car α) (hc : car.controls = ⟨true, false, false, false⟩)
    (s : α) : car.nextAngle s = car.angle := by
  unfold Car.nextAngle
  rw [hc]
  simp only [Bool.false_eq_true, if_false]
  split_ifs <;> rfl

/-- `Car.update` on a car without sensor. -/
theorem Car.update_of_no_sensor (M : JsMath α) (car : Car α)
    (roadBorders : List (Segment α)) (traffic : List (List (Point α)))
    (hs : car.sensor = none) :
    car.update M roadBorders traffic
      = Except.ok (if !car.damaged then car.advance M roadBorders traffic else car) := by
  unfold Car.update
  have h : (if !car.damaged then car.advance M roadBorders traffic else car).sensor = none := by
    split_ifs
    · exact hs
    · exact hs
  simp only [h]

/-- One update of a forward-only car without sensor, heading `0`: it returns,
stays forward-only without sensor and brain, keeps heading `0`, `x`, the
parameters and a non-negative speed, and does not increase `y`. -/
theorem Car.update_dummy (M : JsMath α) (hsin : M.sin 0 = 0) (hcos : M.cos 0 = 1)
    (car : Car α) (roadBorders : List (Segment α)) (traffic : List (List (Point α)))
    (hsensor : car.sensor = none) (hbrain : car.brain = none)
    (hc : car.controls = ⟨true, false, false, false⟩) (hangle : car.angle = 0)
    (hs : 0 ≤ car.speed) (hm : 0 ≤ car.maxspeed) (hf : 0 ≤ car.friction)
    (ha : 0 ≤ car.acceleration) :
    ∃ car', car.update M roadBorders traffic = Except.ok car' ∧
      car'.sensor = none ∧ car'.brain = none ∧
      car'.controls = ⟨true, false, false, false⟩ ∧ car'.angle = 0 ∧
      0 ≤ car'.speed ∧ 0 ≤ car'.maxspeed ∧ 0 ≤ car'.friction ∧ 0 ≤ car'.acceleration ∧
      car'.x = car.x ∧ car'.y ≤ car.y := by
  refine ⟨_, Car.update_of_no_sensor M car roadBorders traffic hsensor, ?_⟩
  by_cases hd : car.damaged = true
  · have hres : (if !car.damaged then car.advance M roadBorders traffic else car) = car := by
      simp [hd]
    rw [hres]
    exact ⟨hsensor, hbrain, hc, hangle, hs, hm, hf, ha, rfl, le_rfl⟩
  · have hres : (if !car.damaged then car.advance M roadBorders traffic else car)
        = car.advance M roadBorders traffic := by
      simp [hd]
    rw [hres]
    have hns := Car.nextSpeed_nonneg car hc hs hm ha
    have hna : car.nextAngle car.nextSpeed = 0 :=
      (Car.nextAngle_straight car hc _).trans hangle
    refine ⟨hsensor, hbrain, hc, hna, hns, hm, hf, ha, ?_, ?_⟩
    · show car.x - M.sin (car.nextAngle car.nextSpeed) * car.nextSpeed = car.x
      rw [hna, hsin]; ring
    · show car.y - M.cos (car.nextAngle car.nextSpeed) * car.nextSpeed ≤ car.y
      rw [hna, hcos]; linarith

/-- A sequence of updates is the updates of its first part followed by those
of the rest. -/
theorem Car.run_append (M : JsMath α) (ts us : List (Tick α)) (car : Car α) :
    car.run M (ts ++ us) = (car.run M ts).bind fun c => c.run M us := by
  induction ts generalizing car with
  | nil => rfl
  | cons t ts ih =>
    show (do
      let c ← Car.update M { car with controls := t.keys car.controls }
        t.roadBorders t.traffic
      Car.run M c (ts ++ us) : Except JsError _) = _
    cases hu : Car.update M { car with controls := t.keys car.controls }
        t.roadBorders t.traffic with
    | error e =>
      show _ = (do
        let c ← Car.update M { car with controls := t.keys car.controls }
          t.roadBorders t.traffic
        Car.run M c ts : Except JsError _).bind _
      rw [hu]; rfl
    | ok c =>
      show _ = (do
        let c ← Car.update M { car with controls := t.keys car.controls }
          t.roadBorders t.traffic
        Car.run M c ts : Except JsError _).bind _
      rw [hu]
      exact ih c

/-- Any sequence of updates, without key events, of a forward-only car
without sensor, heading `0`: it returns, and the invariants of one update
hold at the end. -/
theorem Car.run_dummy (M : JsMath α) (hsin : M.sin 0 = 0) (hcos : M.cos 0 = 1)
    (args : List (List (Segment α) × List (List (Point α)))) (car : Car α)
    (hsensor : car.sensor = none) (hbrain : car.brain = none)
    (hc : car.controls = ⟨true, false, false, false⟩) (hangle : car.angle = 0)
    (hs : 0 ≤ car.speed) (hm : 0 ≤ car.maxspeed) (hf : 0 ≤ car.friction)
    (ha : 0 ≤ car.acceleration) :
    ∃ car', car.run M (args.map fun a => ⟨id, a.1, a.2⟩) = Except.ok car' ∧
      car'.sensor = none ∧ car'.brain = none ∧
      car'.controls = ⟨true, false, false, false⟩ ∧ car'.angle = 0 ∧
      0 ≤ car'.speed ∧ 0 ≤ car'.maxspeed ∧ 0 ≤ car'.friction ∧ 0 ≤ car'.acceleration ∧
      car'.x = car.x ∧ car'.y ≤ car.y := by
  induction args generalizing car with
  | nil => exact ⟨car, rfl, hsensor, hbrain, hc, hangle, hs, hm, hf, ha, rfl, le_rfl⟩
  | cons a as ih =>
    obtain ⟨c1, h1, i1, i2, i3, i4, i5, i6, i7, i8, hx1, hy1⟩ :=
      Car.update_dummy M hsin hcos car a.1 a.2 hsensor hbrain hc hangle hs hm hf ha
    obtain ⟨c2, h2, j1, j2, j3, j4, j5, j6, j7, j8, hx2, hy2⟩ :=
      ih c1 i1 i2 i3 i4 i5 i6 i7 i8
    refine ⟨c2, ?_, j1, j2, j3, j4, j5, j6, j7, j8, hx2.trans hx1, le_trans hy2 hy1⟩
    show (do
      let c ← Car.update M { car with controls := id car.controls } a.1 a.2
      Car.run M c (as.map fun a => ⟨id, a.1, a.2⟩) : Except JsError _) = _
    have hcar : ({ car with controls := id car.controls } : Car α) = car := rfl
    rw [hcar, h1]
    exact h2

/-- C24: a car constructed with `controlsType` `'DUMMY'` and `maxspeed >= 0`
has no sensor and no brain and its controls are forward-only; with
`Math.sin(0) = 0` and `Math.cos(0) = 1`, after any sequence of update calls
with any road borders and traffic it still has no sensor, no brain and the
same controls, its angle is `0`, its `x` is unchanged and its speed is
`>= 0`, and one more update does not increase `y`. -/
theorem Car.dummy_straight_line (M : JsMath α) (hsin : M.sin 0 = 0) (hcos : M.cos 0 = 1)
    (x y width height maxspeed : α) (rand : Nat → α) (k : Nat) (hmax : 0 ≤ maxspeed) :
    (Car.new M x y width height "DUMMY" maxspeed rand k).1.sensor = none ∧
    (Car.new M x y width height "DUMMY" maxspeed rand k).1.brain = none ∧
    (Car.new M x y width height "DUMMY" maxspeed rand k).1.controls
      = ⟨true, false, false, false⟩ ∧
    ∀ args : List (List (Segment α) × List (List (Point α))),
      ∃ car', (Car.new M x y width height "DUMMY" maxspeed rand k).1.run M
          (args.map fun a => ⟨id, a.1, a.2⟩) = Except.ok car' ∧
        car'.sensor = none ∧ car'.brain = none ∧
        car'.controls = ⟨true, false, false, false⟩ ∧
        car'.angle = 0 ∧ car'.x = x ∧ 0 ≤ car'.speed ∧
        ∀ a : List (Segment α) × List (List (Point α)),
          ∃ car'', (Car.new M x y width height "DUMMY" maxspeed rand k).1.run M
              ((args ++ [a]).map fun a => ⟨id, a.1, a.2⟩) = Except.ok car'' ∧
            car''.y ≤ car'.y := by
  have h1 : (Car.new M x y width height "DUMMY" maxspeed rand k).1.sensor = none := rfl
  have h2 : (Car.new M x y width height "DUMMY" maxspeed rand k).1.brain = none := rfl
  have h3 : (Car.new M x y width height "DUMMY" maxspeed rand k).1.controls
      = ⟨true, false, false, false⟩ := rfl
  have hf : (0 : α) ≤ (Car.new M x y width height "DUMMY" maxspeed rand k).1.friction := by
    show (0 : α) ≤ 0.05
    norm_num
  have ha : (0 : α) ≤ (Car.new M x y width height "DUMMY" maxspeed rand k).1.acceleration := by
    show (0 : α) ≤ 0.2
    norm_num
  refine ⟨h1, h2, h3, fun args => ?_⟩
  obtain ⟨c1, hrun, i1, i2, i3, i4, i5, i6, i7, i8, hx, _⟩ :=
    Car.run_dummy M hsin hcos args (Car.new M x y width height "DUMMY" maxspeed rand k).1
      h1 h2 h3 rfl (le_refl (0 : α)) hmax hf ha
  refine ⟨c1, hrun, i1, i2, i3, i4, hx, i5, fun a => ?_⟩
  obtain ⟨c2, hup, _, _, _, _, _, _, _, _, _, hy⟩ :=
    Car.update_dummy M hsin hcos c1 a.1 a.2 i1 i2 i3 i4 i5 i6 i7 i8
  refine ⟨c2, ?_, hy⟩
  rw [List.map_append, Car.run_append, hrun]
  show (do
    let c ← Car.update M { c1 with controls := id c1.controls } a.1 a.2
    Car.run M c [] : Except JsError _) = _
  have hc1 : ({ c1 with controls := id c1.controls } : Car α) = c1 := rfl
  rw [hc1, hup]
  rfl

/-- Witness for C24: the `'DUMMY'` car built at the origin with `maxspeed = 2`,
updated once with no borders and no traffic. -/
theorem Car.dummy_straight_line_witness :
    ∃ car', (Car.new ⟨Real.sin, Real.cos, fun a b => Real.sqrt (a ^ 2 + b ^ 2),
          fun a b => Complex.arg ⟨b, a⟩, Real.pi⟩
        0 0 30 50 "DUMMY" (2 : ℝ) (fun _ => 0) 0).1.run
        ⟨Real.sin, Real.cos, fun a b => Real.sqrt (a ^ 2 + b ^ 2),
          fun a b => Complex.arg ⟨b, a⟩, Real.pi⟩
        ([([], [])].map fun a => ⟨id, a.1, a.2⟩) = Except.ok car' ∧
      car'.angle = 0 ∧ car'.x = 0 ∧ 0 ≤ car'.speed :=
  ((Car.dummy_straight_line ⟨Real.sin, Real.cos, fun a b => Real.sqrt (a ^ 2 + b ^ 2),
          fun a b => Complex.arg ⟨b, a⟩, Real.pi⟩
    Real.sin_zero Real.cos_zero 0 0 30 50 (2 : ℝ) (fun _ => 0) 0
    (by norm_num)).2.2.2 [([], [])]).elim
    fun car' h => ⟨car', h.1, h.2.2.2.2.1, h.2.2.2.2.2.1, h.2.2.2.2.2.2.1⟩

end CarLemmas

/-! ## Theorems: road.js -/

section RoadLemmas

variable {α : Type} [LinearOrderedField α]

/-- C18: for every road with centre `x`, `width > 0` and `laneCount >= 1`,
`left = x - width/2` and `right = x + width/2`, and for every lane index
`i >= 0`, `getLaneCenter(i) = left + (min(i, laneCount-1) + 1/2) * (width/laneCount)`,
which is strictly between `left` and `right` and is the last lane's centre
for every `i >= laneCount`. -/
theorem Road.getLaneCenter_formula (x width laneCount : α) (hw : 0 < width)
    (hn : 1 ≤ laneCount) :
    (Road.new x width laneCount).left = x - width / 2 ∧
    (Road.new x width laneCount).right = x + width / 2 ∧
    ∀ i : α, 0 ≤ i →
      (Road.new x width laneCount).getLaneCenter i
        = (Road.new x width laneCount).left
          + (min i (laneCount - 1) + 1 / 2) * (width / laneCount) ∧
      (Road.new x width laneCount).left < (Road.new x width laneCount).getLaneCenter i ∧
      (Road.new x width laneCount).getLaneCenter i < (Road.new x width laneCount).right ∧
      (laneCount ≤ i →
        (Road.new x width laneCount).getLaneCenter i
          = (Road.new x width laneCount).getLaneCenter (laneCount - 1)) := by
  have hn0 : 0 < laneCount := lt_of_lt_of_le one_pos hn
  have hlw : 0 < width / laneCount := div_pos hw hn0
  refine ⟨rfl, rfl, fun i hi => ?_⟩
  have hm0 : 0 ≤ min i (laneCount - 1) := le_min hi (by linarith)
  have hm1 : min i (laneCount - 1) ≤ laneCount - 1 := min_le_right _ _
  have hformula : (Road.new x width laneCount).getLaneCenter i
      = (x - width / 2) + (min i (laneCount - 1) + 1 / 2) * (width / laneCount) := by
    show x - width / 2 + width / laneCount / 2 + min i (laneCount - 1) * (width / laneCount)
      = _
    ring
  have hwidth : laneCount * (width / laneCount) = width := by
    field_simp
  refine ⟨hformula, ?_, ?_, ?_⟩
  · rw [hformula]
    show x - width / 2 < _
    have : 0 < (min i (laneCount - 1) + 1 / 2) * (width / laneCount) :=
      mul_pos (by linarith) hlw
    linarith
  · rw [hformula]
    show _ < x + width / 2
    have h1 : (min i (laneCount - 1) + 1 / 2) * (width / laneCount)
        < laneCount * (width / laneCount) :=
      mul_lt_mul_of_pos_right (by linarith) hlw
    rw [hwidth] at h1
    linarith
  · intro hge
    have h1 : min i (laneCount - 1) = laneCount - 1 := min_eq_right (by linarith)
    have h2 : min (laneCount - 1) (laneCount - 1) = laneCount - 1 := min_self _
    show x - width / 2 + width / laneCount / 2 + min i (laneCount - 1) * (width / laneCount)
      = x - width / 2 + width / laneCount / 2
        + min (laneCount - 1) (laneCount - 1) * (width / laneCount)
    rw [h1, h2]

/-- Witness for C18: `Road(100, 200, 3)` has `left = 0`, `right = 200` and
lane centres `100/3`, `100` and `500/3`, the last also for lane index `3`. -/
theorem Road.getLaneCenter_formula_witness :
    (Road.new (100 : ℚ) 200 3).left = 0 ∧ (Road.new (100 : ℚ) 200 3).right = 200 ∧
    (Road.new (100 : ℚ) 200 3).getLaneCenter 0 = 100 / 3 ∧
    (Road.new (100 : ℚ) 200 3).getLaneCenter 1 = 100 ∧
    (Road.new (100 : ℚ) 200 3).getLaneCenter 2 = 500 / 3 ∧
    (Road.new (100 : ℚ) 200 3).getLaneCenter 3 = 500 / 3 := by
  have h := Road.getLaneCenter_formula (100 : ℚ) 200 3 (by norm_num) (by norm_num)
  refine ⟨by rw [h.1]; norm_num, by rw [h.2.1]; norm_num, ?_, ?_, ?_, ?_⟩
  · rw [(h.2.2 0 (by norm_num)).1, h.1]; norm_num
  · rw [(h.2.2 1 (by norm_num)).1, h.1]; norm_num
  · rw [(h.2.2 2 (by norm_num)).1, h.1]; norm_num
  · rw [(h.2.2 3 (by norm_num)).1, h.1]; norm_num

end RoadLemmas

end SelfDrivingCar
